import Mathlib

/-!
# HTTP-Server: a shallow embedding of `utils.c` and `httpserver.c`

The C sources are translated function by function.  Buffers of `char` are lists of
`Char`, machine `int`s are `Int`, descriptors are explicit values, and everything the
kernel decides (what a `read` returns, whether an `open` succeeds) is an explicit
input of the model.

Layout: first the definitions (environment, regular expressions, the functions of
`utils.c`, the functions of `httpserver.c`, the vocabulary used by the statements),
then the lemmas and theorems.
-/

namespace HTTPServer

/-! ## Constants of `utils.h` -/

/-- Macro `BLOCK_2048`: the size of a block of bytes. -/
abbrev BLOCK_2048 : Nat := 2048

/-- Macro `BLOCK_256`. -/
abbrev BLOCK_256 : Nat := 256

/-- Status code `OK = 200` of `enum STATUS_CODES`. -/
abbrev OK : Int := 200
/-- Status code `CREATED = 201` of `enum STATUS_CODES`. -/
abbrev CREATED : Int := 201
/-- Status code `BAD_REQ = 400` of `enum STATUS_CODES`. -/
abbrev BAD_REQ : Int := 400
/-- Status code `FORBIDDEN = 403` of `enum STATUS_CODES`. -/
abbrev FORBIDDEN : Int := 403
/-- Status code `NOT_FOUND = 404` of `enum STATUS_CODES`. -/
abbrev NOT_FOUND : Int := 404
/-- Status code `INTER_SERV_ERROR = 500` of `enum STATUS_CODES`. -/
abbrev INTER_SERV_ERROR : Int := 500
/-- Status code `NOT_IMPL = 501` of `enum STATUS_CODES`. -/
abbrev NOT_IMPL : Int := 501

/-- Method `PUT` of `enum METHODS`, the first enumerator. -/
abbrev PUT : Int := 0
/-- Method `GET` of `enum METHODS`. -/
abbrev GET : Int := 1
/-- Method `APPEND` of `enum METHODS`. -/
abbrev APPEND : Int := 2

/-! ## C strings and machine integers -/

/-- The terminator of a C string. -/
def NUL : Char := Char.ofNat 0

/-- The C string that starts at the beginning of a region of memory: everything before
the first NUL. -/
def cstr (mem : List Char) : List Char := mem.takeWhile (fun c => c != NUL)

/-- Conversion of an `int` argument to `size_t` (64 bits), as happens to the count
passed to `read` and `sendfile`. -/
def sizeT (n : Int) : Nat := (n % 18446744073709551616).toNat

/-- Reduction of a mathematical integer to the range of a 32-bit `int` (two's
complement wrap-around). -/
def toInt32 (n : Int) : Int :=
  if (n % 4294967296).toNat < 2147483648 then ((n % 4294967296).toNat : Int)
  else ((n % 4294967296).toNat : Int) - 4294967296

/-- Reduction of a mathematical integer to the range of a 64-bit `long` by clamping,
as `strtol` does on overflow. -/
def clampLong (n : Int) : Int :=
  if n > 9223372036854775807 then 9223372036854775807
  else if n < -9223372036854775808 then -9223372036854775808 else n

/-- The text `printf("%d")` produces. -/
def fmt_d (n : Int) : List Char :=
  if n < 0 then '-' :: Nat.toDigits 10 n.natAbs else Nat.toDigits 10 n.natAbs

/-- The function `tolower` in the C locale. -/
def c_tolower (c : Char) : Char :=
  if 'A' ≤ c ∧ c ≤ 'Z' then Char.ofNat (c.toNat + 32) else c

/-- The test `strncasecmp(a, b, n) == 0`: the first `n` characters of the two strings
agree up to letter case (a string shorter than `n` must end where the other ends). -/
def strncasecmp_eq (a b : List Char) (n : Nat) : Bool :=
  (a.take n).map c_tolower == (b.take n).map c_tolower

/-- The test `strncmp(a, b, n) == 0`. -/
def strncmp_eq (a b : List Char) (n : Nat) : Bool :=
  a.take n == b.take n

/-- Position of the first occurrence of `pat` in `s`, as `strstr` finds it
(`none` is the NULL result). -/
def strstr (s pat : List Char) : Option Nat :=
  match s with
  | [] => if pat = [] then some 0 else none
  | c :: cs =>
    if pat.isPrefixOf (c :: cs) then some 0
    else (strstr cs pat).map (fun i => i + 1)

/-- The platform `isspace`, used by `%d` to skip leading blanks. -/
def c_isspace (c : Char) : Bool :=
  c == ' ' || c == '\t' || c == '\n' || c == '\r' || c == Char.ofNat 11 || c == Char.ofNat 12

/-- Value of a run of decimal digits. -/
def digitsValue (ds : List Char) : Nat :=
  ds.foldl (fun acc d => 10 * acc + (d.toNat - '0'.toNat)) 0

/-- The conversion `sscanf(s, "%d", &x)`: skip blanks, read an optional sign and a
non-empty run of digits; `none` when no digit is there (nothing is stored). -/
def scan_d (s : List Char) : Option Int :=
  let s1 := s.dropWhile c_isspace
  let (neg, s2) :=
    match s1 with
    | '-' :: r => (true, r)
    | '+' :: r => (false, r)
    | r => (false, r)
  let ds := s2.takeWhile Char.isDigit
  if ds = [] then none
  else
    let v : Int := digitsValue ds
    some (toInt32 (clampLong (if neg then -v else v)))

/-- What goes wrong when the C program leaves defined behaviour or does not return. -/
inductive Fault where
  /-- A store or load outside an array. -/
  | overrun
  /-- A NULL pointer is dereferenced. -/
  | nullptr
  /-- An uninitialised object is used. -/
  | uninit
  /-- The step budget of a loop ran out. -/
  | steps
  deriving DecidableEq, Repr

/-! ## Regular expressions (`regcomp` with `REG_EXTENDED`, `regexec`) -/

/-- Abstract syntax of the POSIX extended regular expressions the server compiles. -/
inductive Regex where
  /-- Matches no string. -/
  | nothing : Regex
  /-- Matches the empty string. -/
  | eps : Regex
  /-- One character out of a class (a bracket expression, a literal, or `.`). -/
  | cls : (Char → Bool) → Regex
  /-- Concatenation. -/
  | seq : Regex → Regex → Regex
  /-- Alternation. -/
  | alt : Regex → Regex → Regex
  /-- Repetition `*`. -/
  | star : Regex → Regex

namespace Regex

/-- Repetition `+`. -/
def plus (a : Regex) : Regex := seq a (star a)

/-- Option `?`. -/
def opt (a : Regex) : Regex := alt a eps

/-- A literal character. -/
def lit (c : Char) : Regex := cls (fun x => x == c)

/-- The character `.`: any character. -/
def any : Regex := cls (fun _ => true)

/-- Whether the expression matches the empty string. -/
def nullable : Regex → Bool
  | nothing => false
  | eps => true
  | cls _ => false
  | seq a b => nullable a && nullable b
  | alt a b => nullable a || nullable b
  | star _ => true

/-- Concatenation that collapses `nothing`. -/
def mkSeq : Regex → Regex → Regex
  | nothing, _ => nothing
  | a, b => seq a b

/-- Alternation that collapses `nothing`. -/
def mkAlt : Regex → Regex → Regex
  | nothing, b => b
  | a, nothing => a
  | a, b => alt a b

/-- Brzozowski derivative: what remains to be matched after the character `c`. -/
def deriv (c : Char) : Regex → Regex
  | nothing => nothing
  | eps => nothing
  | cls p => if p c then eps else nothing
  | seq a b =>
    if nullable a then mkAlt (mkSeq (deriv c a) b) (deriv c b) else mkSeq (deriv c a) b
  | alt a b => mkAlt (deriv c a) (deriv c b)
  | star a => mkSeq (deriv c a) (star a)

/-- Length of the longest prefix of the input the expression matches, if any. -/
def longest (r : Regex) : List Char → Option Nat
  | [] => if nullable r then some 0 else none
  | c :: cs =>
    match longest (deriv c r) cs with
    | some k => some (k + 1)
    | none => if nullable r then some 0 else none

/-- Leftmost-longest search: the first start offset (counted from `i`) at which some
prefix matches, with the longest such prefix. -/
def search (r : Regex) : List Char → Nat → Option (Nat × Nat)
  | [], i => (longest r []).map (fun k => (i, i + k))
  | c :: cs, i =>
    match longest r (c :: cs) with
    | some k => some (i, i + k)
    | none => search r cs (i + 1)

end Regex

/-- A compiled pattern: whether it starts with the anchor `^`, and its body. -/
structure Pattern where
  /-- The pattern begins with `^`. -/
  bol : Bool
  /-- The expression after the anchor. -/
  re : Regex

/-- The call `regexec` on a C string: the offsets `(rm_so, rm_eo)` of the leftmost-longest
match, `none` for `REG_NOMATCH`. -/
def regexec (p : Pattern) (s : List Char) : Option (Nat × Nat) :=
  if p.bol then (p.re.longest s).map (fun k => (0, k)) else p.re.search s 0

/-- Bracket expression `[a-zA-Z]`. -/
def isLetter (c : Char) : Bool := ('a' ≤ c && c ≤ 'z') || ('A' ≤ c && c ≤ 'Z')

/-- Bracket expression `[a-zA-Z0-9_.]`. -/
def isUriChar (c : Char) : Bool :=
  isLetter c || ('0' ≤ c && c ≤ '9') || c == '_' || c == '.'

/-- Bracket expression `[a-zA-Z0-9_.-]`. -/
def isFieldChar (c : Char) : Bool := isUriChar c || c == '-'

/-- Bracket expression `[^\r\n]`. -/
def isNotEol (c : Char) : Bool := !(c == '\r' || c == '\n')

/-- Bracket expression `[\r\n]`. -/
def isEol (c : Char) : Bool := c == '\r' || c == '\n'

/-- Bracket expression `[./]`. -/
def isDotSlash (c : Char) : Bool := c == '.' || c == '/'

/-- Bracket expression `[A-z0-9]`; the range `A-z` also holds the six characters
between `Z` and `a`. -/
def isDirChar (c : Char) : Bool := ('A' ≤ c && c ≤ 'z') || ('0' ≤ c && c ≤ '9')

open Regex in
/-- The expression `HTTP/1.1`, whose `.` stands for any character. -/
def httpToken : Regex :=
  seq (lit 'H') (seq (lit 'T') (seq (lit 'T') (seq (lit 'P') (seq (lit '/')
    (seq (lit '1') (seq any (lit '1')))))))

open Regex in
/-- The group `(/+(/?[a-zA-Z0-9_.])+)` of `REQ_REGEX`. -/
def uriGroup : Regex :=
  seq (plus (lit '/')) (plus (seq (opt (lit '/')) (cls isUriChar)))

open Regex in
/-- Macro `REQ_REGEX`, the pattern `"([a-zA-Z]+)[ ]+(/+(/?[a-zA-Z0-9_.])+)*[ ]+(HTTP/1.1)[\r\n]"`. -/
def REQ_REGEX : Pattern :=
  { bol := false
    re := seq (plus (cls isLetter)) (seq (plus (lit ' ')) (seq (star uriGroup)
            (seq (plus (lit ' ')) (seq httpToken (cls isEol))))) }

open Regex in
/-- Macro `METH_REGEX`, the pattern `"^([a-zA-Z]+)"`. -/
def METH_REGEX : Pattern :=
  { bol := true, re := plus (cls isLetter) }

open Regex in
/-- Macro `HF_REGEX`, the pattern `"([a-zA-Z0-9_.-]+: [^\r\n]+)"`. -/
def HF_REGEX : Pattern :=
  { bol := false
    re := seq (plus (cls isFieldChar)) (seq (lit ':') (seq (lit ' ') (plus (cls isNotEol)))) }

open Regex in
/-- Macro `URI_REGEX`, the pattern `"/+(/?[a-zA-Z0-9_.])*"`. -/
def URI_REGEX : Pattern :=
  { bol := false
    re := seq (plus (lit '/')) (star (seq (opt (lit '/')) (cls isUriChar))) }

/-- Macro `HTTP_REGEX`, the pattern `"HTTP/1.1"`. -/
def HTTP_REGEX : Pattern :=
  { bol := false, re := httpToken }

open Regex in
/-- Macro `DIR_REGEX`, the pattern `"([./]+/?[A-z0-9]+)+/"`. -/
def DIR_REGEX : Pattern :=
  { bol := false
    re := seq (plus (seq (plus (cls isDotSlash))
            (seq (opt (lit '/')) (plus (cls isDirChar))))) (lit '/') }

/-! ## The environment: descriptors and files -/

/-- The values of `errno` the program tells apart, and some it does not. `EWOULDBLOCK`
is the same number as `EAGAIN` on the platform. -/
inductive Errno where
  | EAGAIN
  | ENOENT
  | EACCES
  | EISDIR
  | ENOSPC
  | ECONNRESET
  | ENOTDIR
  | EFAULT
  deriving DecidableEq, Repr

/-- One thing the source of a `read` has in store: a non-empty run of bytes that have
arrived (`b` followed by `bs`); an error the next call reports (`EAGAIN`: nothing has
arrived yet); or an error that this call and every later one reports (`EISDIR` on a
directory). -/
inductive RdEv where
  | data (b : Char) (bs : List Char)
  | err (e : Errno)
  | stuck (e : Errno)
  deriving DecidableEq, Repr

/-- A readable descriptor (a socket, or a file read from its offset): the events its
reads will meet, in order.  When none is left the peer has closed, or the file has
ended, and `read` returns 0. -/
abbrev Source := List RdEv

/-- What a call of `read` returns: the bytes stored in the buffer (their number is the
return value, none for 0), or -1 with `errno`. -/
inductive RdRes where
  | got (bs : List Char)
  | failed (e : Errno)
  deriving DecidableEq, Repr

/-- Constant `SSIZE_MAX` of the platform. -/
abbrev SSIZE_MAX : Nat := 9223372036854775807

/-- The call `read(fd, buf, count)`: bytes come out in order, none is lost, at most
`count` per call; an error is reported by the one call that meets it.  A count above
`SSIZE_MAX`, which is what a negative `int` becomes as a `size_t`, is no size of a
buffer: the call fails with `EFAULT` and takes nothing from the source. -/
def sys_read (src : Source) (count : Nat) : RdRes × Source :=
  if SSIZE_MAX < count then (.failed .EFAULT, src)
  else
    match src with
    | [] => (.got [], [])
    | .err e :: rest => (.failed e, rest)
    | .stuck e :: rest => (.failed e, .stuck e :: rest)
    | .data b bs :: rest =>
      if count = 0 then (.got [], .data b bs :: rest)
      else
        match (b :: bs).drop count with
        | [] => (.got (b :: bs), rest)
        | c :: cs => (.got ((b :: bs).take count), .data c cs :: rest)

/-- All the bytes a source still delivers, errors left out; none after an error that
stays. -/
def Source.bytes : Source → List Char
  | [] => []
  | .data b bs :: rest => b :: bs ++ Source.bytes rest
  | .err _ :: rest => Source.bytes rest
  | .stuck _ :: _ => []

/-- Size of a source: a bound on the number of `read` calls that return something
other than 0 before the source is used up, when no error stays. -/
def Source.size : Source → Nat
  | [] => 0
  | .data _ bs :: rest => bs.length + 2 + Source.size rest
  | .err _ :: rest => 1 + Source.size rest
  | .stuck _ :: rest => 1 + Source.size rest

/-- What one call of `write` will do: take everything, take only `k` bytes, or fail. -/
inductive WrEv where
  | full
  | short (k : Nat)
  | err (e : Errno)
  deriving DecidableEq, Repr

/-- A writable descriptor: the bytes written to it so far and what its next calls of
`write` will do (everything is taken once the list is used up). -/
structure Dest where
  /-- Bytes written so far. -/
  content : List Char
  /-- Outcomes of the coming calls. -/
  script : List WrEv
  deriving DecidableEq, Repr

/-- What a call of `write` returns: the number of bytes taken, or -1 with `errno`. -/
inductive WrRes where
  | wrote (k : Nat)
  | failed (e : Errno)
  deriving DecidableEq, Repr

/-- The call `write(fd, buf, count)` on a destination. -/
def sys_write (d : Dest) (bs : List Char) : WrRes × Dest :=
  match d.script with
  | [] => (.wrote bs.length, { d with content := d.content ++ bs })
  | .full :: sc => (.wrote bs.length, { content := d.content ++ bs, script := sc })
  | .short k :: sc =>
    (.wrote (bs.take k).length, { content := d.content ++ bs.take k, script := sc })
  | .err e :: sc => (.failed e, { d with script := sc })

/-- The segments of a path: the stretches between its `/` characters. -/
def segments : List Char → List (List Char)
  | [] => [[]]
  | c :: r =>
    if c = '/' then [] :: segments r
    else
      match segments r with
      | [] => [[c]]
      | sg :: sgs => (c :: sg) :: sgs

/-- A place in the file system: the names that lead to it from the working directory
of the server.  The empty list is the working directory itself, and a place above it
begins with one `..` for every level. -/
abbrev Loc := List (List Char)

/-- What stands at a place: a regular file the server may open, a directory, nothing
(a name that can be created when its directory exists), or an entry every `open` of
which fails with the given `errno` (a file without permission: `EACCES`). -/
inductive Node where
  | reg (content : List Char)
  | dir
  | missing
  | noopen (e : Errno)
  deriving DecidableEq, Repr

/-- The file system: what stands at each place. -/
abbrev FS := Loc → Node

/-- The file system with the entry of one place replaced. -/
def FS.set (fs : FS) (loc : Loc) (n : Node) : FS :=
  fun q => if q = loc then n else fs q

/-- What stands at a place; the working directory and the directories above it are
directories. -/
def FS.node (fs : FS) (loc : Loc) : Node :=
  if loc.all (fun c => c == "..".toList) then .dir else fs loc

/-- The directory that holds a directory: the segment `..`. -/
def Loc.parent (loc : Loc) : Loc :=
  if loc.all (fun c => c == "..".toList) then loc ++ ["..".toList] else loc.dropLast

/-- Path resolution from the directory `loc` along the segments of a path: empty
segments and `.` stay, `..` goes up, a name that is not the last segment must be a
directory (else `ENOTDIR`, `ENOENT`, or the error of the entry).  The result is the
place of the last name, whether or not something stands there. -/
def walk (fs : FS) : Loc → List (List Char) → Except Errno Loc
  | loc, [] => .ok loc
  | loc, c :: rest =>
    if c = [] ∨ c = ".".toList then walk fs loc rest
    else if c = "..".toList then walk fs loc.parent rest
    else if rest = [] then .ok (loc ++ [c])
    else
      match fs.node (loc ++ [c]) with
      | .dir => walk fs (loc ++ [c]) rest
      | .reg _ => .error .ENOTDIR
      | .missing => .error .ENOENT
      | .noopen e => .error e

/-- Resolution of a path given to a system call, from the working directory.  The empty
path is not found.  An absolute path, which the server never forms (its paths begin
with `./`), leads out of what the model holds and is reported as not found. -/
def namei (fs : FS) (path : List Char) : Except Errno Loc :=
  if path = [] then .error .ENOENT
  else if path.head? = some '/' then .error .ENOENT
  else walk fs [] (segments path)

/-- What a path names: the entry at the place it resolves to, nothing when it does not
resolve. -/
def FS.lookup (fs : FS) (path : List Char) : Node :=
  match namei fs path with
  | .ok loc => fs.node loc
  | .error _ => .missing

/-- An open file descriptor: the path it was opened on and its file offset.  The C
value -1 (no descriptor) is `none : Option Fd`.  No name is ever removed or renamed,
so the path keeps naming the file that was opened. -/
structure Fd where
  /-- Path given to `open`. -/
  path : List Char
  /-- File offset. -/
  pos : Nat
  deriving DecidableEq, Repr

/-- The call `open(path, O_RDONLY)`: no effect on the files; a directory can be opened
for reading. -/
def sys_open (fs : FS) (path : List Char) : Except Errno Fd :=
  match namei fs path with
  | .error e => .error e
  | .ok loc =>
    match fs.node loc with
    | .reg _ => .ok { path := path, pos := 0 }
    | .dir => .ok { path := path, pos := 0 }
    | .missing => .error .ENOENT
    | .noopen e => .error e

/-- The call `open(path, O_WRONLY)`: no effect on the files; a directory cannot be
opened for writing. -/
def sys_open_wronly (fs : FS) (path : List Char) : Except Errno Fd :=
  match namei fs path with
  | .error e => .error e
  | .ok loc =>
    match fs.node loc with
    | .reg _ => .ok { path := path, pos := 0 }
    | .dir => .error .EISDIR
    | .missing => .error .ENOENT
    | .noopen e => .error e

/-- The call `open(path, O_WRONLY | O_TRUNC)`: an existing file is emptied. -/
def sys_open_trunc (fs : FS) (path : List Char) : Except Errno Fd × FS :=
  match namei fs path with
  | .error e => (.error e, fs)
  | .ok loc =>
    match fs.node loc with
    | .reg _ => (.ok { path := path, pos := 0 }, fs.set loc (.reg []))
    | .dir => (.error .EISDIR, fs)
    | .missing => (.error .ENOENT, fs)
    | .noopen e => (.error e, fs)

/-- The call `open(path, O_CREAT | O_WRONLY)`: a missing file is created empty when the
directories of the path exist, an existing one is opened as it is. -/
def sys_open_creat (fs : FS) (path : List Char) : Except Errno Fd × FS :=
  match namei fs path with
  | .error e => (.error e, fs)
  | .ok loc =>
    match fs.node loc with
    | .reg _ => (.ok { path := path, pos := 0 }, fs)
    | .dir => (.error .EISDIR, fs)
    | .missing => (.ok { path := path, pos := 0 }, fs.set loc (.reg []))
    | .noopen e => (.error e, fs)

/-- The call `mkdir(path, S_IRWXU)`: a missing name in an existing directory becomes a
directory, anything else is left alone (the call fails). -/
def sys_mkdir (fs : FS) (path : List Char) : FS :=
  match namei fs path with
  | .error _ => fs
  | .ok loc =>
    match fs.node loc with
    | .missing => fs.set loc .dir
    | _ => fs

/-- Bytes stored at an offset of a file: they replace what was there and extend the
file when they reach past its end. -/
def pwrite (content : List Char) (off : Nat) (bs : List Char) : List Char :=
  content.take off ++ bs ++ content.drop (off + bs.length)

/-- The call `sendfile(out_fd, tmp_fd, &offset, count)` with `offset = 0` and a file as
`out_fd`: up to `count` bytes from the start of the temporary file are stored at the
offset of `out_fd`.  With -1 as `out_fd` the call fails and nothing happens. -/
def sendfile_to_file (fs : FS) (out_fd : Option Fd) (tmp : List Char) (count : Int) : FS :=
  match out_fd with
  | none => fs
  | some fd =>
    match namei fs fd.path with
    | .error _ => fs
    | .ok loc =>
      match fs.node loc with
      | .reg c => fs.set loc (.reg (pwrite c fd.pos (tmp.take (sizeT count))))
      | _ => fs

/-- The call `sendfile(connfd, tmp_fd, &offset, count)` with `offset = 0` and the client
socket as destination: the bytes that go out on the socket (the socket takes them all). -/
def sendfile_to_sock (tmp : List Char) (count : Int) : List Char :=
  tmp.take (sizeT count)

/-- The call `lseek(fd, 0, SEEK_END)`: the offset moves to the end of the file. -/
def lseek_end (fs : FS) (fd : Option Fd) : Option Fd :=
  match fd with
  | none => none
  | some d =>
    match fs.lookup d.path with
    | .reg c => some { d with pos := c.length }
    | _ => some d

/-- The size a directory reports in `st_size`: one block on the file systems of the
platform.  Only its being positive matters. -/
abbrev DIR_SIZE : Int := 4096

/-- The field `st_size` after `fstat(fd, &st)`; `none` when there is no descriptor and
the structure is left unset. -/
def fstat_size (fs : FS) (fd : Option Fd) : Option Int :=
  match fd with
  | none => none
  | some d =>
    match fs.lookup d.path with
    | .reg c => some (c.length : Int)
    | .dir => some DIR_SIZE
    | _ => none

/-- A file read from an offset, as a source: its remaining bytes, then end of file.
Every `read` of a directory fails with `EISDIR`. -/
def fileSource (fs : FS) (fd : Fd) : Source :=
  match fs.lookup fd.path with
  | .reg c =>
    match c.drop fd.pos with
    | [] => []
    | b :: bs => [.data b bs]
  | .dir => [.stuck .EISDIR]
  | _ => []

/-! ## `utils.c` -/

/-- The array `STATUS_PHRASES`: the canned response of each status code; the other
slots of the array are NULL. -/
def STATUS_PHRASES (code : Int) : Option (List Char) :=
  if code = OK then some "HTTP/1.1 200 OK\r\nContent-Length: 3 \r\n\r\nOK\n".toList
  else if code = CREATED then
    some "HTTP/1.1 201 Created\r\nContent-Length: 8 \r\n\r\nCreated\n".toList
  else if code = BAD_REQ then
    some "HTTP/1.1 400 Bad Request\r\nContent-Length: 12 \r\n\r\nBad Request\n".toList
  else if code = FORBIDDEN then
    some "HTTP/1.1 403 Forbidden\r\nContent-Length: 10 \r\n\r\nForbidden\n".toList
  else if code = NOT_FOUND then
    some "HTTP/1.1 404 Not Found\r\nContent-Length: 10 \r\n\r\nNot Found\n".toList
  else if code = INTER_SERV_ERROR then
    some ("HTTP/1.1 500 Internal Server Error\r\nContent-Length: 22 \r\n\r\n"
      ++ "Internal Server Error\n").toList
  else if code = NOT_IMPL then
    some "HTTP/1.1 501 Not Implemented\r\nContent-Length: 16 \r\n\r\nNot Implemented\n".toList
  else none

/-- The function `handle_response`: the bytes it writes to the connection.  A positive
`content_length` selects the computed header (with `content_length - 1` printed),
anything else the canned response of the status code. -/
def handle_response (content_length : Int) (status_code : Int) :
    Except Fault (List Char) :=
  if content_length > 0 then
    .ok ("HTTP/1.1 200 OK\r\nContent-Length: ".toList ++ fmt_d (content_length - 1)
      ++ " \r\n\r\n".toList)
  else
    match STATUS_PHRASES status_code with
    | some phrase => .ok phrase
    | none => .error .nullptr

/-- The conversion `%s` of `sscanf`: the input after the leading blanks, up to the next
blank. -/
def scan_s (s : List Char) : List Char :=
  (s.dropWhile c_isspace).takeWhile (fun c => !c_isspace c)

/-- The function `handle_log`: the line it prints to the log file, `none` when it
prints nothing (no method token).  The two `%s` of `sscanf` store into arrays of 256
bytes without a bound: a token of 256 characters or more runs over the array. -/
def handle_log (buffer : List Char) (status_code : Int) :
    Except Fault (Option (List Char)) :=
  let s := cstr buffer
  let method := scan_s s
  if BLOCK_256 ≤ method.length then .error .overrun
  else
    let s1 := (s.dropWhile c_isspace).drop method.length
    let uri := scan_s s1
    if BLOCK_256 ≤ uri.length then .error .overrun
    else
      let req_id : Int :=
        match strstr s "Request-Id: ".toList with
        | none => 0
        | some i =>
          match scan_d (s.drop (i + 12)) with
          | some v => v
          | none => 0
      if method = [] then .ok none
      else .ok (some (method ++ ",".toList ++ uri ++ ",".toList ++ fmt_d status_code
        ++ ",".toList ++ fmt_d req_id ++ "\n".toList))

/-- The loop of `handle_dir` over `dir_buf`: `seen` is the text before the cursor; at
each `/` the text before it is handed to `mkdir`. -/
def handle_dir_loop (fs : FS) : List Char → List Char → FS
  | _, [] => fs
  | seen, c :: rest =>
    handle_dir_loop (if c = '/' then sys_mkdir fs seen else fs) (seen ++ [c]) rest

/-- The function `handle_dir`: create the directories named by the match of
`DIR_REGEX` in the path. -/
def handle_dir (fs : FS) (uri_path : List Char) : FS :=
  match regexec DIR_REGEX uri_path with
  | none => fs
  | some (so, eo) => handle_dir_loop fs [] ((uri_path.drop so).take (eo - so))

/-- The variables of a request that `handle_connection` hands to the parser by
pointer: `method`, `uri_fd`, `uri` and `status_code`. -/
structure Req where
  /-- Variable `method`, -1 until classified. -/
  method : Int
  /-- Variable `uri_fd`, `none` for -1. -/
  uri_fd : Option Fd
  /-- Text in the array `uri`. -/
  uri : List Char
  /-- Variable `status_code`. -/
  status_code : Int
  deriving DecidableEq, Repr

/-- The call `memcpy(dst, src, strlen(src))` on an array holding `dst`. -/
def memcpy_text (dst src : List Char) : List Char := src ++ dst.drop src.length

/-- The status `handle_urifd` sets when `open` fails with the given `errno`. -/
def status_of_errno (e : Errno) : Int :=
  if e = .ENOENT then NOT_FOUND
  else if e = .EACCES then FORBIDDEN
  else if e = .EISDIR then FORBIDDEN
  else BAD_REQ

/-- The function `handle_urifd`: prefix the path with `./` and, for `GET` and
`APPEND`, open it. -/
def handle_urifd (fs : FS) (r : Req) : Req :=
  if r.method = -1 then { r with status_code := NOT_IMPL }
  else
    let tmp := ("./".toList ++ r.uri).take (BLOCK_2048 - 1)
    let r1 := { r with uri := memcpy_text r.uri tmp }
    if r1.method = PUT then r1
    else if r1.method = GET then
      match sys_open fs r1.uri with
      | .ok fd => { r1 with uri_fd := some fd }
      | .error e => { r1 with uri_fd := none, status_code := status_of_errno e }
    else if r1.method = APPEND then
      match sys_open_wronly fs r1.uri with
      | .ok fd => { r1 with uri_fd := some fd }
      | .error e => { r1 with uri_fd := none, status_code := status_of_errno e }
    else r1

/-- The function `handle_request`: check the request line held in `buffer`, classify
the method, extract the path and open it. -/
def handle_request (fs : FS) (buffer : List Char) (r : Req) : Req :=
  let s := cstr buffer
  match regexec REQ_REGEX s with
  | none => { r with status_code := BAD_REQ }
  | some _ =>
    match regexec METH_REGEX s with
    | none => { r with status_code := BAD_REQ }
    | some (so, eo) =>
      let method_buf := (s.drop so).take (eo - so)
      let classified : Option Int :=
        if strncasecmp_eq method_buf "PUT".toList 3 then some PUT
        else if strncasecmp_eq method_buf "GET".toList 3 then some GET
        else if strncasecmp_eq method_buf "APPEND".toList 6 then some APPEND
        else none
      match classified with
      | none => { r with status_code := NOT_IMPL }
      | some m =>
        match regexec URI_REGEX s with
        | none => { r with method := m, status_code := BAD_REQ }
        | some (uso, ueo) =>
          let r1 := handle_urifd fs
            { r with method := m, uri := memcpy_text r.uri ((s.drop uso).take (ueo - uso)) }
          match regexec HTTP_REGEX s with
          | none => { r1 with status_code := BAD_REQ }
          | some _ => r1

/-- The conversion `sscanf(cursor, "%[^\r\n]", hf)`: its return value (-1 at the end of
the string, 0 when the first character is a CR or LF, else 1) and the text stored. -/
def scan_line (s : List Char) : Int × List Char :=
  if s = [] then (-1, [])
  else if s.takeWhile isNotEol = [] then (0, [])
  else (1, s.takeWhile isNotEol)

/-- The loop of `handle_hf`: `cursor` is an offset into `buffer`; the result is
`(length, status_code, tmp)` when the loop is left, or the early return (with `tmp`
positive) on a line that does not match `HF_REGEX`. -/
def handle_hf_loop (buffer : List Char) :
    Nat → Nat → Int → Int → Except Fault (Int × Int × Bool)
  | 0, _, _, _ => .error .steps
  | fuel + 1, cursor, length, status_code =>
    let (tmp, hf) := scan_line (cstr (buffer.drop cursor))
    if tmp > 0 then
      match regexec HF_REGEX hf with
      | none => .ok (length, BAD_REQ, true)
      | some _ =>
        let length1 :=
          if strncmp_eq hf "Content-Length: ".toList 16 then
            match scan_d (hf.drop 16) with
            | some v => v
            | none => length
          else length
        handle_hf_loop buffer fuel (cursor + hf.length + 2) length1 status_code
    else .ok (length, if tmp < 0 then BAD_REQ else status_code, false)

/-- The function `handle_hf`: read the header lines after the request line; the result
is the new `(length, status_code)`.  The array is zero past the text, so a cursor
past the end reads the empty string. -/
def handle_hf (buffer : List Char) (length status_code : Int) : Except Fault (Int × Int) :=
  match strstr (cstr buffer) "\r\n".toList with
  | none => .error .nullptr
  | some i =>
    match handle_hf_loop buffer (buffer.length + 1) (i + 2) length status_code with
    | .error f => .error f
    | .ok (len, st, true) => .ok (len, st)
    | .ok (len, st, false) => .ok (len, if len < 0 then BAD_REQ else st)

/-- The state `handle_message` leaves behind, with a record of the calls of `read`. -/
structure Msg where
  /-- Value of `*status_code`. -/
  status_code : Int
  /-- Variable `bytes`: the sum of the positive return values of `read`. -/
  bytes : Int
  /-- Descriptor `in`, what is left of it. -/
  source : Source
  /-- Descriptor `out`. -/
  dest : Dest
  /-- For each call of `read`, in order: the value of `bytes` at the call and the
  count asked for (`num_bytes`). -/
  reads : List (Int × Int)
  deriving DecidableEq, Repr

/-- The two nested loops of `handle_message`, one call of `read` per step. -/
def handle_message_loop (length : Int) : Nat → Int → Msg → Except Fault Msg
  | 0, _, _ => .error .steps
  | fuel + 1, num_bytes, m =>
    let m1 := { m with reads := m.reads ++ [(m.bytes, num_bytes)] }
    match sys_read m.source (sizeT num_bytes) with
    | (.got [], src) => .ok { m1 with source := src }
    | (.got (b :: bs), src) =>
      if BLOCK_2048 < (b :: bs).length then .error .overrun
      else
        let bytes : Int := m.bytes + ((b :: bs).length : Int)
        match sys_write m.dest (b :: bs) with
        | (.failed e, dst) =>
          if e = .EAGAIN then
            handle_message_loop length fuel num_bytes
              { m1 with bytes := bytes, source := src, dest := dst }
          else .ok { m1 with status_code := BAD_REQ, bytes := bytes, source := src, dest := dst }
        | (.wrote 0, dst) => .ok { m1 with bytes := bytes, source := src, dest := dst }
        | (.wrote (_ + 1), dst) =>
          handle_message_loop length fuel
            (if (BLOCK_2048 : Int) < length - bytes then BLOCK_2048 else length - bytes)
            { m1 with bytes := bytes, source := src, dest := dst }
    | (.failed e, src) =>
      if length = m.bytes then .ok { m1 with source := src }
      else if m.status_code = -1 then
        if e = .EAGAIN then handle_message_loop length fuel num_bytes { m1 with source := src }
        else .ok { m1 with status_code := BAD_REQ, source := src }
      else handle_message_loop length fuel num_bytes { m1 with source := src }

/-- The function `handle_message`: copy up to `length` bytes from `in` to `out`. -/
def handle_message (src : Source) (out : Dest) (length status_code : Int) :
    Except Fault Msg :=
  handle_message_loop length (src.size + 1)
    (if (BLOCK_2048 : Int) < length then BLOCK_2048 else length)
    { status_code := status_code, bytes := 0, source := src, dest := out, reads := [] }

/-- What a method handler leaves behind. -/
structure Handled where
  /-- Value of `*code` at the end. -/
  status_code : Int
  /-- The files. -/
  fs : FS
  /-- Bytes written to the client. -/
  sent : List Char
  /-- What is left to read on the connection. -/
  conn : Source

/-- The function `put_request`.  `conn` is the input side of `connfd` and `tmpw` says
how the writes to the temporary file go. -/
def put_request (fs : FS) (uri : List Char) (conn : Source) (tmpw : List WrEv)
    (length code : Int) : Except Fault Handled :=
  match handle_message conn { content := [], script := tmpw } length code with
  | .error f => .error f
  | .ok m =>
    let (opened, fs1) := sys_open_trunc fs uri
    let (urifd, fs2, code1) : Option Fd × FS × Int :=
      match opened with
      | .ok fd => (some fd, fs1, m.status_code)
      | .error e =>
        if e = .ENOENT then
          match sys_open_creat (handle_dir fs1 uri) uri with
          | (.ok fd, fs3) => (some fd, fs3, CREATED)
          | (.error _, fs3) => (none, fs3, CREATED)
        else (none, fs1, BAD_REQ)
    let fs4 := if code1 ≠ BAD_REQ then sendfile_to_file fs2 urifd m.dest.content length else fs2
    match handle_response 0 code1 with
    | .error f => .error f
    | .ok resp => .ok { status_code := code1, fs := fs4, sent := resp, conn := m.source }

/-- The function `get_request`.  `tmpw` says how the writes to the temporary file go. -/
def get_request (fs : FS) (urifd : Option Fd) (conn : Source) (tmpw : List WrEv)
    (code : Int) : Except Fault Handled :=
  match urifd, fstat_size fs urifd with
  | some fd, some size =>
    let length := toInt32 size
    match handle_response (toInt32 (length + 1)) code with
    | .error f => .error f
    | .ok resp =>
      match handle_message (fileSource fs fd) { content := [], script := tmpw } length code with
      | .error f => .error f
      | .ok m =>
        .ok { status_code := m.status_code, fs := fs,
              sent := resp ++ sendfile_to_sock m.dest.content length, conn := conn }
  | _, _ => .error .uninit

/-- The function `append_request`. -/
def append_request (fs : FS) (urifd : Option Fd) (conn : Source) (tmpw : List WrEv)
    (length code : Int) : Except Fault Handled :=
  match handle_message conn { content := [], script := tmpw } length code with
  | .error f => .error f
  | .ok m =>
    let urifd1 := lseek_end fs urifd
    let fs1 :=
      if m.status_code ≠ BAD_REQ then sendfile_to_file fs urifd1 m.dest.content length else fs
    match handle_response 0 m.status_code with
    | .error f => .error f
    | .ok resp => .ok { status_code := m.status_code, fs := fs1, sent := resp, conn := m.source }

/-! ## `httpserver.c` -/

/-- The structure `conn_struct`.  The field `fd` stands for the socket itself: what its
reads will deliver; `fdnum` is the value of the C field `fd`, the number of the
descriptor.  The field `bytes_read` is the length of the text in `buffer`. -/
structure conn_struct where
  /-- Bytes stored in `buffer` so far (the array is zero after them). -/
  buffer : List Char
  /-- Number of the descriptor, the `int` that follows `buffer` in memory. -/
  fdnum : Nat
  /-- Input side of the socket `fd`. -/
  fd : Source
  deriving DecidableEq, Repr

/-- The field `bytes_read`. -/
def conn_struct.bytes_read (conn : conn_struct) : Nat := conn.buffer.length

/-- The four bytes of an `int` in memory, lowest first. -/
def le32 (n : Nat) : List Char :=
  [Char.ofNat (n % 256), Char.ofNat (n / 256 % 256), Char.ofNat (n / 65536 % 256),
   Char.ofNat (n / 16777216 % 256)]

/-- The bytes of the structure from the start of `buffer`: the 2048 bytes of the array
(zero after the text, as `main` clears it), then the fields `fd` and `bytes_read`.
This is what a function that is handed `conn->buffer` as a string reads: when the array
is full it holds no terminator and the string runs on into `fd`. -/
def conn_struct.memory (conn : conn_struct) : List Char :=
  conn.buffer ++ List.replicate (BLOCK_2048 - conn.buffer.length) NUL
    ++ le32 conn.fdnum ++ le32 conn.bytes_read

/-- The global array `conn_queue` with the counter `socket_count`. -/
structure Queue where
  /-- Slots of `conn_queue` (NULL is `none`); only indices below 2048 are in the array. -/
  conn_queue : Nat → Option conn_struct
  /-- Variable `socket_count`. -/
  socket_count : Int

/-- The queue at program start: zeroed array, `socket_count = 0`. -/
def Queue.init : Queue := { conn_queue := fun _ => none, socket_count := 0 }

/-- The loop `for (i = 0; i < socket_count; i += 1) conn_queue[i] = conn_queue[i + 1]`,
started at index `i` with `k` iterations to go. -/
def shift_loop (cq : Nat → Option conn_struct) : Nat → Nat → (Nat → Option conn_struct)
  | _, 0 => cq
  | i, k + 1 => shift_loop (Function.update cq i (cq (i + 1))) (i + 1) k

/-- The function `get_connection`, once it holds the mutex: `none` when the caller does
not get a connection (it waits while `socket_count` is 0, and the assertion stops the
program on a negative count); otherwise the connection returned and the new queue. -/
def get_connection (q : Queue) : Option (Option conn_struct × Queue) :=
  if q.socket_count ≤ 0 then none
  else
    let count := q.socket_count - 1
    some (q.conn_queue 0,
      { conn_queue := shift_loop q.conn_queue 0 count.toNat, socket_count := count })

/-- The two statements `conn_queue[socket_count] = conn; socket_count += 1;` of
`submit_connection`.  A store at an index outside the 2048 slots is a fault. -/
def submit_store (q : Queue) (conn : conn_struct) : Except Fault Queue :=
  if 0 ≤ q.socket_count ∧ q.socket_count < BLOCK_2048 then
    .ok { conn_queue := Function.update q.conn_queue q.socket_count.toNat (some conn),
          socket_count := q.socket_count + 1 }
  else .error .overrun

/-- The function `submit_connection`, once it holds the mutex and with no other thread
around: `none` when it goes to wait on `take_conn`. -/
def submit_connection (q : Queue) (conn : conn_struct) : Option (Except Fault Queue) :=
  if q.socket_count = BLOCK_2048 - 1 then none else some (submit_store q conn)

/-- A queue operation of a single-threaded run. -/
inductive QOp where
  | submit (conn : conn_struct)
  | take

/-- A run of queue operations by one thread: the connections taken, in order, and the
final queue; `none` as soon as a call would wait or a store misses the array. -/
def run_ops (q : Queue) : List QOp → Option (List (Option conn_struct) × Queue)
  | [] => some ([], q)
  | .submit c :: ops =>
    match submit_connection q c with
    | some (.ok q1) => run_ops q1 ops
    | _ => none
  | .take :: ops =>
    match get_connection q with
    | some (c, q1) =>
      match run_ops q1 ops with
      | some (out, q2) => some (c :: out, q2)
      | none => none
    | none => none

/-- The shared state of several threads using the queue: the queue itself, the
submitters waiting inside `pthread_cond_wait(&take_conn, &mutex)`, and the submitters
already signalled that have yet to get the mutex back. -/
structure Pool where
  /-- The queue. -/
  q : Queue
  /-- Connections of the submitters waiting on `take_conn`. -/
  waiting : List conn_struct
  /-- Connections of the submitters signalled and about to resume. -/
  woken : List conn_struct

/-- The pool at program start. -/
def Pool.init : Pool := { q := Queue.init, waiting := [], woken := [] }

/-- A critical section run by some thread: a call of `submit_connection` up to its
wait, a call of `get_connection` (which signals `take_conn`), or the rest of
`submit_connection` run by a signalled submitter that got the mutex back. -/
inductive PoolStep where
  | submit (conn : conn_struct)
  | take
  | resume

/-- One critical section.  A step that cannot run now (`take` on an empty queue,
`resume` with nobody signalled) leaves the state as it is. -/
def Pool.step (p : Pool) : PoolStep → Except Fault Pool
  | .submit c =>
    if p.q.socket_count = BLOCK_2048 - 1 then .ok { p with waiting := p.waiting ++ [c] }
    else
      match submit_store p.q c with
      | .ok q1 => .ok { p with q := q1 }
      | .error f => .error f
  | .take =>
    match get_connection p.q with
    | none => .ok p
    | some (_, q1) =>
      match p.waiting with
      | [] => .ok { p with q := q1 }
      | w :: ws => .ok { q := q1, waiting := ws, woken := p.woken ++ [w] }
  | .resume =>
    match p.woken with
    | [] => .ok p
    | c :: cs =>
      match submit_store p.q c with
      | .ok q1 => .ok { p with q := q1, woken := cs }
      | .error f => .error f

/-- A schedule of critical sections, run in order. -/
def Pool.run (p : Pool) : List PoolStep → Except Fault Pool
  | [] => .ok p
  | s :: ss =>
    match p.step s with
    | .ok p1 => Pool.run p1 ss
    | .error f => .error f

/-- How the loop at the top of `handle_connection` was left: the value of
`local_read` as the outcome of the last `read`. -/
structure HeaderRead where
  /-- The connection, with the bytes stored. -/
  conn : conn_struct
  /-- Variable `status_code`. -/
  status_code : Int
  /-- Outcome of the last call of `read`. -/
  local_read : RdRes
  deriving DecidableEq, Repr

/-- The loop at the top of `handle_connection`: one byte per call of `read`, until the
string at `conn->buffer` holds `\r\n\r\n`, the array is full, or `read` returns 0
or -1. -/
def read_header : Nat → conn_struct → Int → Except Fault HeaderRead
  | 0, _, _ => .error .steps
  | fuel + 1, conn, status_code =>
    if BLOCK_2048 ≤ conn.bytes_read then .error .overrun
    else
      match sys_read conn.fd 1 with
      | (.got (b :: bs), src) =>
        let conn1 : conn_struct := { conn with buffer := conn.buffer ++ (b :: bs), fd := src }
        let found := (strstr (cstr conn1.memory) "\r\n\r\n".toList).isSome
        if BLOCK_2048 ≤ conn1.bytes_read ∧ found = false then
          .ok { conn := conn1, status_code := BAD_REQ, local_read := .got (b :: bs) }
        else if found then
          .ok { conn := conn1, status_code := status_code, local_read := .got (b :: bs) }
        else read_header fuel conn1 status_code
      | (r, src) => .ok { conn := { conn with fd := src }, status_code := status_code,
                          local_read := r }

/-- The output side of the client socket: the bytes written to it and whether it has
been closed. -/
structure Sock where
  /-- Bytes written. -/
  sent : List Char
  /-- The descriptor has been closed. -/
  closed : Bool
  deriving DecidableEq, Repr

/-- A call of `write` on the client socket: the bytes go out unless it is closed. -/
def sock_write (s : Sock) (bs : List Char) : Sock :=
  if s.closed then s else { s with sent := s.sent ++ bs }

/-- The call `close(conn->fd)`. -/
def sys_close (s : Sock) : Sock := { s with closed := true }

/-- What `handle_connection` did with a connection it finished. -/
structure Served where
  /-- Final value of `status_code`. -/
  status_code : Int
  /-- Bytes written to the client. -/
  sent : List Char
  /-- The files afterwards. -/
  fs : FS
  /-- Whether `handle_request` was called. -/
  parsed : Bool
  /-- Index into `Method_Functions` of the handler that was called, if one was. -/
  handler : Option Int
  /-- Value of `uri_fd` before the final `close`. -/
  uri_fd : Option Fd
  /-- Whether `close(conn->fd)` was reached. -/
  closed : Bool
  /-- Value of `length` when the answer was written. -/
  length : Int
  /-- Bytes stored in `conn->buffer`. -/
  buffer : List Char
  /-- Input of the socket left unread. -/
  rest : Source
  /-- What `LOG` did, after the answer and the `close`: the line it printed (`none`
  when it printed nothing), or the fault `handle_log` ran into. -/
  log : Except Fault (Option (List Char))

/-- How a call of `handle_connection` ends: the connection goes back to the queue
(`submit_connection(conn); return;`), or it has been answered and closed. -/
inductive Handling where
  | requeued (conn : conn_struct)
  | served (s : Served)

/-- The call `Method_Functions[method](uri_fd, uri, conn->fd, length, &status_code)`. -/
def call_method (fs : FS) (r : Req) (conn : Source) (tmpw : List WrEv) (length : Int) :
    Except Fault Handled :=
  if r.method = PUT then put_request fs r.uri conn tmpw length r.status_code
  else if r.method = GET then get_request fs r.uri_fd conn tmpw r.status_code
  else if r.method = APPEND then append_request fs r.uri_fd conn tmpw length r.status_code
  else .error .overrun

/-- The end of `handle_connection`, once the answer `resp` is known: it is written to
the client, then come `close(conn->fd)` and `LOG(conn->buffer, &status_code)`. -/
def finish_connection (h : HeaderRead) (status_code : Int) (resp : List Char) (fs : FS)
    (parsed : Bool) (handler : Option Int) (uri_fd : Option Fd) (length : Int)
    (rest : Source) : Served :=
  let sock := sys_close (sock_write { sent := [], closed := false } resp)
  { status_code := status_code, sent := sock.sent, fs := fs, parsed := parsed,
    handler := handler, uri_fd := uri_fd, closed := sock.closed, length := length,
    buffer := h.conn.buffer, rest := rest, log := handle_log h.conn.memory status_code }

/-- The function `handle_connection`.  `tmpw` says how the writes to the temporary file
of a handler go.  The parser and the logger are handed `conn->buffer`, that is the
string that starts there in memory. -/
def handle_connection (fs : FS) (tmpw : List WrEv) (conn : conn_struct) :
    Except Fault Handling :=
  match read_header (conn.fd.size + 1) conn OK with
  | .error f => .error f
  | .ok h =>
    let requeue : Bool :=
      match h.local_read with
      | .failed e => e = .EAGAIN
      | .got _ => false
    if requeue then .ok (.requeued h.conn)
    else
      let status_code : Int :=
        match h.local_read with
        | .failed _ => BAD_REQ
        | .got _ => h.status_code
      let canned (length status : Int) (parsed : Bool) (uri_fd : Option Fd) :
          Except Fault Handling :=
        match handle_response length status with
        | .error f => .error f
        | .ok resp =>
          .ok (.served (finish_connection h status resp fs parsed none uri_fd length h.conn.fd))
      if status_code = OK then
        let r := handle_request fs h.conn.memory
          { method := -1, uri_fd := none, uri := [], status_code := status_code }
        if r.status_code = OK ∨ r.status_code = CREATED then
          match handle_hf h.conn.memory 0 r.status_code with
          | .error f => .error f
          | .ok (length, status1) =>
            if status1 = OK ∨ status1 = CREATED then
              match call_method fs { r with status_code := status1 } h.conn.fd tmpw length with
              | .error f => .error f
              | .ok d =>
                .ok (.served (finish_connection h d.status_code d.sent d.fs true
                  (some r.method) r.uri_fd length d.conn))
            else canned length status1 true r.uri_fd
        else canned 0 r.status_code true r.uri_fd
      else canned 0 status_code false none

/-- A worker that keeps taking the same connection until it is answered: each time
`handle_connection` puts it back in the queue it is handled again. -/
def serve (fs : FS) (tmpw : List WrEv) : Nat → conn_struct → Except Fault Served
  | 0, _ => .error .steps
  | fuel + 1, conn =>
    match handle_connection fs tmpw conn with
    | .error f => .error f
    | .ok (.served s) => .ok s
    | .ok (.requeued conn1) => serve fs tmpw fuel conn1

/-! ## Vocabulary of the statements -/

/-- The files of the examples: `.//foo` holds `old`, `.//secret` cannot be opened for
lack of permission, `.//dir` is a directory, nothing else exists in the working
directory or above it. -/
def fs_example : FS := fun loc =>
  if loc = ["foo".toList] then .reg "old".toList
  else if loc = ["secret".toList] then .noopen .EACCES
  else if loc = ["dir".toList] then .dir
  else .missing

/-- What a client and an observer of one path see of a handler's run: the final status,
the bytes sent, and the entry of the path afterwards. -/
def view (path : List Char) (h : Except Fault Handled) :
    Except Fault (Int × List Char × Node) :=
  match h with
  | .error f => .error f
  | .ok d => .ok (d.status_code, d.sent, d.fs.lookup path)

namespace Regex

/-- The strings an expression matches. -/
inductive Matches : Regex → List Char → Prop
  | eps : Matches eps []
  | cls {p : Char → Bool} {c : Char} : p c = true → Matches (cls p) [c]
  | seq {a b : Regex} {u v : List Char} :
      Matches a u → Matches b v → Matches (seq a b) (u ++ v)
  | altL {a b : Regex} {u : List Char} : Matches a u → Matches (alt a b) u
  | altR {a b : Regex} {u : List Char} : Matches b u → Matches (alt a b) u
  | starNil {a : Regex} : Matches (star a) []
  | starCons {a : Regex} {u v : List Char} :
      Matches a u → Matches (star a) v → Matches (star a) (u ++ v)

end Regex

/-- The request's variables as `handle_connection` initialises them. -/
def Req.init : Req := { method := -1, uri_fd := none, uri := [], status_code := OK }

/-- The URI of the specification, after its leading `/`: non-empty segments of letters,
digits, `.` and `_`, separated by single `/`.  The flag tells whether the character
before was a `/`. -/
def spec_uri_ok : Bool → List Char → Bool
  | afterSlash, [] => !afterSlash
  | afterSlash, c :: r =>
    if c = '/' then !afterSlash && spec_uri_ok true r
    else isUriChar c && spec_uri_ok false r

/-- The request line as the specification words it: the text begins with
`METHOD SP URI SP HTTP-VERSION CRLF`, where METHOD is one or more letters, URI is one
or more `/`-rooted non-empty segments of letters, digits, `.` and `_`, and
HTTP-VERSION is literally `HTTP/1.1`. -/
def spec_request_line (s : List Char) : Bool :=
  !(s.takeWhile isLetter).isEmpty &&
    match s.dropWhile isLetter with
    | ' ' :: r =>
      (match r.takeWhile (fun c => c == '/' || isUriChar c) with
        | '/' :: t => spec_uri_ok true t
        | _ => false) &&
      " HTTP/1.1\r\n".toList.isPrefixOf (r.dropWhile (fun c => c == '/' || isUriChar c))
    | _ => false

/-- The URI part that `REQ_REGEX` lets through: nothing at all, or a text of `/` and
letters, digits, `.`, `_` that begins with `/` and ends with another character. -/
def LooseUri (u : List Char) : Prop :=
  u = [] ∨
    (u.head? = some '/' ∧ (∃ c, u.getLast? = some c ∧ isUriChar c = true) ∧
      ∀ x ∈ u, x = '/' ∨ isUriChar x = true)

/-- The request line that `REQ_REGEX` looks for, anywhere in the text: one or more
letters, one or more spaces, a URI part (possibly empty), one or more spaces, the
text `HTTP/1`, any one character, `1`, and a CR or an LF. -/
def LooseRequestLine (s : List Char) : Prop :=
  ∃ (pre m sp1 u sp2 : List Char) (c e : Char) (post : List Char),
    s = pre ++ (m ++ (sp1 ++ (u ++ (sp2 ++ ("HTTP/1".toList ++ [c, '1'] ++ [e]))))) ++ post ∧
    m ≠ [] ∧ (∀ x ∈ m, isLetter x = true) ∧
    sp1 ≠ [] ∧ (∀ x ∈ sp1, x = ' ') ∧
    LooseUri u ∧
    sp2 ≠ [] ∧ (∀ x ∈ sp2, x = ' ') ∧
    isEol e = true

/-- The text begins with a letter. -/
def BeginsWithLetter (s : List Char) : Prop :=
  ∃ c t, s = c :: t ∧ isLetter c = true

namespace Regex

/-- Whether the expression matches the whole string, by derivatives. -/
def accepts (r : Regex) (w : List Char) : Bool :=
  nullable (w.foldl (fun q c => deriv c q) r)

end Regex

/-- The URI of the specification: one or more `/`-rooted non-empty segments of letters,
digits, `.` and `_`. -/
def StrictUri (uri : List Char) : Prop :=
  ∃ segs : List (List Char), segs ≠ [] ∧
    (∀ sg ∈ segs, sg ≠ [] ∧ ∀ x ∈ sg, isUriChar x = true) ∧
    uri = (segs.map (fun sg => '/' :: sg)).flatten

/-- The method token begins with `word` when letter case is ignored (`word` is given in
lower case). -/
def BeginsNoCase (word token : List Char) : Prop :=
  (token.take word.length).map c_tolower = word

/-- The method token is taken for one of the three methods: it begins, letter case
ignored, with `put`, `get` or `append`. -/
def MethodKnown (token : List Char) : Prop :=
  BeginsNoCase "put".toList token ∨ BeginsNoCase "get".toList token ∨
    BeginsNoCase "append".toList token

/-- A connection whose socket holds the given text, not yet read.  Its descriptor is 4,
the first one `accept` returns when the log goes to standard error. -/
def conn_of (text : String) : conn_struct :=
  { buffer := [], fdnum := 4,
    fd := match text.toList with
      | [] => []
      | b :: bs => [.data b bs] }

/-- All but the first byte of `long_header`. -/
def long_header_rest : List Char :=
  "ET /foo HTTP/1.1\r\nX: ".toList ++ List.replicate 2023 'a' ++ "\r\n\r".toList

/-- A header block of exactly 2048 bytes without `\r\n\r\n`: the request line
`GET /foo HTTP/1.1`, and a header line `X: aaa...` that ends in CR LF followed by one
more CR. -/
def long_header : List Char := 'G' :: long_header_rest

/-- A source that delivers 2500 bytes without `\r\n\r\n`, the first 1000 at once, the
others after a pause: a request line and a long header line. -/
def paused_header : Source :=
  [.data 'G' ("ET /foo HTTP/1.1\r\nX: ".toList ++ List.replicate 978 'a'), .err .EAGAIN,
   .data 'a' (List.replicate 1499 'a')]

/-- What is seen of a call of `handle_connection`: `none` when the connection went
back to the queue, else the final status, the bytes sent, the handler called, the
value of `uri_fd`, and the entry of one path afterwards. -/
def view_conn (path : List Char) (h : Except Fault Handling) :
    Except Fault (Option (Int × List Char × Option Int × Option Fd × Node)) :=
  match h with
  | .error f => .error f
  | .ok (.requeued _) => .ok none
  | .ok (.served s) => .ok (some (s.status_code, s.sent, s.handler, s.uri_fd, s.fs.lookup path))

/-- The files as a call of `handle_connection` leaves them; they are unchanged when the
call does not return or puts the connection back in the queue. -/
def files_after (fs : FS) (h : Except Fault Handling) : FS :=
  match h with
  | .ok (.served s) => s.fs
  | _ => fs

/-- Equality of what `view_conn` shows of an answered connection is decidable. -/
@[instance] def instDecidableEqConnView :
    DecidableEq (Int × List Char × Option Int × Option Fd × Node) :=
  inferInstance

/-- The reason phrase of a status code in the wire protocol of the specification. -/
def reason_phrase (code : Int) : List Char :=
  if code = OK then "OK".toList
  else if code = CREATED then "Created".toList
  else if code = BAD_REQ then "Bad Request".toList
  else if code = FORBIDDEN then "Forbidden".toList
  else if code = NOT_FOUND then "Not Found".toList
  else if code = INTER_SERV_ERROR then "Internal Server Error".toList
  else if code = NOT_IMPL then "Not Implemented".toList
  else []

/-- The status line `HTTP/1.1 <code> <reason>` followed by CRLF. -/
def status_line (code : Int) : List Char :=
  "HTTP/1.1 ".toList ++ fmt_d code ++ " ".toList ++ reason_phrase code ++ "\r\n".toList

/-- The status codes the server uses. -/
def status_codes : List Int :=
  [OK, CREATED, BAD_REQ, FORBIDDEN, NOT_FOUND, INTER_SERV_ERROR, NOT_IMPL]

/-- The connections the queue holds, oldest first: the first `socket_count` slots. -/
def Queue.contents (q : Queue) : List (Option conn_struct) :=
  (List.range q.socket_count.toNat).map q.conn_queue

/-- The connections submitted by a run of queue operations, in order. -/
def submitted : List QOp → List (Option conn_struct)
  | [] => []
  | .submit c :: ops => some c :: submitted ops
  | .take :: ops => submitted ops

/-- A schedule of several threads that fills the queue past its end: 2047 submissions;
one more submitter, which goes to wait; a worker takes a connection and signals it;
before it gets the mutex back another submitter stores a connection; then it resumes
and stores its own. -/
def overfill_schedule (c : conn_struct) : List PoolStep :=
  List.replicate 2047 (.submit c) ++ [.submit c, .take, .submit c, .resume]

/-- The text `pat` occurs somewhere in `s`. -/
def Occurs (pat s : List Char) : Prop := ∃ u v, s = u ++ pat ++ v

/-- The only errors the reads of a source meet are `EAGAIN`: nothing fails, data is
at most late. -/
def OnlyLate (src : Source) : Prop := ∀ e, RdEv.err e ∈ src → e = Errno.EAGAIN

/-! ### Method handlers run by several worker threads (C11) -/

/-- A lock taken with `flock`: the thread that holds it (through its own descriptor),
the file, and whether it is `LOCK_EX`. -/
structure Flock where
  /-- Number of the thread. -/
  owner : Nat
  /-- The file, by the path it was opened on. -/
  path : List Char
  /-- The lock is exclusive (`LOCK_EX`), not shared (`LOCK_SH`). -/
  exclusive : Bool
  deriving DecidableEq, Repr

/-- The call `flock(fd, LOCK_SH)` or `flock(fd, LOCK_EX)` by the thread `me`: `none`
while the call has to wait, because another thread holds a lock on the file and one of
the two locks is exclusive; otherwise the locks with the new one granted. -/
def sys_flock (locks : List Flock) (me : Nat) (path : List Char) (exclusive : Bool) :
    Option (List Flock) :=
  if locks.any (fun l => l.owner != me && l.path == path && (exclusive || l.exclusive)) then none
  else some (⟨me, path, exclusive⟩ :: locks.filter (fun l => !(l.owner == me && l.path == path)))

/-- The call `flock(fd, LOCK_UN)` by the thread `me`. -/
def sys_funlock (locks : List Flock) (me : Nat) (path : List Char) : List Flock :=
  locks.filter (fun l => !(l.owner == me && l.path == path))

/-- A worker thread inside a method handler: which handler, which of its statements
comes next, and its parameters and local variables. -/
structure Worker where
  /-- Index into `Method_Functions` of the handler. -/
  method : Int
  /-- Number of the step to run next (see `put_step`, `get_step`, `append_step`). -/
  pc : Nat
  /-- Parameter `urifd`, `none` for -1. -/
  urifd : Option Fd
  /-- Parameter `uri`. -/
  uri : List Char
  /-- Parameter `connfd`: the input side of the socket. -/
  conn : Source
  /-- How the writes to the temporary file go. -/
  tmpw : List WrEv
  /-- Parameter `length`. -/
  length : Int
  /-- Value of `*code`. -/
  code : Int
  /-- Contents of the temporary file `tmp_fd`. -/
  tmp : List Char
  /-- Bytes written to the client so far. -/
  sent : List Char
  deriving DecidableEq, Repr

/-- The call `Method_Functions[method](uri_fd, uri, conn->fd, length, &status_code)`
about to start on a worker thread. -/
def Worker.call (r : Req) (conn : Source) (tmpw : List WrEv) (length : Int) : Worker :=
  { method := r.method, pc := 0, urifd := r.uri_fd, uri := r.uri, conn := conn, tmpw := tmpw,
    length := length, code := r.status_code, tmp := [], sent := [] }

/-- One step of `put_request` on the thread `me`; every step makes at most one system
call on the shared files and locks, but for `handle_dir`, whose calls of `mkdir` are
taken together.
Step 0: `open` of the temporary file and `handle_message(connfd, tmp_fd, &length, code)`.
Step 1: `urifd = open(uri, O_WRONLY | O_TRUNC)` and the tests of `errno`.
Step 2: `handle_dir(uri)`.  Step 3: `urifd = open(uri, O_CREAT | O_WRONLY)` and
`*code = CREATED`.  Step 4: the test `*code != BAD_REQ` and `flock(urifd, LOCK_EX)`,
which leaves the thread where it is while it has to wait.  Step 5: `sendfile`.
Step 6: `flock(urifd, LOCK_UN)`.  Step 7: `close(tmp_fd)` and `handle_response`.
At 8 the function has returned. -/
def put_step (me : Nat) (fs : FS) (locks : List Flock) (w : Worker) :
    Except Fault (Worker × FS × List Flock) :=
  match w.pc with
  | 0 =>
    match handle_message w.conn { content := [], script := w.tmpw } w.length w.code with
    | .error f => .error f
    | .ok m =>
      .ok ({ w with pc := 1, conn := m.source, tmp := m.dest.content, code := m.status_code },
        fs, locks)
  | 1 =>
    match sys_open_trunc fs w.uri with
    | (.ok fd, fs1) => .ok ({ w with pc := 4, urifd := some fd }, fs1, locks)
    | (.error e, fs1) =>
      if e = .ENOENT then .ok ({ w with pc := 2, urifd := none }, fs1, locks)
      else .ok ({ w with pc := 4, urifd := none, code := BAD_REQ }, fs1, locks)
  | 2 => .ok ({ w with pc := 3 }, handle_dir fs w.uri, locks)
  | 3 =>
    match sys_open_creat fs w.uri with
    | (.ok fd, fs1) => .ok ({ w with pc := 4, urifd := some fd, code := CREATED }, fs1, locks)
    | (.error _, fs1) => .ok ({ w with pc := 4, urifd := none, code := CREATED }, fs1, locks)
  | 4 =>
    if w.code ≠ BAD_REQ then
      match w.urifd with
      | none => .ok ({ w with pc := 5 }, fs, locks)
      | some fd =>
        match sys_flock locks me fd.path true with
        | none => .ok (w, fs, locks)
        | some locks1 => .ok ({ w with pc := 5 }, fs, locks1)
    else .ok ({ w with pc := 7 }, fs, locks)
  | 5 => .ok ({ w with pc := 6 }, sendfile_to_file fs w.urifd w.tmp w.length, locks)
  | 6 =>
    match w.urifd with
    | none => .ok ({ w with pc := 7 }, fs, locks)
    | some fd => .ok ({ w with pc := 7 }, fs, sys_funlock locks me fd.path)
  | 7 =>
    match handle_response 0 w.code with
    | .error f => .error f
    | .ok resp => .ok ({ w with pc := 8, sent := w.sent ++ resp }, fs, locks)
  | _ => .ok (w, fs, locks)

/-- One step of `get_request` on the thread `me`.
Step 0: `fstat(urifd, &uri_stat)` and `length = uri_stat.st_size`.
Step 1: `handle_response(connfd, length + 1, code)`.  Step 2: `flock(urifd, LOCK_SH)`,
which leaves the thread where it is while it has to wait.  Step 3: `open` of the
temporary file and `handle_message(urifd, tmp_fd, &length, code)`, whose reads of the
file are taken together.  Step 4: `flock(urifd, LOCK_UN)`.  Step 5:
`sendfile(connfd, tmp_fd, &offset, length)` and `close(tmp_fd)`.  At 6 the function has
returned. -/
def get_step (me : Nat) (fs : FS) (locks : List Flock) (w : Worker) :
    Except Fault (Worker × FS × List Flock) :=
  match w.pc with
  | 0 =>
    match w.urifd, fstat_size fs w.urifd with
    | some _, some size => .ok ({ w with pc := 1, length := toInt32 size }, fs, locks)
    | _, _ => .error .uninit
  | 1 =>
    match handle_response (toInt32 (w.length + 1)) w.code with
    | .error f => .error f
    | .ok resp => .ok ({ w with pc := 2, sent := w.sent ++ resp }, fs, locks)
  | 2 =>
    match w.urifd with
    | none => .ok ({ w with pc := 3 }, fs, locks)
    | some fd =>
      match sys_flock locks me fd.path false with
      | none => .ok (w, fs, locks)
      | some locks1 => .ok ({ w with pc := 3 }, fs, locks1)
  | 3 =>
    match w.urifd with
    | none => .error .uninit
    | some fd =>
      match handle_message (fileSource fs fd) { content := [], script := w.tmpw }
          w.length w.code with
      | .error f => .error f
      | .ok m => .ok ({ w with pc := 4, tmp := m.dest.content, code := m.status_code }, fs, locks)
  | 4 =>
    match w.urifd with
    | none => .ok ({ w with pc := 5 }, fs, locks)
    | some fd => .ok ({ w with pc := 5 }, fs, sys_funlock locks me fd.path)
  | 5 => .ok ({ w with pc := 6, sent := w.sent ++ sendfile_to_sock w.tmp w.length }, fs, locks)
  | _ => .ok (w, fs, locks)

/-- One step of `append_request` on the thread `me`.
Step 0: `open` of the temporary file and `handle_message(connfd, tmp_fd, &length, code)`.
Step 1: `lseek(urifd, 0, SEEK_END)`.  Step 2: the test `*code != BAD_REQ` and
`flock(urifd, LOCK_EX)`, which leaves the thread where it is while it has to wait.
Step 3: `sendfile`.  Step 4: `flock(urifd, LOCK_UN)`.  Step 5: `close(tmp_fd)` and
`handle_response`.  At 6 the function has returned. -/
def append_step (me : Nat) (fs : FS) (locks : List Flock) (w : Worker) :
    Except Fault (Worker × FS × List Flock) :=
  match w.pc with
  | 0 =>
    match handle_message w.conn { content := [], script := w.tmpw } w.length w.code with
    | .error f => .error f
    | .ok m =>
      .ok ({ w with pc := 1, conn := m.source, tmp := m.dest.content, code := m.status_code },
        fs, locks)
  | 1 => .ok ({ w with pc := 2, urifd := lseek_end fs w.urifd }, fs, locks)
  | 2 =>
    if w.code ≠ BAD_REQ then
      match w.urifd with
      | none => .ok ({ w with pc := 3 }, fs, locks)
      | some fd =>
        match sys_flock locks me fd.path true with
        | none => .ok (w, fs, locks)
        | some locks1 => .ok ({ w with pc := 3 }, fs, locks1)
    else .ok ({ w with pc := 5 }, fs, locks)
  | 3 => .ok ({ w with pc := 4 }, sendfile_to_file fs w.urifd w.tmp w.length, locks)
  | 4 =>
    match w.urifd with
    | none => .ok ({ w with pc := 5 }, fs, locks)
    | some fd => .ok ({ w with pc := 5 }, fs, sys_funlock locks me fd.path)
  | 5 =>
    match handle_response 0 w.code with
    | .error f => .error f
    | .ok resp => .ok ({ w with pc := 6, sent := w.sent ++ resp }, fs, locks)
  | _ => .ok (w, fs, locks)

/-- One step of the handler a worker runs. -/
def Worker.step (me : Nat) (fs : FS) (locks : List Flock) (w : Worker) :
    Except Fault (Worker × FS × List Flock) :=
  if w.method = PUT then put_step me fs locks w
  else if w.method = GET then get_step me fs locks w
  else if w.method = APPEND then append_step me fs locks w
  else .error .overrun

/-- Whether the handler of the worker has returned. -/
def Worker.returned (w : Worker) : Bool :=
  if w.method = PUT then w.pc == 8 else w.pc == 6

/-- The server with its worker threads inside method handlers: the files, the locks
held, and the threads. -/
structure Sys where
  /-- The files. -/
  fs : FS
  /-- The locks held. -/
  locks : List Flock
  /-- The threads, numbered from 0. -/
  workers : List Worker

/-- The thread `i` runs its next step. -/
def Sys.step (s : Sys) (i : Nat) : Except Fault Sys :=
  match s.workers[i]? with
  | none => .ok s
  | some w =>
    match w.step i s.fs s.locks with
    | .error f => .error f
    | .ok (w1, fs1, locks1) => .ok { fs := fs1, locks := locks1, workers := s.workers.set i w1 }

/-- A schedule: the numbers of the threads that run a step, in order. -/
def Sys.run (s : Sys) : List Nat → Except Fault Sys
  | [] => .ok s
  | i :: sched =>
    match s.step i with
    | .error f => .error f
    | .ok s1 => Sys.run s1 sched

/-- What is seen of a run: for every thread, whether its handler has returned, its
status and the bytes it sent; and the entry of one path. -/
def Sys.view (path : List Char) (r : Except Fault Sys) :
    Except Fault (List (Bool × Int × List Char) × Node) :=
  match r with
  | .error f => .error f
  | .ok s => .ok (s.workers.map (fun w => (w.returned, w.code, w.sent)), s.fs.lookup path)

/-- Two worker threads about to call their handlers on the files of the examples, where
`.//foo` holds `old`: thread 0 serves `PUT /foo` with the given body and its length
as `Content-Length`, thread 1 serves `GET /foo` and has the file open. -/
def race_put_get (body : String) : Sys :=
  { fs := fs_example, locks := [],
    workers :=
      [Worker.call { method := PUT, uri_fd := none, uri := ".//foo".toList, status_code := OK }
         (conn_of body).fd [] body.length,
       Worker.call { method := GET, uri_fd := some ⟨".//foo".toList, 0⟩,
                     uri := ".//foo".toList, status_code := OK } [] [] 0] }

/-- The header `handle_response` writes for a positive content length: it announces
`n` bytes. -/
def get_header (n : Int) : List Char :=
  "HTTP/1.1 200 OK\r\nContent-Length: ".toList ++ fmt_d n ++ " \r\n\r\n".toList

/-- What the client of a `GET` receives when it is sent the contents `c` in full: the
header that announces their length, and the contents. -/
def full_response (c : List Char) : List Char := get_header c.length ++ c

/-- The answer `sent` of a reader is atomic with respect to a request that changes the
file from `before` to `after`: it is the full contents from before the request or the
full contents after it, announced with their length. -/
def AtomicRead (before after sent : List Char) : Prop :=
  sent = full_response before ∨ sent = full_response after

/-- Two worker threads about to call their handlers on the file `path`, which both have
open: thread 0 serves an `APPEND` with the declared length `length`, thread 1 serves a
`GET`. -/
def race_append_get (fs : FS) (path : List Char) (conn : Source) (tmpw : List WrEv)
    (length : Int) (conn2 : Source) (tmpw2 : List WrEv) : Sys :=
  { fs := fs, locks := [],
    workers :=
      [Worker.call { method := APPEND, uri_fd := some ⟨path, 0⟩, uri := path, status_code := OK }
         conn tmpw length,
       Worker.call { method := GET, uri_fd := some ⟨path, 0⟩, uri := path, status_code := OK }
         conn2 tmpw2 0] }

/-- The appending thread of `race_append_get` when it is about to run step `k`, where
its call of `handle_message` leaves `m`, the file was `oldlen` bytes long at its
`lseek`, and `resp` is its answer. -/
def appender_at (path : List Char) (conn : Source) (tmpw : List WrEv) (length : Int)
    (m : Msg) (resp : List Char) (oldlen : Nat) (k : Nat) : Worker :=
  { method := APPEND, pc := k, urifd := some ⟨path, if 2 ≤ k then oldlen else 0⟩, uri := path,
    conn := if k = 0 then conn else m.source, tmpw := tmpw, length := length,
    code := if k = 0 then OK else m.status_code,
    tmp := if k = 0 then [] else m.dest.content,
    sent := if 6 ≤ k then resp else [] }

/-- The reading thread of `race_append_get` when it is about to run step `j`, with
`len` in its variable `length` and `tmp` in its temporary file. -/
def reader_at (path : List Char) (conn2 : Source) (tmpw2 : List WrEv) (j : Nat) (len : Int)
    (tmp : List Char) : Worker :=
  { method := GET, pc := j, urifd := some ⟨path, 0⟩, uri := path, conn := conn2, tmpw := tmpw2,
    length := len, code := OK, tmp := tmp,
    sent := if j ≤ 1 then [] else if j ≤ 5 then get_header len else get_header len ++ tmp }

/-- What holds of the reading thread at step `j` while the appending thread is at step
`k`: once `fstat` has run, `len` is the length of the file before or after the append
(the latter only once the append has been copied); the temporary file is empty until
the file has been read and holds the contents from before or after the append, `len`
bytes long, from then on. -/
def ReaderInv (old after : List Char) (k j : Nat) (len : Int) (tmp : List Char) : Prop :=
  j ≤ 6 ∧ (j = 0 → len = 0) ∧
    (1 ≤ j → len = (old.length : Int) ∨ (len = (after.length : Int) ∧ 4 ≤ k)) ∧
    (j ≤ 3 → tmp = []) ∧
    (4 ≤ j → (tmp = old ∨ tmp = after) ∧ (tmp.length : Int) = len)

/-! ### Paths (C12) -/

/-- The path has a segment `..`, which names the parent directory. -/
def HasDotDot (path : List Char) : Prop := "..".toList ∈ segments path

/-- Files of an example: the only file is `passwd` in the directory `etc` next to the
working directory, reached from it as `.//../etc/passwd`. -/
def fs_outside : FS := fun loc =>
  if loc = ["..".toList, "etc".toList] then .dir
  else if loc = ["..".toList, "etc".toList, "passwd".toList] then .reg "root".toList
  else .missing

/-- The text `u` is the leftmost-longest match of `URI_REGEX` in `s`: what precedes it
has no `/` (every match begins with one), and it cannot be extended to a longer match. -/
def FirstUriMatch (s u : List Char) : Prop :=
  ∃ pre post, s = pre ++ u ++ post ∧ (∀ x ∈ pre, x ≠ '/') ∧
    Regex.Matches URI_REGEX.re u ∧
    ∀ k, k ≤ post.length → Regex.Matches URI_REGEX.re (u ++ post.take k) → k = 0

/-! # Lemmas and theorems -/


theorem sizeT_of_nonneg {n : Int} (h0 : 0 ≤ n) (h1 : n < 18446744073709551616) :
    sizeT n = n.toNat := by
  unfold sizeT
  rw [Int.emod_eq_of_lt h0 h1]

theorem sys_write_full (d : Dest) (bs : List Char) (h : ∀ e ∈ d.script, e = WrEv.full) :
    ∃ d1, sys_write d bs = (.wrote bs.length, d1) ∧ d1.content = d.content ++ bs ∧
      ∀ e ∈ d1.script, e = WrEv.full := by
  obtain ⟨content, script⟩ := d
  cases script with
  | nil => exact ⟨_, rfl, rfl, h⟩
  | cons e sc =>
    have he : e = WrEv.full := h e (List.mem_cons_self _ _)
    subst he
    exact ⟨_, rfl, rfl, fun e he => h e (List.mem_cons_of_mem _ he)⟩

/-- A `read` whose count is a possible size behaves as the source says. -/
theorem sys_read_of_le (src : Source) (n : Nat) (h : n ≤ 2048) :
    sys_read src n =
      match src with
      | [] => (.got [], [])
      | .err e :: rest => (.failed e, rest)
      | .stuck e :: rest => (.failed e, .stuck e :: rest)
      | .data b bs :: rest =>
        if n = 0 then (.got [], .data b bs :: rest)
        else
          match (b :: bs).drop n with
          | [] => (.got (b :: bs), rest)
          | c :: cs => (.got ((b :: bs).take n), .data c cs :: rest) := by
  unfold sys_read
  rw [if_neg (by simp only [SSIZE_MAX]; omega)]

theorem sys_read_data (b : Char) (bs : List Char) (rest : Source) (n : Nat) (hn : n ≠ 0)
    (hle : n ≤ 2048) :
    ∃ src, sys_read (.data b bs :: rest) n = (.got (b :: bs.take (n - 1)), src) ∧
      src.bytes = (bs.drop (n - 1)) ++ Source.bytes rest ∧
      src.size < Source.size (.data b bs :: rest) := by
  rw [sys_read_of_le _ n hle]
  obtain ⟨k, rfl⟩ : ∃ k, n = k + 1 := ⟨n - 1, by omega⟩
  simp only [hn, if_false, List.drop_succ_cons, Nat.add_sub_cancel]
  cases hd : bs.drop k with
  | nil =>
    refine ⟨rest, ?_, by simp, by simp [Source.size]⟩
    have : bs.take k = bs := by
      rw [List.drop_eq_nil_iff] at hd
      exact List.take_of_length_le hd
    simp [this]
  | cons c cs =>
    refine ⟨.data c cs :: rest, by simp, by simp [Source.bytes], ?_⟩
    have hl : (bs.drop k).length = cs.length + 1 := by rw [hd]; rfl
    simp only [List.length_drop] at hl
    simp only [Source.size]
    omega


theorem handle_message_loop_copy (length : Int) :
    ∀ (fuel : Nat) (m : Msg) (want extra : List Char) (num : Int),
      m.source.size < fuel →
      m.status_code ≠ -1 →
      (want.length : Int) = length - m.bytes →
      num = (if (BLOCK_2048 : Int) < length - m.bytes then (BLOCK_2048 : Int)
              else length - m.bytes) →
      m.source.bytes = want ++ extra →
      (∀ e ∈ m.dest.script, e = WrEv.full) →
      ∃ m1, handle_message_loop length fuel num m = .ok m1 ∧
        m1.status_code = m.status_code ∧
        m1.dest.content = m.dest.content ++ want ∧
        m1.bytes = length := by
  intro fuel
  induction fuel with
  | zero => intro m _ _ _ h; omega
  | succ fuel ih =>
    intro m want extra num hsz hst hw hnum hsrc hscr
    have h2048 : ((BLOCK_2048 : Nat) : Int) = 2048 := rfl
    obtain ⟨st, bytes, src, dst, reads⟩ := m
    simp only at hsz hst hw hnum hsrc hscr ⊢
    rw [handle_message_loop]
    simp only
    have hnumR : 0 ≤ num ∧ num ≤ 2048 := by
      rw [hnum]; split <;> omega
    obtain ⟨n, hn⟩ : ∃ n : Nat, num = n := ⟨num.toNat, by omega⟩
    have hsize : sizeT num = n := by
      rw [sizeT_of_nonneg (by omega) (by omega), hn]; rfl
    rw [hsize, sys_read_of_le _ n (by omega)]
    cases src with
    | nil =>
      have hwant : want = [] := by
        simp only [Source.bytes] at hsrc
        exact (List.append_eq_nil.mp hsrc.symm).1
      subst hwant
      simp only [List.length_nil, Nat.cast_zero] at hw
      exact ⟨_, rfl, rfl, by simp, by simp; omega⟩
    | cons ev rest =>
      cases ev with
      | stuck e =>
        have hwant : want = [] := by
          simp only [Source.bytes] at hsrc
          exact (List.append_eq_nil.mp hsrc.symm).1
        subst hwant
        simp only [List.length_nil, Nat.cast_zero] at hw
        have hlen : length = bytes := by omega
        simp only [hlen, if_true]
        exact ⟨_, rfl, rfl, by simp, rfl⟩
      | err e =>
        simp only
        by_cases hlen : length = bytes
        · have hwant : want = [] := by
            apply List.eq_nil_of_length_eq_zero
            omega
          subst hwant
          simp only [hlen, if_true]
          exact ⟨_, rfl, rfl, by simp, rfl⟩
        · simp only [hlen, hst, if_false]
          simp only [Source.bytes] at hsrc
          simp only [Source.size] at hsz
          obtain ⟨m1, h1, h2, h3, h4⟩ := ih
            { status_code := st, bytes := bytes, source := rest, dest := dst,
              reads := reads ++ [(bytes, num)] } want extra num
            (by simp only; omega) hst hw hnum hsrc hscr
          exact ⟨m1, h1, h2, h3, h4⟩
      | data b bs =>
        by_cases hwant : want = []
        · subst hwant
          simp only [List.length_nil, Nat.cast_zero] at hw
          have hnum0 : num = 0 := by
            rw [hnum]; split <;> omega
          have hn0 : n = 0 := by omega
          subst hn0
          simp only [if_true]
          exact ⟨_, rfl, rfl, by simp, by simp; omega⟩
        · have hwpos : 0 < want.length := List.length_pos.mpr hwant
          have hnum1 : 1 ≤ num ∧ num ≤ 2048 ∧ num ≤ want.length := by
            rw [hnum]; split <;> omega
          obtain ⟨src1, hrd, hbytes1, hsz1⟩ := sys_read_data b bs rest n (by omega) (by omega)
          rw [sys_read_of_le _ n (by omega)] at hrd
          rw [hrd]
          simp only
          have hchunk : (b :: List.take (n - 1) bs).length ≤ n := by
            simp only [List.length_cons, List.length_take]; omega
          rw [if_neg (by omega)]
          obtain ⟨d1, hwr, hc1, hscr1⟩ := sys_write_full dst (b :: List.take (n - 1) bs) hscr
          rw [hwr]
          simp only [List.length_cons]
          -- the chunk is a prefix of the bytes still wanted
          have hall : b :: bs ++ Source.bytes rest = want ++ extra := by
            simpa [Source.bytes] using hsrc
          have hk : (b :: List.take (n - 1) bs).length ≤ want.length := by omega
          have hpre : b :: List.take (n - 1) bs
              = want.take (b :: List.take (n - 1) bs).length := by
            have h1 : (b :: bs ++ Source.bytes rest).take (b :: List.take (n - 1) bs).length
                = b :: List.take (n - 1) bs := by
              simp only [List.length_cons, List.length_take, List.cons_append,
                List.take_succ_cons, List.cons.injEq, true_and]
              rw [List.take_append_of_le_length (Nat.min_le_right _ _)]
              by_cases hle : n - 1 ≤ bs.length
              · rw [Nat.min_eq_left hle]
              · rw [Nat.min_eq_right (by omega), List.take_of_length_le (le_refl _),
                  List.take_of_length_le (by omega)]
            rw [← h1, hall, List.take_append_of_le_length hk]
            simp
          have hrest : src1.bytes
              = want.drop (b :: List.take (n - 1) bs).length ++ extra := by
            have h2 : (b :: bs ++ Source.bytes rest).drop (b :: List.take (n - 1) bs).length
                = bs.drop (n - 1) ++ Source.bytes rest := by
              simp only [List.length_cons, List.length_take, List.cons_append,
                List.drop_succ_cons]
              rw [List.drop_append_of_le_length (Nat.min_le_right _ _)]
              congr 1
              by_cases hle : n - 1 ≤ bs.length
              · rw [Nat.min_eq_left hle]
              · rw [Nat.min_eq_right (by omega)]
                rw [List.drop_eq_nil_of_le (le_refl _), List.drop_eq_nil_of_le (by omega)]
            rw [hbytes1, ← h2, hall, List.drop_append_of_le_length hk]
          obtain ⟨m1, h1, h2, h3, h4⟩ := ih
            { status_code := st, bytes := bytes + ((List.take (n - 1) bs).length + 1 : Nat),
              source := src1, dest := d1, reads := reads ++ [(bytes, num)] }
            (want.drop (b :: List.take (n - 1) bs).length) extra
            (if (BLOCK_2048 : Int) < length - (bytes + ((List.take (n - 1) bs).length + 1 : Nat))
              then (BLOCK_2048 : Int)
              else length - (bytes + ((List.take (n - 1) bs).length + 1 : Nat)))
            (by simp only; omega) hst
            (by simp only [List.length_drop, List.length_cons] at hk ⊢; omega)
            rfl hrest hscr1
          refine ⟨m1, ?_, h2, ?_, h4⟩
          · simpa using h1
          · rw [h3]
            simp only
            rw [hc1, List.append_assoc]
            congr 1
            conv_rhs => rw [← List.take_append_drop (b :: List.take (n - 1) bs).length want]
            rw [← hpre]

theorem handle_message_copy (src : Source) (out : Dest) (length st : Int)
    (want extra : List Char) (hst : st ≠ -1) (hw : (want.length : Int) = length)
    (hsrc : src.bytes = want ++ extra) (hscr : ∀ e ∈ out.script, e = WrEv.full) :
    ∃ m1, handle_message src out length st = .ok m1 ∧ m1.status_code = st ∧
      m1.dest.content = out.content ++ want ∧ m1.bytes = length := by
  unfold handle_message
  exact handle_message_loop_copy length (src.size + 1)
    { status_code := st, bytes := 0, source := src, dest := out, reads := [] } want extra _
    (by simp) hst (by simpa using hw) (by simp) hsrc hscr

theorem sizeT_length (l : List Char) (h : (l.length : Int) < 2147483647) :
    sizeT (l.length : Int) = l.length := by
  rw [sizeT_of_nonneg (by omega) (by omega)]
  simp

theorem toInt32_of_small {n : Int} (h0 : 0 ≤ n) (h1 : n < 2147483648) : toInt32 n = n := by
  unfold toInt32
  rw [Int.emod_eq_of_lt h0 (by omega), if_pos (by omega)]
  omega


theorem FS.node_set_self {fs : FS} {loc : Loc} (n : Node) (h : fs.node loc ≠ .dir) :
    (fs.set loc n).node loc = n := by
  unfold FS.node at h ⊢
  by_cases hall : (loc.all fun c => c == "..".toList) = true
  · rw [if_pos hall] at h
    exact absurd rfl h
  · rw [if_neg hall]
    simp [FS.set]

theorem FS.node_set_dir {fs : FS} {loc q : Loc} (n : Node) (h : fs.node loc ≠ .dir)
    (hq : fs.node q = .dir) : (fs.set loc n).node q = .dir := by
  have hne : q ≠ loc := by
    rintro rfl
    exact h hq
  unfold FS.node at hq ⊢
  by_cases hall : (q.all fun c => c == "..".toList) = true
  · rw [if_pos hall]
  · rw [if_neg hall] at hq ⊢
    simpa [FS.set, hne] using hq

/-- A resolution that succeeds is not changed by what is put at a place that is not a
directory. -/
theorem walk_set_of_ok {fs : FS} {loc : Loc} (n : Node) (h : fs.node loc ≠ .dir) :
    ∀ (comps : List (List Char)) (l r : Loc), walk fs l comps = .ok r →
      walk (fs.set loc n) l comps = .ok r := by
  intro comps
  induction comps with
  | nil => intro l r hw; simpa [walk] using hw
  | cons c rest ih =>
    intro l r hw
    rw [walk] at hw ⊢
    by_cases h1 : c = [] ∨ c = ".".toList
    · rw [if_pos h1] at hw ⊢
      exact ih _ _ hw
    · rw [if_neg h1] at hw ⊢
      by_cases h2 : c = "..".toList
      · rw [if_pos h2] at hw ⊢
        exact ih _ _ hw
      · rw [if_neg h2] at hw ⊢
        by_cases h3 : rest = []
        · rw [if_pos h3] at hw ⊢
          exact hw
        · rw [if_neg h3] at hw ⊢
          cases hnode : fs.node (l ++ [c]) with
          | dir =>
            rw [hnode] at hw
            rw [FS.node_set_dir n h hnode]
            exact ih _ _ hw
          | reg x => rw [hnode] at hw; cases hw
          | missing => rw [hnode] at hw; cases hw
          | noopen e => rw [hnode] at hw; cases hw

theorem namei_set_of_ok {fs : FS} {loc : Loc} (n : Node) (h : fs.node loc ≠ .dir)
    {path : List Char} {r : Loc} (hn : namei fs path = .ok r) :
    namei (fs.set loc n) path = .ok r := by
  unfold namei at hn ⊢
  by_cases h1 : path = []
  · rw [if_pos h1] at hn; cases hn
  · rw [if_neg h1] at hn ⊢
    by_cases h2 : path.head? = some '/'
    · rw [if_pos h2] at hn; cases hn
    · rw [if_neg h2] at hn ⊢
      exact walk_set_of_ok n h _ _ _ hn

/-- A path that names a regular file resolves to the place of that file. -/
theorem lookup_reg {fs : FS} {path c : List Char} (h : fs.lookup path = .reg c) :
    ∃ loc, namei fs path = .ok loc ∧ fs.node loc = .reg c := by
  unfold FS.lookup at h
  cases hn : namei fs path with
  | error e => rw [hn] at h; cases h
  | ok loc =>
    rw [hn] at h
    exact ⟨loc, rfl, h⟩

/-- The entry a path names after the place it resolves to has been given a new entry. -/
theorem lookup_set {fs : FS} {path : List Char} {loc : Loc} (n : Node)
    (hn : namei fs path = .ok loc) (h : fs.node loc ≠ .dir) :
    (fs.set loc n).lookup path = n := by
  unfold FS.lookup
  rw [namei_set_of_ok n h hn]
  exact FS.node_set_self n h

theorem handle_response_pos (n code : Int) (h : 0 < n) :
    handle_response n code = .ok ("HTTP/1.1 200 OK\r\nContent-Length: ".toList
      ++ fmt_d (n - 1) ++ " \r\n\r\n".toList) := by
  unfold handle_response
  rw [if_pos h]

theorem fileSource_bytes (fs : FS) (path c : List Char) (h : fs.lookup path = .reg c) :
    (fileSource fs ⟨path, 0⟩).bytes = c := by
  simp only [fileSource, h, List.drop_zero]
  cases c <;> simp [Source.bytes]

/-- The directories of the path `.//d/new` are made by `handle_dir`: before the call
nothing stands at `.//d`, after it a directory does. -/
theorem handle_dir_makes_directory :
    fs_example.lookup ".//d".toList = .missing ∧
    (handle_dir fs_example ".//d/new".toList).lookup ".//d".toList = .dir ∧
    (handle_dir fs_example ".//d/new".toList).lookup ".//d/new".toList = .missing :=
  ⟨rfl, rfl, rfl⟩

/-- A result is `.ok v` when the test for it evaluates to `true`. -/
theorem eq_ok_of_decide {ε α : Type} [DecidableEq α] {x : Except ε α} {v : α}
    (h : (match x with | .ok a => decide (a = v) | .error _ => false) = true) : x = .ok v := by
  cases x with
  | error e => cases h
  | ok a => exact congrArg Except.ok (of_decide_eq_true h)

/-- A result is `.error f` when the test for it evaluates to `true`. -/
theorem eq_error_of_decide {ε α : Type} [DecidableEq ε] {x : Except ε α} {f : ε}
    (h : (match x with | .ok _ => false | .error e => decide (e = f)) = true) :
    x = .error f := by
  cases x with
  | ok a => cases h
  | error e => exact congrArg Except.error (of_decide_eq_true h)

/-- The same two requests with directories that `handle_dir` can make: `PUT /d/new`
is answered `201 Created`, `./d` is a directory afterwards, and the `GET /d/new` that
follows is sent the two bytes. -/
theorem put_creates_directories :
    view_conn ".//d".toList
        (handle_connection fs_example []
          (conn_of "PUT /d/new HTTP/1.1\r\nContent-Length: 2\r\n\r\nhi"))
      = .ok (some (CREATED,
          "HTTP/1.1 201 Created\r\nContent-Length: 8 \r\n\r\nCreated\n".toList,
          some PUT, none, .dir)) ∧
    view_conn ".//d/new".toList
        (handle_connection
          (files_after fs_example (handle_connection fs_example []
            (conn_of "PUT /d/new HTTP/1.1\r\nContent-Length: 2\r\n\r\nhi")))
          [] (conn_of "GET /d/new HTTP/1.1\r\n\r\n"))
      = .ok (some (OK, "HTTP/1.1 200 OK\r\nContent-Length: 2 \r\n\r\nhi".toList,
          some GET, some ⟨".//d/new".toList, 0⟩, .reg "hi".toList)) :=
  ⟨eq_ok_of_decide (by decide!), eq_ok_of_decide (by decide!)⟩

/-! ## C2: a body shorter than declared -/

/-- C2, at the failing input: a `PUT` and an `APPEND` to `.//foo` (holding `old`) declare
five bytes, the client sends `ab` and closes.  Both end with status 200, not 400; the
`PUT` leaves `ab` in the file and the `APPEND` leaves `oldab`. -/
theorem short_body_is_stored :
    view ".//foo".toList
        (put_request fs_example ".//foo".toList [.data 'a' "b".toList] [] 5 OK)
      = .ok (OK, "HTTP/1.1 200 OK\r\nContent-Length: 3 \r\n\r\nOK\n".toList,
             .reg "ab".toList) ∧
    view ".//foo".toList
        (append_request fs_example (some ⟨".//foo".toList, 0⟩) [.data 'a' "b".toList] [] 5 OK)
      = .ok (OK, "HTTP/1.1 200 OK\r\nContent-Length: 3 \r\n\r\nOK\n".toList,
             .reg "oldab".toList) :=
  ⟨rfl, rfl⟩

/-- A `read` that fails with a non-retryable error does not stop `handle_message`: the
test `*status_code == -1` is false, the loop reads on, and the status stays 200. -/
theorem read_error_is_ignored :
    view ".//foo".toList
        (put_request fs_example ".//foo".toList
          [.data 'a' "b".toList, .err .ECONNRESET] [] 5 OK)
      = .ok (OK, "HTTP/1.1 200 OK\r\nContent-Length: 3 \r\n\r\nOK\n".toList,
             .reg "ab".toList) :=
  rfl

/-- A `write` to the temporary file that fails with a non-retryable error gives status
400 in `put_request`, but the target was already emptied by `O_TRUNC`. -/
theorem write_error_truncates :
    view ".//foo".toList
        (put_request fs_example ".//foo".toList [.data 'a' "b".toList] [.err .ENOSPC] 2 OK)
      = .ok (BAD_REQ,
             "HTTP/1.1 400 Bad Request\r\nContent-Length: 12 \r\n\r\nBad Request\n".toList,
             .reg []) :=
  rfl


/-! ## Regular expressions: the matcher computes the denotation -/

namespace Regex

theorem not_matches_nothing (w : List Char) : ¬ Matches nothing w := by
  intro h; cases h

theorem matches_eps_iff (w : List Char) : Matches eps w ↔ w = [] := by
  constructor
  · intro h; cases h; rfl
  · rintro rfl; exact Matches.eps

theorem matches_cls_iff (p : Char → Bool) (w : List Char) :
    Matches (cls p) w ↔ ∃ c, w = [c] ∧ p c = true := by
  constructor
  · intro h; cases h with | cls hc => exact ⟨_, rfl, hc⟩
  · rintro ⟨c, rfl, hc⟩; exact Matches.cls hc

theorem matches_seq_iff (a b : Regex) (w : List Char) :
    Matches (seq a b) w ↔ ∃ u v, w = u ++ v ∧ Matches a u ∧ Matches b v := by
  constructor
  · intro h; cases h with | seq h1 h2 => exact ⟨_, _, rfl, h1, h2⟩
  · rintro ⟨u, v, rfl, h1, h2⟩; exact Matches.seq h1 h2

theorem matches_alt_iff (a b : Regex) (w : List Char) :
    Matches (alt a b) w ↔ Matches a w ∨ Matches b w := by
  constructor
  · intro h
    cases h with
    | altL h => exact Or.inl h
    | altR h => exact Or.inr h
  · rintro (h | h)
    · exact Matches.altL h
    · exact Matches.altR h

theorem nullable_iff (r : Regex) : nullable r = true ↔ Matches r [] := by
  induction r with
  | nothing => simp [nullable, not_matches_nothing]
  | eps => simp [nullable, matches_eps_iff]
  | cls p => simp [nullable, matches_cls_iff]
  | seq a b iha ihb =>
    simp only [nullable, Bool.and_eq_true, iha, ihb, matches_seq_iff]
    constructor
    · rintro ⟨h1, h2⟩; exact ⟨[], [], rfl, h1, h2⟩
    · rintro ⟨u, v, h, h1, h2⟩
      obtain ⟨rfl, rfl⟩ := List.append_eq_nil.mp h.symm
      exact ⟨h1, h2⟩
  | alt a b iha ihb => simp only [nullable, Bool.or_eq_true, iha, ihb, matches_alt_iff]
  | star a _ => simp only [nullable, true_iff]; exact Matches.starNil

theorem matches_mkSeq_iff (a b : Regex) (w : List Char) :
    Matches (mkSeq a b) w ↔ Matches (seq a b) w := by
  cases a <;> simp only [mkSeq]
  simp only [matches_seq_iff, not_matches_nothing, false_and, and_false, exists_false]

theorem matches_mkAlt_iff (a b : Regex) (w : List Char) :
    Matches (mkAlt a b) w ↔ Matches (alt a b) w := by
  cases a <;> cases b <;>
    simp only [mkAlt, matches_alt_iff, not_matches_nothing, false_or, or_false]

/-- A non-empty string matched by `star a` starts with a non-empty match of `a`. -/
theorem matches_star_cons {a : Regex} {r : Regex} {w : List Char} (h : Matches r w) :
    ∀ (c : Char) (t : List Char), r = star a → w = c :: t →
      ∃ u v, t = u ++ v ∧ Matches a (c :: u) ∧ Matches (star a) v := by
  induction h with
  | eps => intro c t hr; cases hr
  | cls _ => intro c t hr; cases hr
  | seq _ _ _ _ => intro c t hr; cases hr
  | altL _ _ => intro c t hr; cases hr
  | altR _ _ => intro c t hr; cases hr
  | starNil => intro c t _ hw; cases hw
  | @starCons a1 u v h1 h2 _ ih2 =>
    intro c t hr hw
    cases hr
    cases u with
    | nil => exact ih2 c t rfl hw
    | cons d u1 =>
      simp only [List.cons_append, List.cons.injEq] at hw
      obtain ⟨rfl, rfl⟩ := hw
      exact ⟨u1, v, rfl, h1, h2⟩

theorem matches_deriv_iff (r : Regex) : ∀ (c : Char) (w : List Char),
    Matches (deriv c r) w ↔ Matches r (c :: w) := by
  induction r with
  | nothing => intro c w; simp [deriv, not_matches_nothing]
  | eps => intro c w; simp [deriv, not_matches_nothing, matches_eps_iff]
  | cls p =>
    intro c w
    simp only [deriv, matches_cls_iff]
    by_cases hp : p c = true
    · rw [if_pos hp]
      simp only [matches_eps_iff]
      constructor
      · rintro rfl; exact ⟨c, rfl, hp⟩
      · rintro ⟨d, hd, _⟩
        simp only [List.cons.injEq] at hd
        exact hd.2
    · rw [if_neg hp]
      simp only [not_matches_nothing, false_iff]
      rintro ⟨d, hd, hpd⟩
      simp only [List.cons.injEq] at hd
      rw [← hd.1] at hpd
      exact hp hpd
  | seq a b iha ihb =>
    intro c w
    have key : Matches (seq a b) (c :: w) ↔
        (∃ u v, w = u ++ v ∧ Matches a (c :: u) ∧ Matches b v) ∨
        (Matches a [] ∧ Matches b (c :: w)) := by
      rw [matches_seq_iff]
      constructor
      · rintro ⟨u, v, huv, h1, h2⟩
        cases u with
        | nil =>
          simp only [List.nil_append] at huv
          rw [← huv] at h2
          exact Or.inr ⟨h1, h2⟩
        | cons d u1 =>
          simp only [List.cons_append, List.cons.injEq] at huv
          obtain ⟨rfl, rfl⟩ := huv
          exact Or.inl ⟨u1, v, rfl, h1, h2⟩
      · rintro (⟨u, v, rfl, h1, h2⟩ | ⟨h1, h2⟩)
        · exact ⟨c :: u, v, rfl, h1, h2⟩
        · exact ⟨[], c :: w, rfl, h1, h2⟩
    rw [key]
    simp only [deriv]
    by_cases hn : nullable a = true
    · rw [if_pos hn]
      simp only [matches_mkAlt_iff, matches_alt_iff, matches_mkSeq_iff,
        matches_seq_iff, iha, ihb]
      rw [nullable_iff] at hn
      simp only [hn, true_and]
    · rw [if_neg hn]
      simp only [matches_mkSeq_iff, matches_seq_iff, iha]
      rw [nullable_iff] at hn
      simp only [hn, false_and, or_false]
  | alt a b iha ihb =>
    intro c w
    simp only [deriv, matches_mkAlt_iff, matches_alt_iff, iha, ihb]
  | star a iha =>
    intro c w
    simp only [deriv, matches_mkSeq_iff, matches_seq_iff, iha]
    constructor
    · rintro ⟨u, v, rfl, h1, h2⟩
      exact Matches.starCons h1 h2
    · intro h
      exact matches_star_cons h c w rfl rfl

/-- What `longest` computes: the greatest length of a matching prefix, if one exists. -/
theorem longest_spec : ∀ (s : List Char) (r : Regex),
    match longest r s with
    | some k => k ≤ s.length ∧ Matches r (s.take k) ∧
        ∀ j, j ≤ s.length → Matches r (s.take j) → j ≤ k
    | none => ∀ j, ¬ Matches r (s.take j) := by
  intro s
  induction s with
  | nil =>
    intro r
    simp only [longest]
    by_cases hn : nullable r = true
    · rw [if_pos hn]
      exact ⟨le_refl _, (nullable_iff r).mp hn, fun j hj _ => hj⟩
    · rw [if_neg hn]
      intro j hj
      rw [List.take_nil] at hj
      exact hn ((nullable_iff r).mpr hj)
  | cons c cs ih =>
    intro r
    have ihd := ih (deriv c r)
    simp only [longest]
    cases hl : longest (deriv c r) cs with
    | some k =>
      rw [hl] at ihd
      obtain ⟨h1, h2, h3⟩ := ihd
      refine ⟨by simp only [List.length_cons]; omega, ?_, ?_⟩
      · rw [List.take_succ_cons]
        exact (matches_deriv_iff r c _).mp h2
      · intro j hj hm
        cases j with
        | zero => omega
        | succ j1 =>
          rw [List.take_succ_cons] at hm
          have := h3 j1 (by simp only [List.length_cons] at hj; omega)
            ((matches_deriv_iff r c _).mpr hm)
          omega
    | none =>
      rw [hl] at ihd
      have hno : ∀ j1, ¬ Matches r ((c :: cs).take (j1 + 1)) := by
        intro j1 hm
        rw [List.take_succ_cons] at hm
        exact ihd j1 ((matches_deriv_iff r c _).mpr hm)
      by_cases hn : nullable r = true
      · simp only [hn, if_true]
        refine ⟨Nat.zero_le _, (nullable_iff r).mp hn, ?_⟩
        intro j _ hm
        cases j with
        | zero => exact le_refl _
        | succ j1 => exact absurd hm (hno j1)
      · simp only [hn]
        intro j hm
        cases j with
        | zero => exact hn ((nullable_iff r).mpr hm)
        | succ j1 => exact hno j1 hm

theorem longest_some {r : Regex} {s : List Char} {k : Nat} (h : longest r s = some k) :
    k ≤ s.length ∧ Matches r (s.take k) ∧
      ∀ j, j ≤ s.length → Matches r (s.take j) → j ≤ k := by
  have := longest_spec s r
  rw [h] at this
  exact this

theorem longest_none {r : Regex} {s : List Char} (h : longest r s = none) :
    ∀ j, ¬ Matches r (s.take j) := by
  have := longest_spec s r
  rw [h] at this
  exact this

/-- A matching prefix makes `longest` succeed, with a length at least as large. -/
theorem longest_of_matches {r : Regex} {s : List Char} {j : Nat} (hj : j ≤ s.length)
    (hm : Matches r (s.take j)) : ∃ k, longest r s = some k ∧ j ≤ k := by
  cases hl : longest r s with
  | none => exact absurd hm (longest_none hl j)
  | some k => exact ⟨k, rfl, (longest_some hl).2.2 j hj hm⟩

/-- What `search` returns is the longest match at the first offset where a match starts. -/
theorem search_some : ∀ (s : List Char) (r : Regex) (i a b : Nat),
    search r s i = some (a, b) →
      ∃ n k, a = i + n ∧ b = i + n + k ∧ n ≤ s.length ∧ longest r (s.drop n) = some k ∧
        ∀ m, m < n → longest r (s.drop m) = none := by
  intro s
  induction s with
  | nil =>
    intro r i a b h
    simp only [search] at h
    cases hl : longest r [] with
    | none => rw [hl] at h; cases h
    | some k =>
      rw [hl] at h
      simp only [Option.map_some', Option.some.injEq, Prod.mk.injEq] at h
      exact ⟨0, k, by omega, by omega, le_refl _, hl, fun m hm => by omega⟩
  | cons c cs ih =>
    intro r i a b h
    simp only [search] at h
    cases hl : longest r (c :: cs) with
    | some k =>
      rw [hl] at h
      simp only [Option.some.injEq, Prod.mk.injEq] at h
      exact ⟨0, k, by omega, by omega, Nat.zero_le _, hl, fun m hm => by omega⟩
    | none =>
      rw [hl] at h
      obtain ⟨n, k, h1, h2, h3, h4, h5⟩ := ih r (i + 1) a b h
      refine ⟨n + 1, k, by omega, by omega, by simp only [List.length_cons]; omega, h4, ?_⟩
      intro m hm
      cases m with
      | zero => exact hl
      | succ m1 => exact h5 m1 (by omega)

theorem search_none : ∀ (s : List Char) (r : Regex) (i : Nat),
    search r s i = none → ∀ n, n ≤ s.length → longest r (s.drop n) = none := by
  intro s
  induction s with
  | nil =>
    intro r i h n hn
    simp only [search] at h
    have hn0 : n = 0 := by simpa using hn
    subst hn0
    cases hl : longest r [] with
    | none => exact hl
    | some k => rw [hl] at h; cases h
  | cons c cs ih =>
    intro r i h n hn
    simp only [search] at h
    cases hl : longest r (c :: cs) with
    | some k => rw [hl] at h; cases h
    | none =>
      rw [hl] at h
      cases n with
      | zero => exact hl
      | succ n1 => exact ih r (i + 1) h n1 (by simp only [List.length_cons] at hn; omega)

/-- A match anywhere in the string makes the search succeed. -/
theorem search_of_matches {r : Regex} {u w v : List Char} (i : Nat) (hm : Matches r w) :
    ∃ a b, search r (u ++ w ++ v) i = some (a, b) := by
  cases hs : search r (u ++ w ++ v) i with
  | some ab => exact ⟨ab.1, ab.2, rfl⟩
  | none =>
    have h1 := search_none _ r i hs u.length (by simp)
    have h2 := longest_none h1 w.length
    rw [List.append_assoc, List.drop_left, List.take_left] at h2
    exact absurd hm h2

end Regex

/-- A successful `regexec` reports offsets inside the string, of a matching substring. -/
theorem regexec_some {p : Pattern} {s : List Char} {a b : Nat}
    (h : regexec p s = some (a, b)) :
    a ≤ b ∧ b ≤ s.length ∧ p.re.Matches ((s.drop a).take (b - a)) := by
  unfold regexec at h
  by_cases hb : p.bol = true
  · rw [if_pos hb] at h
    cases hl : p.re.longest s with
    | none => rw [hl] at h; cases h
    | some k =>
      rw [hl] at h
      simp only [Option.map_some', Option.some.injEq, Prod.mk.injEq] at h
      obtain ⟨rfl, rfl⟩ := h
      obtain ⟨h1, h2, _⟩ := Regex.longest_some hl
      exact ⟨Nat.zero_le _, h1, by simpa using h2⟩
  · rw [if_neg hb] at h
    obtain ⟨n, k, h1, h2, h3, h4, _⟩ := Regex.search_some s p.re 0 a b h
    obtain ⟨h5, h6, _⟩ := Regex.longest_some h4
    simp only [List.length_drop] at h5
    have hk : b - a = k := by omega
    have ha : a = n := by omega
    rw [hk, ha]
    exact ⟨by omega, by omega, h6⟩


/-! ## C3: what `handle_request` rejects -/

namespace Regex

/-- Induction over the pieces of a string matched by `star a`. -/
theorem star_induction {a : Regex} {P : List Char → Prop} (h0 : P [])
    (hstep : ∀ u v, Matches a u → Matches (star a) v → P v → P (u ++ v))
    {r : Regex} {w : List Char} (h : Matches r w) : r = star a → P w := by
  induction h with
  | eps => intro hr; cases hr
  | cls _ => intro hr; cases hr
  | seq _ _ _ _ => intro hr; cases hr
  | altL _ _ => intro hr; cases hr
  | altR _ _ => intro hr; cases hr
  | starNil => intro _; exact h0
  | starCons h1 h2 _ ih2 =>
    intro hr
    cases hr
    exact hstep _ _ h1 h2 (ih2 rfl)

theorem matches_star_cls {p : Char → Bool} {w : List Char} (h : Matches (star (cls p)) w) :
    ∀ x ∈ w, p x = true := by
  refine star_induction (P := fun w => ∀ x ∈ w, p x = true) ?_ ?_ h rfl
  · intro x hx; cases hx
  · intro u v hu _ hv x hx
    obtain ⟨c, rfl, hc⟩ := (matches_cls_iff p u).mp hu
    rcases List.mem_append.mp hx with h1 | h1
    · rw [List.mem_singleton.mp h1]; exact hc
    · exact hv x h1

theorem matches_plus_cls {p : Char → Bool} {w : List Char} (h : Matches (plus (cls p)) w) :
    w ≠ [] ∧ ∀ x ∈ w, p x = true := by
  obtain ⟨u, v, rfl, hu, hv⟩ := (matches_seq_iff _ _ w).mp h
  obtain ⟨c, rfl, hc⟩ := (matches_cls_iff p u).mp hu
  refine ⟨by simp, ?_⟩
  intro x hx
  rcases List.mem_append.mp hx with h1 | h1
  · rw [List.mem_singleton.mp h1]; exact hc
  · exact matches_star_cls hv x h1

theorem matches_plus_lit {c : Char} {w : List Char} (h : Matches (plus (lit c)) w) :
    w ≠ [] ∧ ∀ x ∈ w, x = c := by
  obtain ⟨h1, h2⟩ := matches_plus_cls (p := fun x => x == c) h
  exact ⟨h1, fun x hx => by simpa using h2 x hx⟩

end Regex

open Regex in
/-- One `/?[a-zA-Z0-9_.]` item is `c` or `/c` with `c` in the class. -/
theorem uri_item_shape {w : List Char}
    (h : Matches (seq (opt (lit '/')) (cls isUriChar)) w) :
    (∃ c, w.getLast? = some c ∧ isUriChar c = true) ∧
      ∀ x ∈ w, x = '/' ∨ isUriChar x = true := by
  obtain ⟨u, v, rfl, hu, hv⟩ := (matches_seq_iff _ _ w).mp h
  obtain ⟨c, rfl, hc⟩ := (matches_cls_iff _ v).mp hv
  refine ⟨⟨c, by simp, hc⟩, ?_⟩
  intro x hx
  rcases List.mem_append.mp hx with h1 | h1
  · rcases (matches_alt_iff _ _ u).mp hu with h2 | h2
    · obtain ⟨d, rfl, hd⟩ := (matches_cls_iff _ u).mp h2
      left
      rw [List.mem_singleton.mp h1]
      simpa using hd
    · rw [(matches_eps_iff u).mp h2] at h1
      cases h1
  · right
    rw [List.mem_singleton.mp h1]; exact hc

open Regex in
theorem uri_items_shape {w : List Char}
    (h : Matches (star (seq (opt (lit '/')) (cls isUriChar))) w) :
    (w = [] ∨ ∃ c, w.getLast? = some c ∧ isUriChar c = true) ∧
      ∀ x ∈ w, x = '/' ∨ isUriChar x = true := by
  refine star_induction
    (P := fun w => (w = [] ∨ ∃ c, w.getLast? = some c ∧ isUriChar c = true) ∧
      ∀ x ∈ w, x = '/' ∨ isUriChar x = true) ?_ ?_ h rfl
  · exact ⟨Or.inl rfl, fun x hx => by cases hx⟩
  · intro u v hu _ hv
    obtain ⟨⟨c, hc1, hc2⟩, hall⟩ := uri_item_shape hu
    refine ⟨Or.inr ?_, ?_⟩
    · rcases hv.1 with rfl | ⟨d, hd1, hd2⟩
      · exact ⟨c, by simpa using hc1, hc2⟩
      · refine ⟨d, ?_, hd2⟩
        rw [List.getLast?_append, hd1]
        rfl
    · intro x hx
      rcases List.mem_append.mp hx with h1 | h1
      · exact hall x h1
      · exact hv.2 x h1

open Regex in
/-- A match of the group `(/+(/?[a-zA-Z0-9_.])+)` begins with `/`, ends with a character
of the class and holds nothing else than `/` and characters of the class. -/
theorem uriGroup_shape {w : List Char} (h : Matches uriGroup w) :
    w.head? = some '/' ∧ (∃ c, w.getLast? = some c ∧ isUriChar c = true) ∧
      ∀ x ∈ w, x = '/' ∨ isUriChar x = true := by
  obtain ⟨sl, items, rfl, hsl, hitems⟩ := (matches_seq_iff _ _ w).mp h
  obtain ⟨hne, hslash⟩ := matches_plus_lit hsl
  obtain ⟨i1, irest, rfl, hi1, hirest⟩ := (matches_seq_iff _ _ items).mp hitems
  obtain ⟨⟨c, hc1, hc2⟩, hall1⟩ := uri_item_shape hi1
  obtain ⟨hlast, hall2⟩ := uri_items_shape hirest
  have hi1ne : i1 ≠ [] := by
    intro h0; rw [h0] at hc1; cases hc1
  refine ⟨?_, ?_, ?_⟩
  · cases sl with
    | nil => exact absurd rfl hne
    | cons d t =>
      rw [hslash d (List.mem_cons_self _ _)]
      rfl
  · rcases hlast with rfl | ⟨d, hd1, hd2⟩
    · refine ⟨c, ?_, hc2⟩
      rw [List.append_nil, List.getLast?_append, hc1]
      rfl
    · refine ⟨d, ?_, hd2⟩
      rw [List.getLast?_append, List.getLast?_append, hd1]
      rfl
  · intro x hx
    rcases List.mem_append.mp hx with h1 | h1
    · exact Or.inl (hslash x h1)
    · rcases List.mem_append.mp h1 with h2 | h2
      · exact hall1 x h2
      · exact hall2 x h2

open Regex in
theorem uriGroups_shape {w : List Char} (h : Matches (star uriGroup) w) : LooseUri w := by
  refine star_induction (P := LooseUri) (Or.inl rfl) ?_ h rfl
  intro u v hu _ hv
  obtain ⟨hh, ⟨c, hc1, hc2⟩, hall⟩ := uriGroup_shape hu
  have hune : u ≠ [] := by
    intro h0; rw [h0] at hc1; cases hc1
  right
  refine ⟨?_, ?_, ?_⟩
  · cases u with
    | nil => exact absurd rfl hune
    | cons d t => simpa using hh
  · rcases hv with rfl | ⟨_, ⟨d, hd1, hd2⟩, _⟩
    · exact ⟨c, by simpa using hc1, hc2⟩
    · refine ⟨d, ?_, hd2⟩
      rw [List.getLast?_append, hd1]
      rfl
  · intro x hx
    rcases List.mem_append.mp hx with h1 | h1
    · exact hall x h1
    · rcases hv with rfl | ⟨_, _, hall2⟩
      · cases h1
      · exact hall2 x h1

open Regex in
/-- A match of `HTTP/1.1` is `HTTP/1`, any one character, and `1`. -/
theorem httpToken_shape {w : List Char} (h : Matches httpToken w) :
    ∃ c, w = "HTTP/1".toList ++ [c, '1'] := by
  simp only [httpToken, lit, any, matches_seq_iff, matches_cls_iff, beq_iff_eq] at h
  obtain ⟨_, _, rfl, ⟨_, rfl, rfl⟩, _, _, rfl, ⟨_, rfl, rfl⟩, _, _, rfl, ⟨_, rfl, rfl⟩,
    _, _, rfl, ⟨_, rfl, rfl⟩, _, _, rfl, ⟨_, rfl, rfl⟩, _, _, rfl, ⟨_, rfl, rfl⟩,
    _, _, rfl, ⟨c, rfl, _⟩, _, rfl, rfl⟩ := h
  exact ⟨c, rfl⟩

open Regex in
/-- A match of the body of `REQ_REGEX` has the loose request-line shape. -/
theorem req_regex_shape {w : List Char} (h : Matches REQ_REGEX.re w) :
    ∃ (m sp1 u sp2 : List Char) (c e : Char),
      w = m ++ (sp1 ++ (u ++ (sp2 ++ ("HTTP/1".toList ++ [c, '1'] ++ [e])))) ∧
      m ≠ [] ∧ (∀ x ∈ m, isLetter x = true) ∧
      sp1 ≠ [] ∧ (∀ x ∈ sp1, x = ' ') ∧ LooseUri u ∧
      sp2 ≠ [] ∧ (∀ x ∈ sp2, x = ' ') ∧ isEol e = true := by
  simp only [REQ_REGEX] at h
  obtain ⟨m, w1, rfl, hm, h1⟩ := (matches_seq_iff _ _ _).mp h
  obtain ⟨sp1, w2, rfl, hsp1, h2⟩ := (matches_seq_iff _ _ _).mp h1
  obtain ⟨u, w3, rfl, hu, h3⟩ := (matches_seq_iff _ _ _).mp h2
  obtain ⟨sp2, w4, rfl, hsp2, h4⟩ := (matches_seq_iff _ _ _).mp h3
  obtain ⟨tok, w5, rfl, htok, h5⟩ := (matches_seq_iff _ _ _).mp h4
  obtain ⟨e, rfl, he⟩ := (matches_cls_iff _ _).mp h5
  obtain ⟨c, rfl⟩ := httpToken_shape htok
  obtain ⟨hm1, hm2⟩ := matches_plus_cls hm
  obtain ⟨hs1, hs2⟩ := matches_plus_lit hsp1
  obtain ⟨hs3, hs4⟩ := matches_plus_lit hsp2
  exact ⟨m, sp1, u, sp2, c, e, rfl, hm1, hm2, hs1, hs2, uriGroups_shape hu, hs3, hs4, he⟩

theorem looseRequestLine_of_regexec {s : List Char} {a b : Nat}
    (h : regexec REQ_REGEX s = some (a, b)) : LooseRequestLine s := by
  obtain ⟨hab, hb, hm⟩ := regexec_some h
  obtain ⟨m, sp1, u, sp2, c, e, hw, h1, h2, h3, h4, h5, h6, h7, h8⟩ := req_regex_shape hm
  refine ⟨s.take a, m, sp1, u, sp2, c, e, s.drop b, ?_, h1, h2, h3, h4, h5, h6, h7, h8⟩
  rw [← hw]
  have h9 : List.take (b - a) (List.drop a s) ++ List.drop b s = List.drop a s := by
    have : List.drop b s = List.drop (b - a) (List.drop a s) := by
      rw [List.drop_drop]
      congr 1
      omega
    rw [this, List.take_append_drop]
  rw [List.append_assoc, h9, List.take_append_drop]

theorem beginsWithLetter_of_regexec {s : List Char} {a b : Nat}
    (h : regexec METH_REGEX s = some (a, b)) : BeginsWithLetter s := by
  obtain ⟨_, _, hm⟩ := regexec_some h
  obtain ⟨hne, hall⟩ := Regex.matches_plus_cls hm
  have ha : a = 0 := by
    unfold regexec at h
    simp only [METH_REGEX, if_true] at h
    cases hl : (Regex.plus (Regex.cls isLetter)).longest s with
    | none => rw [hl] at h; cases h
    | some k =>
      rw [hl] at h
      simp only [Option.map_some', Option.some.injEq, Prod.mk.injEq] at h
      exact h.1.symm
  subst ha
  simp only [List.drop_zero, Nat.sub_zero] at hne hall
  cases s with
  | nil => simp at hne
  | cons c t =>
    refine ⟨c, t, rfl, hall c ?_⟩
    cases b with
    | zero => simp at hne
    | succ k => simp

/-- C3 (amended). Whenever `handle_request` leaves a status other than 400, the text of
the buffer begins with a letter and holds, somewhere, a request line in the loose form
of `REQ_REGEX`: letters, spaces, an optional URI part, spaces, `HTTP/1` any character
`1`, and a CR or LF. -/
theorem handle_request_bad_unless_loose (fs : FS) (buffer : List Char) (r : Req)
    (h : (handle_request fs buffer r).status_code ≠ BAD_REQ) :
    BeginsWithLetter (cstr buffer) ∧ LooseRequestLine (cstr buffer) := by
  cases hreq : regexec REQ_REGEX (cstr buffer) with
  | none =>
    exfalso
    apply h
    simp only [handle_request, hreq]
  | some ab =>
    cases hmeth : regexec METH_REGEX (cstr buffer) with
    | none =>
      exfalso
      apply h
      simp only [handle_request, hreq, hmeth]
    | some cd =>
      exact ⟨beginsWithLetter_of_regexec (a := cd.1) (b := cd.2) hmeth,
        looseRequestLine_of_regexec (a := ab.1) (b := ab.2) hreq⟩

/-- Witness of C3 (amended): a well-formed `GET` of an existing file. -/
theorem handle_request_bad_unless_loose_witness :
    (handle_request fs_example "GET /foo HTTP/1.1\r\n\r\n".toList Req.init).status_code
        ≠ BAD_REQ ∧
      BeginsWithLetter (cstr "GET /foo HTTP/1.1\r\n\r\n".toList) ∧
      LooseRequestLine (cstr "GET /foo HTTP/1.1\r\n\r\n".toList) :=
  ⟨by decide, handle_request_bad_unless_loose fs_example _ Req.init (by decide)⟩

/-- C3 (counterexample). Three buffers that do not begin with a request line of the
specified form and that `handle_request` accepts with status 200: the version token is
`HTTP/1x1`; the line ends with a bare LF; the request line is not at the start of the
buffer. -/
theorem handle_request_accepts_malformed :
    (spec_request_line "GET /foo HTTP/1x1\r\n\r\n".toList = false ∧
      (handle_request fs_example "GET /foo HTTP/1x1\r\n\r\n".toList Req.init).status_code
        = OK) ∧
    (spec_request_line "GET /foo HTTP/1.1\n\n".toList = false ∧
      (handle_request fs_example "GET /foo HTTP/1.1\n\n".toList Req.init).status_code
        = OK) ∧
    (spec_request_line "PUT\r\nX: GET /foo HTTP/1.1\r\n\r\n".toList = false ∧
      (handle_request fs_example "PUT\r\nX: GET /foo HTTP/1.1\r\n\r\n".toList
        Req.init).status_code = OK) := by
  refine ⟨⟨by decide, by decide⟩, ⟨by decide, by decide⟩, ⟨by decide, by decide⟩⟩

/-- The specified request line is recognised on a well-formed line. -/
theorem spec_request_line_example :
    spec_request_line "GET /foo/bar.txt HTTP/1.1\r\n\r\n".toList = true := by
  decide


/-! ## C4: method tokens that are not implemented -/

namespace Regex

theorem accepts_iff (w : List Char) : ∀ r : Regex, accepts r w = true ↔ Matches r w := by
  induction w with
  | nil => intro r; exact nullable_iff r
  | cons c t ih =>
    intro r
    rw [← matches_deriv_iff]
    exact ih (deriv c r)

theorem matches_star_cls_of {p : Char → Bool} : ∀ w : List Char,
    (∀ x ∈ w, p x = true) → Matches (star (cls p)) w := by
  intro w
  induction w with
  | nil => intro _; exact Matches.starNil
  | cons c t ih =>
    intro h
    exact Matches.starCons (u := [c]) (Matches.cls (h c (List.mem_cons_self _ _)))
      (ih (fun x hx => h x (List.mem_cons_of_mem _ hx)))

theorem matches_plus_cls_of {p : Char → Bool} {w : List Char} (hne : w ≠ [])
    (h : ∀ x ∈ w, p x = true) : Matches (plus (cls p)) w := by
  cases w with
  | nil => exact absurd rfl hne
  | cons c t =>
    exact Matches.seq (u := [c]) (Matches.cls (h c (List.mem_cons_self _ _)))
      (matches_star_cls_of t (fun x hx => h x (List.mem_cons_of_mem _ hx)))

end Regex

open Regex in
theorem uri_items_of : ∀ w : List Char, (∀ x ∈ w, isUriChar x = true) →
    Matches (star (seq (opt (lit '/')) (cls isUriChar))) w := by
  intro w
  induction w with
  | nil => intro _; exact Matches.starNil
  | cons c t ih =>
    intro h
    have hitem : Matches (seq (opt (lit '/')) (cls isUriChar)) ([] ++ [c]) :=
      Matches.seq (Matches.altR Matches.eps) (Matches.cls (h c (List.mem_cons_self _ _)))
    exact Matches.starCons (u := [c]) hitem (ih (fun x hx => h x (List.mem_cons_of_mem _ hx)))

open Regex in
theorem uriGroup_of_segment {sg : List Char} (hne : sg ≠ [])
    (h : ∀ x ∈ sg, isUriChar x = true) : Matches uriGroup ('/' :: sg) := by
  cases sg with
  | nil => exact absurd rfl hne
  | cons c t =>
    have hslash : Matches (plus (lit '/')) ['/'] :=
      Matches.seq (u := ['/']) (v := []) (Matches.cls (by decide)) Matches.starNil
    have hitem : Matches (seq (opt (lit '/')) (cls isUriChar)) ([] ++ [c]) :=
      Matches.seq (Matches.altR Matches.eps) (Matches.cls (h c (List.mem_cons_self _ _)))
    have hitems : Matches (plus (seq (opt (lit '/')) (cls isUriChar))) ([c] ++ t) :=
      Matches.seq hitem (uri_items_of t (fun x hx => h x (List.mem_cons_of_mem _ hx)))
    exact Matches.seq (u := ['/']) hslash hitems

open Regex in
theorem uriGroups_of_strict {uri : List Char} (h : StrictUri uri) :
    Matches (star uriGroup) uri := by
  obtain ⟨segs, _, hsegs, rfl⟩ := h
  clear * - hsegs
  induction segs with
  | nil => exact Matches.starNil
  | cons sg rest ih =>
    simp only [List.map_cons, List.flatten_cons]
    exact Matches.starCons
      (uriGroup_of_segment (hsegs sg (List.mem_cons_self _ _)).1
        (hsegs sg (List.mem_cons_self _ _)).2)
      (ih (fun s hs => hsegs s (List.mem_cons_of_mem _ hs)))

open Regex in
/-- A request line in the form of the specification, up to its CR, matches `REQ_REGEX`. -/
theorem req_regex_of_strict {m uri : List Char} (hne : m ≠ [])
    (hm : ∀ x ∈ m, isLetter x = true) (hu : StrictUri uri) :
    Matches REQ_REGEX.re (m ++ ([' '] ++ (uri ++ ([' '] ++ ("HTTP/1.1".toList ++ ['\r']))))) := by
  have hsp : Matches (plus (lit ' ')) [' '] :=
    Matches.seq (u := [' ']) (v := []) (Matches.cls (by decide)) Matches.starNil
  have htok : Matches httpToken "HTTP/1.1".toList := (accepts_iff _ _).mp (by decide)
  have heol : Matches (cls isEol) ['\r'] := Matches.cls (by decide)
  exact Matches.seq (matches_plus_cls_of hne hm)
    (Matches.seq hsp (Matches.seq (uriGroups_of_strict hu)
      (Matches.seq hsp (Matches.seq htok heol))))

theorem cstr_append_of_no_nul : ∀ (a b : List Char), (∀ x ∈ a, x ≠ NUL) →
    cstr (a ++ b) = a ++ cstr b := by
  intro a
  induction a with
  | nil => intro b _; rfl
  | cons c t ih =>
    intro b h
    have hc : (c != NUL) = true := by
      simpa using h c (List.mem_cons_self _ _)
    have := ih b (fun x hx => h x (List.mem_cons_of_mem _ hx))
    unfold cstr at this ⊢
    rw [List.cons_append, List.takeWhile_cons, hc, if_pos rfl, this]
    rfl

theorem isUriChar_ne_nul {x : Char} (h : isUriChar x = true) : x ≠ NUL := by
  rintro rfl
  revert h
  decide

theorem isLetter_ne_nul {x : Char} (h : isLetter x = true) : x ≠ NUL := by
  rintro rfl
  revert h
  decide

theorem strictUri_no_nul {uri : List Char} (h : StrictUri uri) : ∀ x ∈ uri, x ≠ NUL := by
  obtain ⟨segs, _, hsegs, rfl⟩ := h
  intro x hx
  simp only [List.mem_flatten, List.mem_map] at hx
  obtain ⟨l, ⟨sg, hsg, rfl⟩, hxl⟩ := hx
  rcases List.mem_cons.mp hxl with rfl | h1
  · decide
  · exact isUriChar_ne_nul ((hsegs sg hsg).2 x h1)

/-- On a text that starts with the letters `m` followed by a space, `METH_REGEX`
matches exactly `m`. -/
theorem regexec_meth_of_token {m t : List Char} (hne : m ≠ [])
    (hm : ∀ x ∈ m, isLetter x = true) :
    regexec METH_REGEX (m ++ ' ' :: t) = some (0, m.length) := by
  have hmatch : (Regex.plus (Regex.cls isLetter)).Matches ((m ++ ' ' :: t).take m.length) := by
    rw [List.take_left]
    exact Regex.matches_plus_cls_of hne hm
  obtain ⟨k, hk, hle⟩ := Regex.longest_of_matches (by simp) hmatch
  obtain ⟨hk1, hk2, _⟩ := Regex.longest_some hk
  have hkeq : k = m.length := by
    by_contra hcon
    have hlt : m.length < k := by omega
    have hall := (Regex.matches_plus_cls hk2).2
    have hmem : ' ' ∈ (m ++ ' ' :: t).take k := by
      rw [List.take_append_eq_append_take]
      apply List.mem_append_right
      obtain ⟨j, hj⟩ : ∃ j, k - m.length = j + 1 := ⟨k - m.length - 1, by omega⟩
      rw [hj, List.take_succ_cons]
      exact List.mem_cons_self _ _
    have := hall ' ' hmem
    revert this
    decide
  unfold regexec
  simp only [METH_REGEX, if_true, hk, hkeq, Option.map_some']

theorem strncasecmp_eq_iff (token : List Char) (word upper : List Char)
    (h : (upper.take word.length).map c_tolower = word) :
    strncasecmp_eq token upper word.length = true ↔ BeginsNoCase word token := by
  unfold strncasecmp_eq BeginsNoCase
  rw [h]
  exact beq_iff_eq

/-- What `handle_request` does with a well-formed request line whose method token is
not taken for `PUT`, `GET` or `APPEND`. -/
theorem handle_request_not_impl (fs : FS) (m uri rest : List Char) (r : Req)
    (hne : m ≠ []) (hm : ∀ x ∈ m, isLetter x = true) (hu : StrictUri uri)
    (hmeth : ¬ MethodKnown m) :
    handle_request fs (m ++ ' ' :: (uri ++ " HTTP/1.1\r\n".toList ++ rest)) r
      = { r with status_code := NOT_IMPL } := by
  have hnonul : ∀ x ∈ m ++ ' ' :: (uri ++ " HTTP/1.1\r\n".toList), x ≠ NUL := by
    intro x hx
    rcases List.mem_append.mp hx with h1 | h1
    · exact isLetter_ne_nul (hm x h1)
    · rcases List.mem_cons.mp h1 with rfl | h2
      · decide
      · rcases List.mem_append.mp h2 with h3 | h3
        · exact strictUri_no_nul hu x h3
        · have hlit : ∀ y ∈ " HTTP/1.1\r\n".toList, y ≠ NUL := by decide
          exact hlit x h3
  have hs : cstr (m ++ ' ' :: (uri ++ " HTTP/1.1\r\n".toList ++ rest))
      = m ++ ' ' :: (uri ++ " HTTP/1.1\r\n".toList ++ cstr rest) := by
    have := cstr_append_of_no_nul (m ++ ' ' :: (uri ++ " HTTP/1.1\r\n".toList)) rest hnonul
    simpa [List.append_assoc] using this
  obtain ⟨a, b, hreq⟩ : ∃ a b, regexec REQ_REGEX
      (m ++ ' ' :: (uri ++ " HTTP/1.1\r\n".toList ++ cstr rest)) = some (a, b) := by
    have := Regex.search_of_matches (u := []) (v := '\n' :: cstr rest) 0
      (req_regex_of_strict hne hm hu)
    unfold regexec
    simpa [REQ_REGEX, List.append_assoc] using this
  have hmr := regexec_meth_of_token (t := uri ++ " HTTP/1.1\r\n".toList ++ cstr rest) hne hm
  have h1 : strncasecmp_eq m "PUT".toList 3 = false := by
    rw [Bool.eq_false_iff]
    intro h
    exact hmeth (Or.inl ((strncasecmp_eq_iff m "put".toList "PUT".toList (by decide)).mp h))
  have h2 : strncasecmp_eq m "GET".toList 3 = false := by
    rw [Bool.eq_false_iff]
    intro h
    exact hmeth (Or.inr (Or.inl
      ((strncasecmp_eq_iff m "get".toList "GET".toList (by decide)).mp h)))
  have h3 : strncasecmp_eq m "APPEND".toList 6 = false := by
    rw [Bool.eq_false_iff]
    intro h
    exact hmeth (Or.inr (Or.inr
      ((strncasecmp_eq_iff m "append".toList "APPEND".toList (by decide)).mp h)))
  unfold handle_request
  simp only [hs, hreq, hmr, List.drop_zero, Nat.sub_zero, List.take_left, h1, h2, h3,
    Bool.false_eq_true, if_false]

/-- C4 (amended). For a request line `METHOD SP URI SP HTTP/1.1 CRLF` whose method
token does not begin, letter case ignored, with `put`, `get` or `append`:
`handle_request` sets 501 and leaves `method` and `uri_fd` at -1, and
`handle_connection`, once it has read such a header, calls no handler, answers with
the canned 501 response and leaves the files as they were. -/
theorem unknown_method_not_impl (fs : FS) (tmpw : List WrEv) (m uri rest : List Char)
    (conn : conn_struct) (h : HeaderRead)
    (hne : m ≠ []) (hm : ∀ x ∈ m, isLetter x = true) (hu : StrictUri uri)
    (hmeth : ¬ MethodKnown m)
    (hread : read_header (conn.fd.size + 1) conn OK = .ok h)
    (hbuf : h.conn.buffer = m ++ ' ' :: (uri ++ " HTTP/1.1\r\n".toList ++ rest))
    (hst : h.status_code = OK) (hgot : ∃ bs, h.local_read = .got bs) :
    handle_request fs h.conn.buffer Req.init
        = { method := -1, uri_fd := none, uri := [], status_code := NOT_IMPL } ∧
      ∃ s, handle_connection fs tmpw conn = .ok (.served s) ∧
        s.status_code = NOT_IMPL ∧ s.handler = none ∧ s.uri_fd = none ∧
        s.fs = fs ∧ STATUS_PHRASES NOT_IMPL = some s.sent := by
  have hreq := handle_request_not_impl fs m uri rest Req.init hne hm hu hmeth
  rw [← hbuf] at hreq
  refine ⟨hreq, ?_⟩
  obtain ⟨bs, hl⟩ := hgot
  have hno : ¬ (NOT_IMPL = OK ∨ NOT_IMPL = CREATED) := by decide
  have hresp : handle_response 0 NOT_IMPL = .ok
      "HTTP/1.1 501 Not Implemented\r\nContent-Length: 16 \r\n\r\nNot Implemented\n".toList :=
    rfl
  have hmem : h.conn.memory = m ++ ' ' :: (uri ++ " HTTP/1.1\r\n".toList
      ++ (rest ++ (List.replicate (BLOCK_2048 - h.conn.buffer.length) NUL
        ++ le32 h.conn.fdnum ++ le32 h.conn.bytes_read))) := by
    unfold conn_struct.memory
    rw [hbuf]
    simp only [List.append_assoc, List.cons_append]
  have hreq2 : handle_request fs h.conn.memory
      { method := -1, uri_fd := none, uri := [], status_code := OK }
      = { method := -1, uri_fd := none, uri := [], status_code := NOT_IMPL } := by
    rw [hmem]
    exact handle_request_not_impl fs m uri _ Req.init hne hm hu hmeth
  unfold handle_connection
  rw [hread]
  simp only [hl, hst, Bool.false_eq_true, if_false, if_true, hreq2, hno, hresp]
  exact ⟨_, rfl, rfl, rfl, rfl, rfl, rfl⟩

/-- Witness of C4 (amended): the request `DELETE /foo HTTP/1.1`. -/
theorem unknown_method_not_impl_witness :
    handle_request fs_example "DELETE /foo HTTP/1.1\r\n\r\n".toList Req.init
        = { method := -1, uri_fd := none, uri := [], status_code := NOT_IMPL } ∧
      ∃ s, handle_connection fs_example [] (conn_of "DELETE /foo HTTP/1.1\r\n\r\n")
          = .ok (.served s) ∧
        s.status_code = NOT_IMPL ∧ s.handler = none ∧ s.uri_fd = none ∧
        s.fs = fs_example ∧ STATUS_PHRASES NOT_IMPL = some s.sent :=
  unknown_method_not_impl fs_example [] "DELETE".toList "/foo".toList "\r\n".toList
    (conn_of "DELETE /foo HTTP/1.1\r\n\r\n")
    { conn := { buffer := "DELETE /foo HTTP/1.1\r\n\r\n".toList, fdnum := 4, fd := [] },
      status_code := OK, local_read := .got ['\n'] }
    (by decide) (by decide) ⟨["foo".toList], by decide, by decide, by decide⟩
    (by unfold MethodKnown BeginsNoCase; decide) (by rfl) (by rfl) rfl ⟨_, rfl⟩

/-- C4 (counterexample). Method tokens that are not exactly `PUT`, `GET` or `APPEND`
and are served all the same: `getx` reads `.//foo` through `get_request` with status
200, and `put` creates `.//new` through `put_request` with status 201. -/
theorem inexact_method_is_served :
    view_conn ".//foo".toList
        (handle_connection fs_example [] (conn_of "getx /foo HTTP/1.1\r\n\r\n"))
      = .ok (some (OK, "HTTP/1.1 200 OK\r\nContent-Length: 3 \r\n\r\nold".toList,
          some GET, some ⟨".//foo".toList, 0⟩, .reg "old".toList)) ∧
    view_conn ".//new".toList
        (handle_connection fs_example []
          (conn_of "put /new HTTP/1.1\r\nContent-Length: 2\r\n\r\nhi"))
      = .ok (some (CREATED, "HTTP/1.1 201 Created\r\nContent-Length: 8 \r\n\r\nCreated\n".toList,
          some PUT, none, .reg "hi".toList)) :=
  ⟨eq_ok_of_decide (by decide!), eq_ok_of_decide (by decide!)⟩


/-! ## C5: what `handle_response` writes -/

theorem handle_response_nonpos (n code : Int) (h : n ≤ 0) :
    handle_response n code =
      match STATUS_PHRASES code with
      | some phrase => .ok phrase
      | none => .error .nullptr := by
  unfold handle_response
  rw [if_neg (by omega)]

/-- What `handle_response` writes.  With a content length of 0 or less it writes the
canned response of the status code, which begins with the status line of that code;
with a positive content length it writes the `200 OK` header announcing one less than
its argument, whatever the status code; and `handle_connection`, when it calls no
handler and `length` is not positive, answers with the canned response of its final
status. -/
theorem handle_response_lines :
    (∀ code n, code ∈ status_codes → n ≤ 0 →
      ∃ resp, handle_response n code = .ok resp ∧ STATUS_PHRASES code = some resp ∧
        (status_line code).isPrefixOf resp = true) ∧
    (∀ code n, 0 < n →
      handle_response n code = .ok ("HTTP/1.1 200 OK\r\nContent-Length: ".toList
        ++ fmt_d (n - 1) ++ " \r\n\r\n".toList)) ∧
    (∀ fs tmpw conn s, handle_connection fs tmpw conn = .ok (.served s) →
      s.handler = none → s.length ≤ 0 → STATUS_PHRASES s.status_code = some s.sent) := by
  refine ⟨?_, fun code n h => handle_response_pos n code h, ?_⟩
  · intro code n hc hn
    rw [handle_response_nonpos n code hn]
    simp only [status_codes, List.mem_cons, List.mem_singleton, List.not_mem_nil,
      or_false] at hc
    rcases hc with rfl | rfl | rfl | rfl | rfl | rfl | rfl <;> exact ⟨_, rfl, rfl, by decide⟩
  · intro fs tmpw conn s hs hh hl
    have hcanned : ∀ (h : HeaderRead) (length status : Int) (parsed : Bool)
        (uri_fd : Option Fd) (rest : Source),
        (match handle_response length status with
          | .error f => (Except.error f : Except Fault Handling)
          | .ok resp =>
            .ok (.served (finish_connection h status resp fs parsed none uri_fd length rest)))
          = .ok (.served s) → STATUS_PHRASES s.status_code = some s.sent := by
      intro h length status parsed uri_fd rest heq
      by_cases hlen : length ≤ 0
      · rw [handle_response_nonpos length status hlen] at heq
        cases hp : STATUS_PHRASES status with
        | none => rw [hp] at heq; cases heq
        | some phrase =>
          rw [hp] at heq
          simp only [Except.ok.injEq, Handling.served.injEq] at heq
          rw [← heq]
          simpa [finish_connection, sock_write, sys_close] using hp
      · exfalso
        rw [handle_response_pos length status (by omega)] at heq
        simp only [Except.ok.injEq, Handling.served.injEq] at heq
        rw [← heq] at hl
        exact hlen hl
    unfold handle_connection at hs
    split at hs
    · cases hs
    · rename_i h _
      simp only at hs
      split at hs
      · cases hs
      · split at hs
        · split at hs
          · split at hs
            · cases hs
            · split at hs
              · split at hs
                · cases hs
                · simp only [Except.ok.injEq, Handling.served.injEq] at hs
                  rw [← hs] at hh
                  cases hh
              · exact hcanned _ _ _ _ _ _ hs
          · exact hcanned _ _ _ _ _ _ hs
        · exact hcanned _ _ _ _ _ _ hs

/-- Instances of the three cases above: the canned 404 response, the computed header for
a body of three bytes, and the answer to `DELETE /foo`. -/
theorem handle_response_lines_witness :
    (∃ resp, handle_response 0 NOT_FOUND = .ok resp ∧ STATUS_PHRASES NOT_FOUND = some resp ∧
        (status_line NOT_FOUND).isPrefixOf resp = true) ∧
    handle_response 4 OK = .ok ("HTTP/1.1 200 OK\r\nContent-Length: ".toList
        ++ fmt_d (4 - 1) ++ " \r\n\r\n".toList) ∧
    STATUS_PHRASES NOT_IMPL = some
      "HTTP/1.1 501 Not Implemented\r\nContent-Length: 16 \r\n\r\nNot Implemented\n".toList :=
  ⟨handle_response_lines.1 NOT_FOUND 0 (by decide) (by decide),
   handle_response_lines.2.1 OK 4 (by decide),
   handle_response_lines.2.2 fs_example [] (conn_of "DELETE /foo HTTP/1.1\r\n\r\n")
     { status_code := NOT_IMPL,
       sent := "HTTP/1.1 501 Not Implemented\r\nContent-Length: 16 \r\n\r\nNot Implemented\n".toList,
       fs := fs_example, parsed := true, handler := none, uri_fd := none, closed := true,
       length := 0, buffer := "DELETE /foo HTTP/1.1\r\n\r\n".toList, rest := [],
       log := .ok (some "DELETE,/foo,501,0\n".toList) }
     (by rfl) rfl (by decide)⟩

/-- C5, at the failing input.  A `PUT` whose second header line is malformed, after
`Content-Length: 5`, ends in `handle_connection` with status 400 while the client is
sent `HTTP/1.1 200 OK` with `Content-Length: 4`, not the status line of 400:
`handle_connection` hands the parsed `length` to `handle_response`, which with status 400
and content length 5 writes a `200 OK` header. -/
theorem error_answered_with_ok_line :
    handle_response 5 BAD_REQ
      = .ok "HTTP/1.1 200 OK\r\nContent-Length: 4 \r\n\r\n".toList ∧
    view_conn ".//foo".toList
        (handle_connection fs_example []
          (conn_of "PUT /foo HTTP/1.1\r\nContent-Length: 5\r\nbad header\r\n\r\n"))
      = .ok (some (BAD_REQ, "HTTP/1.1 200 OK\r\nContent-Length: 4 \r\n\r\n".toList,
          none, none, .reg "old".toList)) :=
  ⟨by rfl, eq_ok_of_decide (by decide!)⟩


/-! ## C6: the status after a failed `open` -/

/-- In `handle_urifd`, for `GET` (which opens with `O_RDONLY`) and for `APPEND` (which
opens with `O_WRONLY`), a failed `open` sets the status from `errno`: 404 for `ENOENT`,
403 for `EACCES` and for `EISDIR`. -/
theorem handle_urifd_open_failure (fs : FS) (r : Req) (e : Errno)
    (hm : r.method = GET ∨ r.method = APPEND)
    (hopen : (if r.method = GET
        then sys_open fs (memcpy_text r.uri (("./".toList ++ r.uri).take (BLOCK_2048 - 1)))
        else sys_open_wronly fs
          (memcpy_text r.uri (("./".toList ++ r.uri).take (BLOCK_2048 - 1))))
      = .error e) :
    (handle_urifd fs r).status_code = status_of_errno e ∧ (handle_urifd fs r).uri_fd = none ∧
      status_of_errno .ENOENT = NOT_FOUND ∧ status_of_errno .EACCES = FORBIDDEN ∧
      status_of_errno .EISDIR = FORBIDDEN := by
  have key : handle_urifd fs r
      = { r with uri := memcpy_text r.uri (("./".toList ++ r.uri).take (BLOCK_2048 - 1)),
                 uri_fd := none, status_code := status_of_errno e } := by
    unfold handle_urifd
    rcases hm with hm | hm
    · rw [if_pos hm] at hopen
      rw [if_neg (by rw [hm]; decide)]
      simp only
      rw [if_neg (by rw [hm]; decide), if_pos hm, hopen]
    · rw [if_neg (by rw [hm]; decide)] at hopen
      rw [if_neg (by rw [hm]; decide)]
      simp only
      rw [if_neg (by rw [hm]; decide), if_neg (by rw [hm]; decide), if_pos hm, hopen]
  rw [key]
  exact ⟨rfl, rfl, rfl, rfl, rfl⟩

/-- The failures of `open` in `handle_urifd` on the files of the examples: `GET` of a
missing file is 404, of a file without permission 403; `APPEND` to a directory is 403,
while `GET` of a directory opens it. -/
theorem handle_urifd_examples :
    (handle_urifd fs_example { Req.init with method := GET, uri := "/none".toList }).status_code
      = NOT_FOUND ∧
    (handle_urifd fs_example { Req.init with method := GET, uri := "/secret".toList }).status_code
      = FORBIDDEN ∧
    (handle_urifd fs_example { Req.init with method := APPEND, uri := "/dir".toList }).status_code
      = FORBIDDEN ∧
    (handle_urifd fs_example { Req.init with method := GET, uri := "/dir".toList }).uri_fd
      = some ⟨".//dir".toList, 0⟩ :=
  ⟨by rfl, by rfl, by rfl, by rfl⟩

/-- C6, at the failing input: a `PUT` to a path whose `open` fails with `EACCES`, or
with `EISDIR`, ends with status 400 and the canned 400 response, where a `GET` of the
file without permission ends with 403. -/
theorem put_open_failure_is_bad_request :
    view ".//secret".toList
        (put_request fs_example ".//secret".toList [.data 'h' "i".toList] [] 2 OK)
      = .ok (BAD_REQ,
          "HTTP/1.1 400 Bad Request\r\nContent-Length: 12 \r\n\r\nBad Request\n".toList,
          .noopen .EACCES) ∧
    view ".//dir".toList
        (put_request fs_example ".//dir".toList [.data 'h' "i".toList] [] 2 OK)
      = .ok (BAD_REQ,
          "HTTP/1.1 400 Bad Request\r\nContent-Length: 12 \r\n\r\nBad Request\n".toList,
          .dir) ∧
    view_conn ".//secret".toList
        (handle_connection fs_example []
          (conn_of "PUT /secret HTTP/1.1\r\nContent-Length: 2\r\n\r\nhi"))
      = .ok (some (BAD_REQ,
          "HTTP/1.1 400 Bad Request\r\nContent-Length: 12 \r\n\r\nBad Request\n".toList,
          some PUT, none, .noopen .EACCES)) ∧
    view_conn ".//secret".toList
        (handle_connection fs_example [] (conn_of "GET /secret HTTP/1.1\r\n\r\n"))
      = .ok (some (FORBIDDEN,
          "HTTP/1.1 403 Forbidden\r\nContent-Length: 10 \r\n\r\nForbidden\n".toList,
          none, none, .noopen .EACCES)) :=
  ⟨by rfl, by rfl, eq_ok_of_decide (by decide!), eq_ok_of_decide (by decide!)⟩


/-- On a source whose `read` fails for ever, `handle_message` does not return unless the
declared length has been reached or the status is -1: each round of the outer loop
calls `read` again.  In the model the step budget runs out, whatever it is. -/
theorem handle_message_loop_stuck (length : Int) (e : Errno) (rest : Source) :
    ∀ (fuel : Nat) (num : Int) (m : Msg), m.source = .stuck e :: rest →
      length ≠ m.bytes → m.status_code ≠ -1 →
      handle_message_loop length fuel num m = .error .steps := by
  intro fuel
  induction fuel with
  | zero => intro num m _ _ _; rfl
  | succ k ih =>
    intro num m hsrc hlen hst
    rw [handle_message_loop]
    have hrd : ∃ e1, sys_read m.source (sizeT num) = (.failed e1, .stuck e :: rest) := by
      rw [hsrc]
      unfold sys_read
      by_cases hc : SSIZE_MAX < sizeT num
      · exact ⟨.EFAULT, by rw [if_pos hc]⟩
      · exact ⟨e, by rw [if_neg hc]⟩
    obtain ⟨e1, he1⟩ := hrd
    simp only [he1]
    rw [if_neg hlen, if_neg hst]
    exact ih _ _ rfl hlen hst

/-- A `GET` of a directory is not answered with 403: `open` with `O_RDONLY` succeeds on
a directory, `get_request` sends a `200 OK` header with the size `fstat` reports, and
`handle_message` then calls `read` for ever, each call failing with `EISDIR`.  The
connection is never closed. -/
theorem get_directory_never_returns :
    handle_request fs_example "GET /dir HTTP/1.1\r\n\r\n".toList Req.init
      = { method := GET, uri_fd := some ⟨".//dir".toList, 0⟩, uri := ".//dir".toList,
          status_code := OK } ∧
    fileSource fs_example ⟨".//dir".toList, 0⟩ = [.stuck .EISDIR] ∧
    (∀ fuel, handle_message_loop DIR_SIZE fuel BLOCK_2048
        { status_code := OK, bytes := 0, source := fileSource fs_example ⟨".//dir".toList, 0⟩,
          dest := { content := [], script := [] }, reads := [] } = .error .steps) ∧
    handle_connection fs_example [] (conn_of "GET /dir HTTP/1.1\r\n\r\n") = .error .steps :=
  ⟨by decide, by decide,
   fun fuel => handle_message_loop_stuck DIR_SIZE .EISDIR [] fuel _ _ (by decide) (by decide)
     (by decide),
   eq_error_of_decide (by decide!)⟩

/-! ## C7: the queue is first in, first out -/

theorem shift_loop_apply : ∀ (k : Nat) (cq : Nat → Option conn_struct) (i j : Nat),
    shift_loop cq i k j = if i ≤ j ∧ j < i + k then cq (j + 1) else cq j := by
  intro k
  induction k with
  | zero =>
    intro cq i j
    simp only [shift_loop]
    rw [if_neg (by omega)]
  | succ k ih =>
    intro cq i j
    simp only [shift_loop]
    rw [ih]
    by_cases h1 : i + 1 ≤ j ∧ j < i + 1 + k
    · rw [if_pos h1, if_pos (by omega), Function.update_noteq (by omega)]
    · rw [if_neg h1]
      by_cases h2 : j = i
      · subst h2
        rw [Function.update_same, if_pos (by omega)]
      · rw [Function.update_noteq h2, if_neg (by omega)]

theorem get_connection_contents (q : Queue) (c0 : Option conn_struct)
    (rest : List (Option conn_struct)) (hn : 1 ≤ q.socket_count)
    (hc : q.contents = c0 :: rest) :
    ∃ q1, get_connection q = some (c0, q1) ∧ q1.contents = rest ∧
      q1.socket_count = q.socket_count - 1 := by
  obtain ⟨n, hn1⟩ : ∃ n : Nat, q.socket_count = (n : Int) + 1 :=
    ⟨(q.socket_count - 1).toNat, by omega⟩
  have htn : q.socket_count.toNat = n + 1 := by omega
  unfold Queue.contents at hc
  rw [htn, List.range_succ_eq_map, List.map_cons, List.map_map] at hc
  simp only [List.cons.injEq] at hc
  obtain ⟨h0, hrest⟩ := hc
  unfold get_connection
  rw [if_neg (by omega)]
  refine ⟨_, by rw [h0], ?_, rfl⟩
  unfold Queue.contents
  simp only
  have htn2 : (q.socket_count - 1).toNat = n := by omega
  rw [htn2, ← hrest]
  apply List.map_congr_left
  intro j hj
  rw [List.mem_range] at hj
  rw [shift_loop_apply, if_pos (by omega)]
  rfl

theorem submit_connection_contents (q : Queue) (c : conn_struct)
    (h0 : 0 ≤ q.socket_count) (h1 : q.socket_count < 2047) :
    ∃ q1, submit_connection q c = some (.ok q1) ∧ q1.contents = q.contents ++ [some c] ∧
      q1.socket_count = q.socket_count + 1 := by
  obtain ⟨n, hn⟩ : ∃ n : Nat, q.socket_count = (n : Int) := ⟨q.socket_count.toNat, by omega⟩
  unfold submit_connection submit_store
  have h2048 : ((BLOCK_2048 : Nat) : Int) = 2048 := rfl
  rw [if_neg (by omega), if_pos (by omega)]
  refine ⟨_, rfl, ?_, rfl⟩
  unfold Queue.contents
  simp only
  have ht1 : (q.socket_count + 1).toNat = n + 1 := by omega
  have ht0 : q.socket_count.toNat = n := by omega
  rw [ht1, ht0, List.range_succ, List.map_append, List.map_singleton, Function.update_same]
  congr 1
  apply List.map_congr_left
  intro j hj
  rw [List.mem_range] at hj
  exact Function.update_noteq (by omega) _ _

theorem run_ops_fifo : ∀ (ops : List QOp) (q0 : Queue) (outs : List (Option conn_struct))
    (q : Queue), run_ops q0 ops = some (outs, q) →
      q0.contents ++ submitted ops = outs ++ q.contents := by
  intro ops
  induction ops with
  | nil =>
    intro q0 outs q h
    simp only [run_ops, Option.some.injEq, Prod.mk.injEq] at h
    obtain ⟨rfl, rfl⟩ := h
    simp [submitted]
  | cons op ops ih =>
    intro q0 outs q h
    cases op with
    | submit c =>
      simp only [run_ops] at h
      by_cases hfull : q0.socket_count = BLOCK_2048 - 1
      · simp only [submit_connection, hfull, if_true] at h
        cases h
      · by_cases hin : 0 ≤ q0.socket_count ∧ q0.socket_count < BLOCK_2048
        · have h2048 : ((BLOCK_2048 : Nat) : Int) = 2048 := rfl
          obtain ⟨q1, hq1, hc1, _⟩ := submit_connection_contents q0 c hin.1 (by omega)
          rw [hq1] at h
          simp only at h
          have := ih q1 outs q h
          rw [hc1] at this
          simpa [submitted] using this
        · simp only [submit_connection, hfull, if_false, submit_store, hin] at h
          cases h
    | take =>
      simp only [run_ops] at h
      by_cases hpos : q0.socket_count ≤ 0
      · simp only [get_connection, hpos, if_true] at h
        cases h
      · obtain ⟨n, hn⟩ : ∃ n : Nat, q0.socket_count.toNat = n + 1 :=
          ⟨q0.socket_count.toNat - 1, by omega⟩
        have hcont : q0.contents = q0.conn_queue 0 :: (q0.contents).tail := by
          unfold Queue.contents
          rw [hn, List.range_succ_eq_map]
          rfl
        obtain ⟨q1, hq1, hc1, _⟩ := get_connection_contents q0 _ _ (by omega) hcont
        rw [hq1] at h
        simp only at h
        cases hrun : run_ops q1 ops with
        | none => rw [hrun] at h; cases h
        | some res =>
          obtain ⟨out1, q2⟩ := res
          rw [hrun] at h
          simp only [Option.some.injEq, Prod.mk.injEq] at h
          obtain ⟨rfl, rfl⟩ := h
          have := ih q1 out1 q2 hrun
          rw [hc1] at this
          rw [hcont]
          simpa [submitted] using this

/-- C7. The queue is first in, first out: `get_connection` on a queue holding
`c0 :: rest` returns `c0` and leaves `rest`, in order, with `socket_count` one less;
`submit_connection` on a queue that holds fewer than 2047 connections stores the new
one after the last; and in every run of submits and takes from the empty queue in
which no call waits, the connections taken followed by those still queued are the
connections submitted, in the order of submission. -/
theorem queue_is_fifo :
    (∀ (q : Queue) (c0 : Option conn_struct) (rest : List (Option conn_struct)),
      1 ≤ q.socket_count → q.contents = c0 :: rest →
      ∃ q1, get_connection q = some (c0, q1) ∧ q1.contents = rest ∧
        q1.socket_count = q.socket_count - 1) ∧
    (∀ (q : Queue) (c : conn_struct), 0 ≤ q.socket_count → q.socket_count < 2047 →
      ∃ q1, submit_connection q c = some (.ok q1) ∧
        q1.contents = q.contents ++ [some c] ∧ q1.socket_count = q.socket_count + 1) ∧
    (∀ (ops : List QOp) (outs : List (Option conn_struct)) (q : Queue),
      run_ops Queue.init ops = some (outs, q) → outs ++ q.contents = submitted ops) := by
  refine ⟨get_connection_contents, submit_connection_contents, ?_⟩
  intro ops outs q h
  have := run_ops_fifo ops Queue.init outs q h
  rw [← this]
  rfl

/-- Witness of C7: three submissions and two takes on the empty queue. -/
theorem queue_is_fifo_witness :
    ∃ outs q,
      run_ops Queue.init
        [.submit (conn_of "a"), .submit (conn_of "b"), .take, .submit (conn_of "c"), .take]
        = some (outs, q) ∧
      outs = [some (conn_of "a"), some (conn_of "b")] ∧
      outs ++ q.contents = submitted
        [.submit (conn_of "a"), .submit (conn_of "b"), .take, .submit (conn_of "c"), .take] ∧
      (∃ q1, submit_connection Queue.init (conn_of "a") = some (.ok q1) ∧
        q1.contents = Queue.init.contents ++ [some (conn_of "a")] ∧
        q1.socket_count = Queue.init.socket_count + 1) ∧
      (∃ q1, get_connection
          { conn_queue := fun i => if i = 0 then some (conn_of "a") else none,
            socket_count := 1 } = some (some (conn_of "a"), q1) ∧
        q1.contents = [] ∧ q1.socket_count = 1 - 1) :=
  ⟨_, _, rfl, rfl, queue_is_fifo.2.2 _ _ _ rfl,
    queue_is_fifo.2.1 Queue.init (conn_of "a") (by decide) (by decide),
    queue_is_fifo.1 { conn_queue := fun i => if i = 0 then some (conn_of "a") else none,
                      socket_count := 1 } (some (conn_of "a")) [] (by decide) (by rfl)⟩


/-! ## C8: the queue under several threads -/

theorem Pool.run_append (a b : List PoolStep) : ∀ p : Pool,
    Pool.run p (a ++ b) =
      match Pool.run p a with
      | .ok p1 => Pool.run p1 b
      | .error f => .error f := by
  induction a with
  | nil => intro p; rfl
  | cons s ss ih =>
    intro p
    simp only [List.cons_append, Pool.run]
    cases p.step s with
    | error f => rfl
    | ok p1 => exact ih p1

theorem Pool.run_submits (c : conn_struct) : ∀ (n : Nat) (p : Pool),
    0 ≤ p.q.socket_count → p.q.socket_count + n ≤ 2047 →
      ∃ p1, Pool.run p (List.replicate n (.submit c)) = .ok p1 ∧
        p1.q.socket_count = p.q.socket_count + n ∧ p1.waiting = p.waiting ∧
        p1.woken = p.woken := by
  intro n
  induction n with
  | zero => intro p _ _; exact ⟨p, rfl, by simp, rfl, rfl⟩
  | succ n ih =>
    intro p h0 h1
    have h2048 : ((BLOCK_2048 : Nat) : Int) = 2048 := rfl
    have hstep : p.step (.submit c) = .ok
        { p with q := { conn_queue := Function.update p.q.conn_queue p.q.socket_count.toNat
                          (some c),
                        socket_count := p.q.socket_count + 1 } } := by
      simp only [Pool.step, submit_store]
      rw [if_neg (by omega), if_pos (by omega)]
    obtain ⟨p1, hp1, hc, hw, hk⟩ := ih
      { p with q := { conn_queue := Function.update p.q.conn_queue p.q.socket_count.toNat
                        (some c),
                      socket_count := p.q.socket_count + 1 } }
      (by simp only; omega) (by simp only; omega)
    refine ⟨p1, ?_, ?_, hw, hk⟩
    · simp only [List.replicate_succ, Pool.run, hstep]
      exact hp1
    · rw [hc]
      simp only
      omega

/-- C8, at the failing schedule: after `overfill_schedule` the queue holds 2048
connections (`socket_count = 2048`, every slot of the array taken), and the next call
of `submit_connection` does not wait and stores its connection at index 2048, outside
the array. -/
theorem queue_overfills (c : conn_struct) :
    (∃ p, Pool.run Pool.init (overfill_schedule c) = .ok p ∧ p.q.socket_count = 2048) ∧
      Pool.run Pool.init (overfill_schedule c ++ [.submit c]) = .error .overrun := by
  obtain ⟨p1, hp1, hc, hw, hk⟩ := Pool.run_submits c 2047 Pool.init (by decide) (by decide)
  obtain ⟨⟨cq, cnt⟩, waiting, woken⟩ := p1
  simp only at hc hw hk
  have hcnt : cnt = 2047 := by rw [hc]; rfl
  have hwait : waiting = [] := hw
  have hwok : woken = [] := hk
  subst hcnt hwait hwok
  have hrun : ∃ p,
      Pool.run ⟨⟨cq, 2047⟩, [], []⟩ [.submit c, .take, .submit c, .resume] = .ok p ∧
        p.q.socket_count = 2048 ∧ p.waiting = [] ∧ p.woken = [] := by
    simp [Pool.run, Pool.step, get_connection, submit_store]
  obtain ⟨p, hp, hpc, hpw, hpk⟩ := hrun
  constructor
  · refine ⟨p, ?_, hpc⟩
    unfold overfill_schedule
    rw [Pool.run_append, hp1]
    exact hp
  · unfold overfill_schedule
    rw [Pool.run_append, Pool.run_append, hp1]
    simp only
    rw [hp]
    simp only [Pool.run, Pool.step, submit_store, hpc]
    rfl


/-! ## C9: a header block that does not end within the buffer -/

theorem isPrefixOf_split : ∀ (pat s : List Char), pat.isPrefixOf s = true →
    ∃ v, s = pat ++ v := by
  intro pat
  induction pat with
  | nil => intro s _; exact ⟨s, rfl⟩
  | cons p ps ih =>
    intro s h
    cases s with
    | nil => simp [List.isPrefixOf] at h
    | cons c cs =>
      simp only [List.isPrefixOf, Bool.and_eq_true, beq_iff_eq] at h
      obtain ⟨v, hv⟩ := ih cs h.2
      exact ⟨v, by rw [h.1, hv]; rfl⟩

theorem strstr_occurs (pat : List Char) : ∀ (s : List Char) (i : Nat),
    strstr s pat = some i → Occurs pat s := by
  intro s
  induction s with
  | nil =>
    intro i h
    simp only [strstr] at h
    by_cases hp : pat = []
    · exact ⟨[], [], by rw [hp]; rfl⟩
    · rw [if_neg hp] at h; cases h
  | cons c cs ih =>
    intro i h
    simp only [strstr] at h
    by_cases hp : pat.isPrefixOf (c :: cs) = true
    · obtain ⟨v, hv⟩ := isPrefixOf_split pat (c :: cs) hp
      exact ⟨[], v, by rw [hv]; rfl⟩
    · rw [if_neg hp] at h
      cases hs : strstr cs pat with
      | none => rw [hs] at h; cases h
      | some j =>
        obtain ⟨u, v, huv⟩ := ih j hs
        exact ⟨c :: u, v, by rw [huv]; rfl⟩

theorem isPrefixOf_append_self : ∀ (pat v : List Char), pat.isPrefixOf (pat ++ v) = true := by
  intro pat
  induction pat with
  | nil => intro v; cases v <;> rfl
  | cons p ps ih =>
    intro v
    simp only [List.cons_append, List.isPrefixOf, beq_self_eq_true, Bool.true_and]
    exact ih v

/-- The call `strstr` finds every text that occurs. -/
theorem strstr_of_occurs (pat : List Char) : ∀ (u v s : List Char), s = u ++ pat ++ v →
    (strstr s pat).isSome = true := by
  intro u
  induction u with
  | nil =>
    intro v s hs
    have hpre := isPrefixOf_append_self pat v
    rw [List.nil_append] at hs
    rw [← hs] at hpre
    cases s with
    | nil =>
      have hpat : pat = [] := (List.append_eq_nil.mp hs.symm).1
      simp [strstr, hpat]
    | cons c cs => simp [strstr, hpre]
  | cons c cs ih =>
    intro v s hs
    rw [hs, List.cons_append, List.cons_append]
    rw [strstr]
    by_cases hp : pat.isPrefixOf (c :: (cs ++ pat ++ v)) = true
    · rw [if_pos hp]
      rfl
    · rw [if_neg hp]
      have := ih v _ rfl
      rw [Option.isSome_map']
      exact this

theorem not_occurs_of_strstr {pat s : List Char} (h : strstr s pat = none) :
    ¬ Occurs pat s := by
  rintro ⟨u, v, rfl⟩
  have := strstr_of_occurs pat u v _ rfl
  rw [h] at this
  cases this

theorem occurs_of_take {pat s : List Char} {k n : Nat} (hk : k ≤ n)
    (h : Occurs pat (cstr (s.take k))) : Occurs pat (s.take n) := by
  obtain ⟨u, v, huv⟩ := h
  have h1 : s.take k = cstr (s.take k) ++ (s.take k).dropWhile (fun c => c != NUL) := by
    unfold cstr
    exact (List.takeWhile_append_dropWhile _ _).symm
  have h2 : s.take n = s.take k ++ (s.take n).drop k := by
    have : s.take k = (s.take n).take k := by
      rw [List.take_take, Nat.min_eq_left hk]
    rw [this, List.take_append_drop]
  refine ⟨u, v ++ ((s.take k).dropWhile (fun c => c != NUL) ++ (s.take n).drop k), ?_⟩
  calc s.take n = s.take k ++ (s.take n).drop k := h2
    _ = (cstr (s.take k) ++ (s.take k).dropWhile (fun c => c != NUL))
          ++ (s.take n).drop k := by rw [← h1]
    _ = ((u ++ pat ++ v) ++ (s.take k).dropWhile (fun c => c != NUL))
          ++ (s.take n).drop k := by rw [huv]
    _ = _ := by simp only [List.append_assoc]

theorem occurs_of_cstr {pat s : List Char} (h : Occurs pat (cstr s)) : Occurs pat s := by
  obtain ⟨u, v, huv⟩ := h
  refine ⟨u, v ++ s.dropWhile (fun c => c != NUL), ?_⟩
  have h1 : s = cstr s ++ s.dropWhile (fun c => c != NUL) := by
    unfold cstr
    exact (List.takeWhile_append_dropWhile _ _).symm
  rw [huv] at h1
  simpa [List.append_assoc] using h1

/-- A string ends at the first zero byte. -/
theorem cstr_append_nul : ∀ (a t : List Char), cstr (a ++ NUL :: t) = cstr a := by
  intro a
  induction a with
  | nil => intro t; rfl
  | cons c cs ih =>
    intro t
    have := ih t
    unfold cstr at this ⊢
    rw [List.cons_append, List.takeWhile_cons, List.takeWhile_cons, this]

/-- While the array is not full the string at `conn->buffer` is the text read so far. -/
theorem cstr_memory_of_short (conn : conn_struct) (h : conn.buffer.length < 2048) :
    cstr conn.memory = cstr conn.buffer := by
  unfold conn_struct.memory
  obtain ⟨k, hk⟩ : ∃ k, BLOCK_2048 - conn.buffer.length = k + 1 :=
    ⟨BLOCK_2048 - conn.buffer.length - 1, by simp only [BLOCK_2048]; omega⟩
  rw [hk, List.replicate_succ, List.append_assoc, List.append_assoc, List.cons_append]
  exact cstr_append_nul _ _

/-- When the array is full the string at `conn->buffer` runs on into the field `fd`; it
ends in `bytes_read` at the latest, whose value 2048 has a zero low byte. -/
theorem cstr_memory_of_full (conn : conn_struct) (h : conn.buffer.length = 2048) :
    cstr conn.memory = cstr (conn.buffer ++ le32 conn.fdnum) := by
  unfold conn_struct.memory conn_struct.bytes_read
  rw [h]
  have h0 : BLOCK_2048 - 2048 = 0 := rfl
  have h1 : le32 2048 = NUL :: [Char.ofNat 8, Char.ofNat 0, Char.ofNat 0] := by decide
  rw [h0, h1, List.replicate_zero, List.append_nil]
  exact cstr_append_nul _ _

theorem sys_read_one (b : Char) (bs : List Char) (rest : Source) :
    ∃ src, sys_read (.data b bs :: rest) 1 = (.got [b], src) ∧
      src.bytes = bs ++ Source.bytes rest ∧
      src.size < Source.size (.data b bs :: rest) ∧
      ∀ e, RdEv.err e ∈ src → RdEv.err e ∈ rest := by
  rw [sys_read_of_le _ 1 (by omega)]
  cases bs with
  | nil =>
    exact ⟨rest, by simp, by simp, by simp [Source.size], fun e he => he⟩
  | cons c cs =>
    refine ⟨.data c cs :: rest, by simp, by simp [Source.bytes],
      by simp [Source.size], ?_⟩
    intro e he
    rcases List.mem_cons.mp he with h1 | h1
    · cases h1
    · exact h1

/-- The loop at the top of `handle_connection` on a stream whose first 2048 bytes do not
hold `\r\n\r\n`: it ends when the array is full, with status 400 unless `strstr` finds
`\r\n\r\n` in the 2048 bytes followed by the bytes of the field `fd`, or earlier on a
call of `read` that fails. -/
theorem read_header_long (all : List Char) (hlen : 2048 ≤ all.length)
    (hno : ¬ Occurs "\r\n\r\n".toList (all.take 2048)) :
    ∀ (fuel : Nat) (conn : conn_struct), conn.fd.size < fuel →
      conn.buffer ++ conn.fd.bytes = all → conn.buffer.length < 2048 →
      ∃ h, read_header fuel conn OK = .ok h ∧ h.conn.fdnum = conn.fdnum ∧
        (((∃ bs, h.local_read = .got bs) ∧ h.conn.buffer = all.take 2048 ∧
            h.status_code =
              if (strstr (cstr (all.take 2048 ++ le32 conn.fdnum)) "\r\n\r\n".toList).isSome
              then OK else BAD_REQ) ∨
         (∃ e, h.local_read = .failed e ∧ RdEv.err e ∈ conn.fd ∧
            h.conn.buffer ++ h.conn.fd.bytes = all ∧ h.conn.buffer.length < 2048 ∧
            h.conn.fd.size < conn.fd.size ∧
            ∀ e1, RdEv.err e1 ∈ h.conn.fd → RdEv.err e1 ∈ conn.fd)) := by
  intro fuel
  induction fuel with
  | zero => intro conn h; omega
  | succ fuel ih =>
    intro conn hsz hall hbuf
    obtain ⟨buffer, fdnum, fd⟩ := conn
    simp only at hsz hall hbuf
    rw [read_header]
    simp only [conn_struct.bytes_read]
    rw [if_neg (by simp only [BLOCK_2048]; omega)]
    cases fd with
    | nil =>
      exfalso
      simp only [Source.bytes, List.append_nil] at hall
      rw [← hall] at hlen
      omega
    | cons ev rest =>
      cases ev with
      | stuck e =>
        exfalso
        simp only [Source.bytes, List.append_nil] at hall
        rw [← hall] at hlen
        omega
      | err e =>
        rw [sys_read_of_le _ 1 (by omega)]
        refine ⟨_, rfl, rfl, Or.inr ⟨e, rfl, List.mem_cons_self _ _, ?_, hbuf, ?_, ?_⟩⟩
        · simpa [Source.bytes] using hall
        · simp [Source.size]
        · intro e1 he1
          exact List.mem_cons_of_mem _ he1
      | data b bs =>
        obtain ⟨src, hrd, hbytes, hsize, herr⟩ := sys_read_one b bs rest
        rw [hrd]
        simp only
        have hall2 : (buffer ++ [b]) ++ src.bytes = all := by
          rw [hbytes, ← hall]
          simp [Source.bytes]
        have htake : buffer ++ [b] = all.take (buffer.length + 1) := by
          rw [← hall2, List.take_left' (by simp)]
        by_cases hfull : BLOCK_2048 ≤ (buffer ++ [b]).length
        · have hlen1 : buffer.length + 1 = 2048 := by
            simp only [List.length_append, List.length_singleton, BLOCK_2048] at hfull
            omega
          have hmem : cstr (conn_struct.memory { buffer := buffer ++ [b], fdnum := fdnum, fd := src })
              = cstr (all.take 2048 ++ le32 fdnum) := by
            rw [cstr_memory_of_full _ (by simp only [List.length_append, List.length_singleton]; omega)]
            simp only
            rw [htake, hlen1]
          rw [hmem]
          cases hfound : (strstr (cstr (all.take 2048 ++ le32 fdnum)) "\r\n\r\n".toList).isSome with
          | false =>
            rw [if_pos ⟨hfull, rfl⟩]
            refine ⟨_, rfl, rfl, Or.inl ⟨⟨_, rfl⟩, ?_, ?_⟩⟩
            · simp only
              rw [htake, hlen1]
            · simp
          | true =>
            rw [if_neg (by simp), if_pos rfl]
            refine ⟨_, rfl, rfl, Or.inl ⟨⟨_, rfl⟩, ?_, ?_⟩⟩
            · simp only
              rw [htake, hlen1]
            · simp
        · have hshort : (buffer ++ [b]).length < 2048 := by
            simp only [BLOCK_2048] at hfull
            omega
          have hmem : cstr (conn_struct.memory { buffer := buffer ++ [b], fdnum := fdnum, fd := src })
              = cstr (buffer ++ [b]) := cstr_memory_of_short _ hshort
          have hfound : (strstr (cstr (buffer ++ [b])) "\r\n\r\n".toList).isSome = false := by
            cases hs : strstr (cstr (buffer ++ [b])) "\r\n\r\n".toList with
            | none => rfl
            | some i =>
              exfalso
              apply hno
              have hocc := strstr_occurs _ _ i hs
              rw [htake] at hocc
              exact occurs_of_take (by omega) hocc
          rw [hmem, hfound]
          rw [if_neg (by intro hc; exact hfull hc.1)]
          simp only [Bool.false_eq_true, if_false]
          obtain ⟨h, hh, hfd, hcase⟩ := ih { buffer := buffer ++ [b], fdnum := fdnum, fd := src }
            (by simp only; omega) hall2 hshort
          refine ⟨h, hh, hfd, ?_⟩
          rcases hcase with hc | ⟨e, h1, h2, h3, h4, h5, h6⟩
          · exact Or.inl hc
          · refine Or.inr ⟨e, h1, ?_, h3, h4, ?_, ?_⟩
            · exact List.mem_cons_of_mem _ (herr e h2)
            · simp only at h5; omega
            · intro e1 he1
              exact List.mem_cons_of_mem _ (herr e1 (h6 e1 he1))

theorem handle_connection_bad_header (fs : FS) (tmpw : List WrEv) (conn : conn_struct)
    (h : HeaderRead) (hread : read_header (conn.fd.size + 1) conn OK = .ok h)
    (hcase : (h.status_code = BAD_REQ ∧ ∃ bs, h.local_read = .got bs) ∨
      ∃ e, h.local_read = .failed e ∧ e ≠ .EAGAIN) :
    handle_connection fs tmpw conn = .ok (.served
      (finish_connection h BAD_REQ
        "HTTP/1.1 400 Bad Request\r\nContent-Length: 12 \r\n\r\nBad Request\n".toList
        fs false none none 0 h.conn.fd)) := by
  have hne : ¬ (BAD_REQ = OK) := by decide
  have hresp : handle_response 0 BAD_REQ = .ok
      "HTTP/1.1 400 Bad Request\r\nContent-Length: 12 \r\n\r\nBad Request\n".toList := rfl
  unfold handle_connection
  rw [hread]
  rcases hcase with ⟨hst, bs, hl⟩ | ⟨e, hl, he⟩
  · simp only [hl, hst, Bool.false_eq_true, if_false, hne, hresp]
  · simp only [hl, he, decide_False, Bool.false_eq_true, if_false, hne, hresp]

theorem serve_long (fs : FS) (tmpw : List WrEv) (all : List Char) (fdnum : Nat)
    (hlen : 2048 ≤ all.length)
    (hno : ¬ Occurs "\r\n\r\n".toList (all.take 2048 ++ le32 fdnum)) :
    ∀ (fuel : Nat) (conn : conn_struct), conn.fd.size < fuel → conn.fdnum = fdnum →
      conn.buffer ++ conn.fd.bytes = all → conn.buffer.length < 2048 →
      ∃ s, serve fs tmpw fuel conn = .ok s ∧ s.status_code = BAD_REQ ∧
        s.parsed = false ∧ s.handler = none ∧ STATUS_PHRASES BAD_REQ = some s.sent ∧
        s.closed = true ∧ s.fs = fs ∧ (∃ k, k ≤ 2048 ∧ s.buffer = all.take k) ∧
        (OnlyLate conn.fd → s.buffer = all.take 2048) ∧
        s.log = handle_log
          (conn_struct.memory { buffer := s.buffer, fdnum := fdnum, fd := [] }) BAD_REQ := by
  have hno1 : ¬ Occurs "\r\n\r\n".toList (all.take 2048) := by
    rintro ⟨u, v, huv⟩
    exact hno ⟨u, v ++ le32 fdnum, by rw [huv]; simp only [List.append_assoc]⟩
  have hnf : (strstr (cstr (all.take 2048 ++ le32 fdnum)) "\r\n\r\n".toList).isSome = false := by
    cases hs : strstr (cstr (all.take 2048 ++ le32 fdnum)) "\r\n\r\n".toList with
    | none => rfl
    | some i => exact absurd (occurs_of_cstr (strstr_occurs _ _ i hs)) hno
  intro fuel
  induction fuel with
  | zero => intro conn h; omega
  | succ fuel ih =>
    intro conn hsz hfdn hall hbuf
    obtain ⟨h, hread, hfd, hcase⟩ :=
      read_header_long all hlen hno1 (conn.fd.size + 1) conn (by omega) hall hbuf
    have hmemeq : h.conn.memory
        = conn_struct.memory { buffer := h.conn.buffer, fdnum := fdnum, fd := [] } := by
      unfold conn_struct.memory conn_struct.bytes_read
      rw [hfd, hfdn]
    rw [serve]
    rcases hcase with ⟨hgot, hb, hst⟩ | ⟨e, hl, hmem, hall2, hbuf2, hsz2, hsub⟩
    · rw [hfdn, hnf] at hst
      rw [handle_connection_bad_header fs tmpw conn h hread (Or.inl ⟨hst, hgot⟩)]
      refine ⟨_, rfl, rfl, rfl, rfl, rfl, rfl, rfl, ⟨2048, le_refl _, hb⟩, fun _ => hb, ?_⟩
      simp only [finish_connection]
      rw [hmemeq]
    · by_cases he : e = .EAGAIN
      · have hq : handle_connection fs tmpw conn = .ok (.requeued h.conn) := by
          unfold handle_connection
          rw [hread]
          simp only [hl, he, decide_True, if_true]
        rw [hq]
        obtain ⟨s, h1, h2, h3, h4, h5, h6, h7, h8, h9, h10⟩ :=
          ih h.conn (by omega) (by rw [hfd, hfdn]) hall2 hbuf2
        refine ⟨s, h1, h2, h3, h4, h5, h6, h7, h8, ?_, h10⟩
        intro hlate
        exact h9 (fun e1 he1 => hlate e1 (hsub e1 he1))
      · rw [handle_connection_bad_header fs tmpw conn h hread (Or.inr ⟨e, hl, he⟩)]
        refine ⟨_, rfl, rfl, rfl, rfl, rfl, rfl, rfl,
          ⟨h.conn.buffer.length, by omega, ?_⟩, ?_, ?_⟩
        · simp only [finish_connection]
          rw [← hall2, List.take_left]
        · intro hlate
          exact absurd (hlate e hmem) he
        · simp only [finish_connection]
          rw [hmemeq]

theorem not_occurs_of_absent {pat s : List Char} (c : Char) (hc : c ∈ pat)
    (h : ∀ x ∈ s, x ≠ c) : ¬ Occurs pat s := by
  rintro ⟨u, v, rfl⟩
  exact h c (by simp [hc]) rfl

/-- The case of claim C9 in which the end of the array is not read past.  On a connection
that delivers at least 2048 bytes, when `\r\n\r\n` does not occur in the first 2048
bytes followed by the four bytes of the descriptor number (the field `fd`, which
follows the array in memory), the worker that handles the connection (again after each
time it went back to the queue for lack of data) ends with status 400 without calling
the parser or a method handler, sends the canned 400 response, closes the connection
and leaves the files alone; it has stored at most 2048 bytes, and exactly the first
2048 when no `read` failed other than for lack of data.  What `LOG` then does with
the stored text is `s.log`. -/
theorem header_without_end_is_bad_request (fs : FS) (tmpw : List WrEv) (evs : Source)
    (fdnum : Nat) (fuel : Nat) (hfuel : evs.size < fuel) (hlen : 2048 ≤ evs.bytes.length)
    (hno : ¬ Occurs "\r\n\r\n".toList (evs.bytes.take 2048 ++ le32 fdnum)) :
    ∃ s, serve fs tmpw fuel { buffer := [], fdnum := fdnum, fd := evs } = .ok s ∧
      s.status_code = BAD_REQ ∧ s.parsed = false ∧ s.handler = none ∧
      STATUS_PHRASES BAD_REQ = some s.sent ∧ s.closed = true ∧ s.fs = fs ∧
      (∃ k, k ≤ 2048 ∧ s.buffer = evs.bytes.take k) ∧
      (OnlyLate evs → s.buffer = evs.bytes.take 2048) ∧
      s.log = handle_log
        (conn_struct.memory { buffer := s.buffer, fdnum := fdnum, fd := [] }) BAD_REQ :=
  serve_long fs tmpw evs.bytes fdnum hlen hno fuel { buffer := [], fdnum := fdnum, fd := evs }
    hfuel rfl (by simp) (by simp)

/-- An instance of the case above: 2500 bytes on descriptor 4, the first 1000 at once and
the others after a pause. -/
theorem header_without_end_is_bad_request_witness :
    ∃ s, serve fs_example [] 3000 { buffer := [], fdnum := 4, fd := paused_header } = .ok s ∧
      s.status_code = BAD_REQ ∧ s.parsed = false ∧ s.handler = none ∧
      STATUS_PHRASES BAD_REQ = some s.sent ∧ s.closed = true ∧ s.fs = fs_example ∧
      (∃ k, k ≤ 2048 ∧ s.buffer = paused_header.bytes.take k) ∧
      (OnlyLate paused_header → s.buffer = paused_header.bytes.take 2048) ∧
      s.log = handle_log
        (conn_struct.memory { buffer := s.buffer, fdnum := 4, fd := [] }) BAD_REQ :=
  header_without_end_is_bad_request fs_example [] paused_header 4 3000
    (by decide!) (by decide!) (not_occurs_of_strstr (by decide!))

theorem onlyLate_paused_header : OnlyLate paused_header := by
  intro e he
  simp only [paused_header, List.mem_cons, List.mem_singleton, List.not_mem_nil, or_false,
    RdEv.err.injEq] at he
  rcases he with h | h | h
  · cases h
  · exact h
  · cases h

/-- What `LOG` does after the 400 answer to a header block that fills the array.  For
the request line and long header line of `paused_header` it prints `GET,/foo,400,0`.
For 2048 bytes `a` the conversion `%s` of `sscanf` stores 2048 bytes and more into the
256 bytes of `method`: the answer has been sent and the connection closed, and the
call of `handle_log` overruns its array. -/
theorem log_after_bad_header :
    (∃ s, serve fs_example [] 3000 { buffer := [], fdnum := 4, fd := paused_header } = .ok s ∧
      s.status_code = BAD_REQ ∧ s.closed = true ∧
      s.log = .ok (some "GET,/foo,400,0\n".toList)) ∧
    (∃ s, serve fs_example [] 3000
        { buffer := [], fdnum := 4, fd := [.data 'a' (List.replicate 2047 'a')] } = .ok s ∧
      s.status_code = BAD_REQ ∧ s.closed = true ∧ STATUS_PHRASES BAD_REQ = some s.sent ∧
      s.buffer = List.replicate 2048 'a' ∧ s.log = .error .overrun) := by
  constructor
  · obtain ⟨s, h1, h2, _, _, _, h6, _, _, h9, h10⟩ :=
      header_without_end_is_bad_request fs_example [] paused_header 4 3000
        (by decide!) (by decide!) (not_occurs_of_strstr (by decide!))
    refine ⟨s, h1, h2, h6, ?_⟩
    rw [h10, h9 onlyLate_paused_header]
    exact eq_ok_of_decide (by decide!)
  · obtain ⟨s, h1, h2, _, _, h5, h6, _, _, h9, h10⟩ :=
      header_without_end_is_bad_request fs_example []
        [.data 'a' (List.replicate 2047 'a')] 4 3000
        (by decide!) (by decide!) (not_occurs_of_strstr (by decide!))
    have hb : s.buffer = List.replicate 2048 'a' := by
      rw [h9 (by
        intro e he
        simp only [List.mem_singleton] at he
        cases he)]
      decide!
    refine ⟨s, h1, h2, h6, h5, hb, ?_⟩
    rw [h10, hb]
    exact eq_error_of_decide (by decide!)

/-- C9, at the failing input.  The 2048 bytes of `long_header` hold no `\r\n\r\n`; they
end in CR LF CR.  On descriptor 10 the field `fd`, which follows the array, holds the
bytes 10, 0, 0, 0, and 10 is LF: `strstr(conn->buffer, "\r\n\r\n")`, called on the full
array, which holds no terminator, finds CR LF CR LF across its end.  The status stays
200, the request is parsed and `get_request` sends `./foo`.  On descriptor 4 the same
bytes are answered with 400 and no handler runs. -/
theorem unterminated_header_is_served :
    long_header.length = 2048 ∧
    strstr long_header "\r\n\r\n".toList = none ∧
    (∃ s, handle_connection fs_example []
        { buffer := [], fdnum := 10, fd := [.data 'G' long_header_rest] } = .ok (.served s) ∧
      s.status_code = OK ∧ s.parsed = true ∧ s.handler = some GET ∧
      s.sent = "HTTP/1.1 200 OK\r\nContent-Length: 3 \r\n\r\nold".toList ∧
      s.buffer = long_header) ∧
    (∃ s, handle_connection fs_example []
        { buffer := [], fdnum := 4, fd := [.data 'G' long_header_rest] } = .ok (.served s) ∧
      s.status_code = BAD_REQ ∧ s.parsed = false ∧ s.handler = none ∧
      STATUS_PHRASES BAD_REQ = some s.sent ∧ s.closed = true ∧
      s.buffer = long_header) := by
  have hlen : long_header.length = 2048 := by decide!
  have hstr : strstr long_header "\r\n\r\n".toList = none := by decide!
  have htake : long_header.take 2048 = long_header := by
    rw [← hlen, List.take_length]
  have hno : ¬ Occurs "\r\n\r\n".toList (long_header.take 2048) := by
    rw [htake]
    exact not_occurs_of_strstr hstr
  have main : ∀ (n : Nat) (conn : conn_struct),
      conn = { buffer := [], fdnum := n, fd := [.data 'G' long_header_rest] } →
      ∃ h, read_header (conn.fd.size + 1) conn OK = .ok h ∧ (∃ bs, h.local_read = .got bs) ∧
        h.conn.buffer = long_header ∧ h.conn.fdnum = n ∧
        h.status_code =
          if (strstr (cstr (long_header ++ le32 n)) "\r\n\r\n".toList).isSome
          then OK else BAD_REQ := by
    intro n conn hc
    obtain ⟨h, hread, hfd, hcase⟩ := read_header_long long_header (by omega) hno
      (conn.fd.size + 1) conn (by omega)
      (by rw [hc]; simp [Source.bytes, long_header]) (by rw [hc]; simp)
    rcases hcase with ⟨hgot, hb, hst⟩ | ⟨e, _, hmem, _⟩
    · rw [htake] at hb hst
      rw [hc] at hfd hst
      exact ⟨h, hread, hgot, hb, hfd, hst⟩
    · rw [hc] at hmem
      simp only [List.mem_singleton] at hmem
      cases hmem
  have served : ∀ conn : conn_struct,
      conn = { buffer := [], fdnum := 10, fd := [.data 'G' long_header_rest] } →
      ∃ s, handle_connection fs_example [] conn = .ok (.served s) ∧
        s.status_code = OK ∧ s.parsed = true ∧ s.handler = some GET ∧
        s.sent = "HTTP/1.1 200 OK\r\nContent-Length: 3 \r\n\r\nold".toList ∧
        s.buffer = long_header := by
    intro conn hc
    obtain ⟨h, hread, ⟨bs, hl⟩, hb, hfd, hst⟩ := main 10 conn hc
    have hfound : (strstr (cstr (long_header ++ le32 10)) "\r\n\r\n".toList).isSome = true := by
      decide!
    rw [hfound, if_pos rfl] at hst
    have hmemory : h.conn.memory
        = conn_struct.memory { buffer := long_header, fdnum := 10, fd := [] } := by
      unfold conn_struct.memory conn_struct.bytes_read
      rw [hb, hfd]
    have hreq : handle_request fs_example
        (conn_struct.memory { buffer := long_header, fdnum := 10, fd := [] })
        { method := -1, uri_fd := none, uri := [], status_code := OK }
        = { method := GET, uri_fd := some ⟨".//foo".toList, 0⟩, uri := ".//foo".toList,
            status_code := OK } := by decide!
    have hhf : handle_hf
        (conn_struct.memory { buffer := long_header, fdnum := 10, fd := [] }) 0 OK
        = .ok (0, OK) := eq_ok_of_decide (by decide!)
    have hget : ∀ c, get_request fs_example (some ⟨".//foo".toList, 0⟩) c [] OK
        = .ok { status_code := OK, fs := fs_example,
                sent := "HTTP/1.1 200 OK\r\nContent-Length: 3 \r\n\r\nold".toList,
                conn := c } := fun c => rfl
    have hok : (OK = OK ∨ OK = CREATED) = True := by decide
    have hgetm : ¬ (GET = PUT) := by decide
    unfold handle_connection
    rw [hread]
    simp only [hl, hst, hmemory, hreq, hhf, hok, Bool.false_eq_true, if_false, if_true,
      call_method, hgetm, hget]
    exact ⟨_, rfl, rfl, rfl, rfl, rfl, hb⟩
  have refused : ∀ conn : conn_struct,
      conn = { buffer := [], fdnum := 4, fd := [.data 'G' long_header_rest] } →
      ∃ s, handle_connection fs_example [] conn = .ok (.served s) ∧
        s.status_code = BAD_REQ ∧ s.parsed = false ∧ s.handler = none ∧
        STATUS_PHRASES BAD_REQ = some s.sent ∧ s.closed = true ∧
        s.buffer = long_header := by
    intro conn hc
    obtain ⟨h, hread, hgot, hb, hfd, hst⟩ := main 4 conn hc
    have hfound : (strstr (cstr (long_header ++ le32 4)) "\r\n\r\n".toList).isSome = false := by
      decide!
    rw [hfound] at hst
    simp only [Bool.false_eq_true, if_false] at hst
    rw [handle_connection_bad_header fs_example [] conn h hread (Or.inl ⟨hst, hgot⟩)]
    exact ⟨_, rfl, rfl, rfl, rfl, rfl, rfl, hb⟩
  exact ⟨hlen, hstr, served _ rfl, refused _ rfl⟩

/-! ## C10: how much `handle_message` transfers -/

/-- The run of the witness above: the reads ask for 10, 4, 4 and 0 bytes. -/
theorem handle_message_example :
    handle_message
        [.data 'a' "bcdef".toList, .err .EAGAIN, .data 'g' "hijklmnop".toList]
        { content := [], script := [.short 3] } 10 OK
      = .ok { status_code := OK, bytes := 10,
              source := [.data 'k' "lmnop".toList],
              dest := { content := "abcghij".toList, script := [] },
              reads := [(0, 10), (6, 4), (6, 4), (10, 0)] } := by
  rfl

/-- After such an over-read `handle_message` does not return: `num_bytes` is -6, the
count `(size_t)-6` makes every further `read` fail, `*length == bytes` is false and
the outer loop goes round for ever.  In the model the step budget runs out, whatever
it is. -/
theorem overread_never_returns (fuel : Nat) :
    handle_message_loop 10 fuel (-6)
        { status_code := OK, bytes := 16, source := [],
          dest := { content := "ghijklmnop".toList, script := [] },
          reads := [] }
      = .error .steps := by
  have key : ∀ (fuel : Nat) (reads : List (Int × Int)),
      handle_message_loop 10 fuel (-6)
        { status_code := OK, bytes := 16, source := [],
          dest := { content := "ghijklmnop".toList, script := [] },
          reads := reads } = .error .steps := by
    intro fuel
    induction fuel with
    | zero => intro reads; rfl
    | succ k ih =>
      intro reads
      rw [handle_message_loop]
      have hrd : sys_read [] (sizeT (-6)) = (.failed .EFAULT, []) := by decide
      simp only [hrd]
      rw [if_neg (by decide), if_neg (by decide)]
      exact ih _
  exact key fuel []


/-! ## C11: a read that runs beside a write -/

/-- A thread that runs `get_request` alone goes through the steps of `get_step` to the
result of `get_request`. -/
theorem get_request_steps (fs : FS) (r : Req) (conn : Source) (tmpw : List WrEv)
    (length : Int) (hm : r.method = GET) :
    match get_request fs r.uri_fd conn tmpw r.status_code with
    | .error f =>
      Sys.run ⟨fs, [], [Worker.call r conn tmpw length]⟩ (List.replicate 6 0) = .error f
    | .ok h => ∃ w, Sys.run ⟨fs, [], [Worker.call r conn tmpw length]⟩ (List.replicate 6 0)
          = .ok ⟨h.fs, [], [w]⟩ ∧
        w.returned = true ∧ w.code = h.status_code ∧ w.sent = h.sent ∧ w.conn = h.conn := by
  obtain ⟨method, uri_fd, uri, status_code⟩ := r
  simp only at hm
  subst hm
  unfold get_request
  cases uri_fd with
  | none =>
    simp [List.replicate, Sys.run, Sys.step, Worker.step, Worker.call, get_step]
  | some fd =>
    cases hsz : fstat_size fs (some fd) with
    | none =>
      simp [List.replicate, Sys.run, Sys.step, Worker.step, Worker.call, get_step, hsz]
    | some size =>
      simp only []
      cases hresp : handle_response (toInt32 (toInt32 size + 1)) status_code with
      | error f =>
        simp [List.replicate, Sys.run, Sys.step, Worker.step, Worker.call, get_step, hsz, hresp]
      | ok resp =>
        simp only []
        cases hmsg : handle_message (fileSource fs fd) { content := [], script := tmpw }
            (toInt32 size) status_code with
        | error f =>
          simp [List.replicate, Sys.run, Sys.step, Worker.step, Worker.call, get_step, hsz,
            hresp, hmsg, sys_flock]
        | ok m =>
          simp [List.replicate, Sys.run, Sys.step, Worker.step, Worker.call, get_step, hsz,
            hresp, hmsg, sys_flock, sys_funlock, Worker.returned]

/-- A thread that runs `append_request` alone goes through the steps of `append_step`
to the result of `append_request`. -/
theorem append_request_steps (fs : FS) (r : Req) (conn : Source) (tmpw : List WrEv)
    (length : Int) (hm : r.method = APPEND) :
    match append_request fs r.uri_fd conn tmpw length r.status_code with
    | .error f =>
      Sys.run ⟨fs, [], [Worker.call r conn tmpw length]⟩ (List.replicate 6 0) = .error f
    | .ok h => ∃ w, Sys.run ⟨fs, [], [Worker.call r conn tmpw length]⟩ (List.replicate 6 0)
          = .ok ⟨h.fs, [], [w]⟩ ∧
        w.returned = true ∧ w.code = h.status_code ∧ w.sent = h.sent ∧ w.conn = h.conn := by
  obtain ⟨method, uri_fd, uri, status_code⟩ := r
  simp only at hm
  subst hm
  unfold append_request
  cases hmsg : handle_message conn { content := [], script := tmpw } length status_code with
  | error f =>
    simp [List.replicate, Sys.run, Sys.step, Worker.step, Worker.call, append_step, hmsg]
  | ok m =>
    simp only []
    by_cases hbad : m.status_code = BAD_REQ
    · have hresp : handle_response 0 BAD_REQ
          = .ok "HTTP/1.1 400 Bad Request\r\nContent-Length: 12 \r\n\r\nBad Request\n".toList := rfl
      simp [List.replicate, Sys.run, Sys.step, Worker.step, Worker.call, append_step, hmsg,
        hbad, hresp, Worker.returned]
    · cases hresp : handle_response 0 m.status_code with
      | error f =>
        cases hfd : lseek_end fs uri_fd with
        | none =>
          simp [List.replicate, Sys.run, Sys.step, Worker.step, Worker.call, append_step, hmsg,
            hbad, hresp, hfd]
        | some fd =>
          simp [List.replicate, Sys.run, Sys.step, Worker.step, Worker.call, append_step, hmsg,
            hbad, hresp, hfd, sys_flock, sys_funlock]
      | ok resp =>
        cases hfd : lseek_end fs uri_fd with
        | none =>
          simp [List.replicate, Sys.run, Sys.step, Worker.step, Worker.call, append_step, hmsg,
            hbad, hresp, hfd, Worker.returned]
        | some fd =>
          simp [List.replicate, Sys.run, Sys.step, Worker.step, Worker.call, append_step, hmsg,
            hbad, hresp, hfd, sys_flock, sys_funlock, Worker.returned]


/-- A thread that runs `put_request` alone goes through the steps of `put_step` to the
result of `put_request`. -/
theorem put_request_steps (fs : FS) (r : Req) (conn : Source) (tmpw : List WrEv)
    (length : Int) (hm : r.method = PUT) :
    match put_request fs r.uri conn tmpw length r.status_code with
    | .error f =>
      Sys.run ⟨fs, [], [Worker.call r conn tmpw length]⟩ (List.replicate 8 0) = .error f
    | .ok h => ∃ w, Sys.run ⟨fs, [], [Worker.call r conn tmpw length]⟩ (List.replicate 8 0)
          = .ok ⟨h.fs, [], [w]⟩ ∧
        w.returned = true ∧ w.code = h.status_code ∧ w.sent = h.sent ∧ w.conn = h.conn := by
  obtain ⟨method, uri_fd, uri, status_code⟩ := r
  simp only at hm
  subst hm
  unfold put_request
  have hbadresp : handle_response 0 BAD_REQ
      = .ok "HTTP/1.1 400 Bad Request\r\nContent-Length: 12 \r\n\r\nBad Request\n".toList := rfl
  have hcreated : handle_response 0 CREATED
      = .ok "HTTP/1.1 201 Created\r\nContent-Length: 8 \r\n\r\nCreated\n".toList := rfl
  have hcb : (CREATED = BAD_REQ) = False := by decide
  cases hmsg : handle_message conn { content := [], script := tmpw } length status_code with
  | error f =>
    simp [List.replicate, Sys.run, Sys.step, Worker.step, Worker.call, put_step, hmsg]
  | ok m =>
    simp only []
    cases hop : sys_open_trunc fs uri with
    | mk opened fs1 =>
      cases opened with
      | ok fd =>
        by_cases hbad : m.status_code = BAD_REQ
        · simp [List.replicate, Sys.run, Sys.step, Worker.step, Worker.call, put_step, hmsg,
            hop, hbad, hbadresp, Worker.returned]
        · cases hresp : handle_response 0 m.status_code with
          | error f =>
            cases fd with
            | mk path pos =>
              simp [List.replicate, Sys.run, Sys.step, Worker.step, Worker.call, put_step, hmsg,
                hop, hbad, hresp, sys_flock, sys_funlock]
          | ok resp =>
            cases fd with
            | mk path pos =>
              simp [List.replicate, Sys.run, Sys.step, Worker.step, Worker.call, put_step, hmsg,
                hop, hbad, hresp, sys_flock, sys_funlock, Worker.returned]
      | error e =>
        by_cases he : e = Errno.ENOENT
        · subst he
          cases hcr : sys_open_creat (handle_dir fs1 uri) uri with
          | mk created fs3 =>
            cases created with
            | ok fd =>
              cases fd with
              | mk path pos =>
                simp [List.replicate, Sys.run, Sys.step, Worker.step, Worker.call, put_step,
                  hmsg, hop, hcr, hcb, hcreated, sys_flock, sys_funlock, Worker.returned]
            | error e1 =>
              simp [List.replicate, Sys.run, Sys.step, Worker.step, Worker.call, put_step,
                hmsg, hop, hcr, hcb, hcreated, sys_flock, sys_funlock, Worker.returned]
        · simp [List.replicate, Sys.run, Sys.step, Worker.step, Worker.call, put_step, hmsg,
            hop, he, hbadresp, Worker.returned]

/-- The two requests of `race_put_get` as the parser hands them to the handlers. -/
theorem race_put_get_requests :
    handle_request fs_example "PUT /foo HTTP/1.1\r\nContent-Length: 5\r\n\r\n".toList Req.init
      = { method := PUT, uri_fd := none, uri := ".//foo".toList, status_code := OK } ∧
    handle_hf "PUT /foo HTTP/1.1\r\nContent-Length: 5\r\n\r\n".toList 0 OK = .ok (5, OK) ∧
    handle_request fs_example "GET /foo HTTP/1.1\r\n\r\n".toList Req.init
      = { method := GET, uri_fd := some ⟨".//foo".toList, 0⟩, uri := ".//foo".toList,
          status_code := OK } :=
  ⟨by decide, rfl, by decide⟩

/-- C11, at the failing schedules.  The file `.//foo` holds `old`; thread 0 runs
`put_request` with the body `Hello`, thread 1 runs `get_request` on the same file.
First schedule: the writer stages the body and opens the file with `O_TRUNC`, then the
reader runs from `fstat` to the end, then the writer locks, copies and answers: the
reader announces `Content-Length: 0` and sends an empty file.  Second schedule: the
reader calls `fstat` and writes its header, the writer truncates, the reader locks and
reads: it announces 3 bytes and sends none.  Third schedule: between the reader's
header and its lock the writer runs from start to end: the reader sends `Hel`, the
first 3 bytes of the new contents.  None of the three answers is the full contents
from before (`old`) or after (`Hello`) the request with its length announced. -/
theorem reader_sees_torn_file :
    (Sys.view ".//foo".toList
        (Sys.run (race_put_get "Hello") [0, 0, 1, 1, 1, 1, 1, 1, 0, 0, 0, 0])
      = .ok ([(true, OK, "HTTP/1.1 200 OK\r\nContent-Length: 3 \r\n\r\nOK\n".toList),
              (true, OK, "HTTP/1.1 200 OK\r\nContent-Length: 0 \r\n\r\n".toList)],
             .reg "Hello".toList) ∧
      ¬ AtomicRead "old".toList "Hello".toList
          "HTTP/1.1 200 OK\r\nContent-Length: 0 \r\n\r\n".toList) ∧
    (Sys.view ".//foo".toList
        (Sys.run (race_put_get "Hello") [1, 1, 0, 0, 1, 1, 1, 1, 0, 0, 0, 0])
      = .ok ([(true, OK, "HTTP/1.1 200 OK\r\nContent-Length: 3 \r\n\r\nOK\n".toList),
              (true, OK, "HTTP/1.1 200 OK\r\nContent-Length: 3 \r\n\r\n".toList)],
             .reg "Hello".toList) ∧
      ¬ AtomicRead "old".toList "Hello".toList
          "HTTP/1.1 200 OK\r\nContent-Length: 3 \r\n\r\n".toList) ∧
    (Sys.view ".//foo".toList
        (Sys.run (race_put_get "Hello") [1, 1, 0, 0, 0, 0, 0, 0, 1, 1, 1, 1])
      = .ok ([(true, OK, "HTTP/1.1 200 OK\r\nContent-Length: 3 \r\n\r\nOK\n".toList),
              (true, OK, "HTTP/1.1 200 OK\r\nContent-Length: 3 \r\n\r\nHel".toList)],
             .reg "Hello".toList) ∧
      ¬ AtomicRead "old".toList "Hello".toList
          "HTTP/1.1 200 OK\r\nContent-Length: 3 \r\n\r\nHel".toList) := by
  refine ⟨⟨rfl, ?_⟩, ⟨rfl, ?_⟩, ⟨rfl, ?_⟩⟩ <;>
    · unfold AtomicRead full_response
      decide

/-- The answers the reader of `race_put_get` gives when the threads do not overlap:
run before the writer it sends `old` in full, run after it, `Hello`. -/
theorem reader_alone_is_atomic :
    (Sys.view ".//foo".toList
        (Sys.run (race_put_get "Hello") [1, 1, 1, 1, 1, 1, 0, 0, 0, 0, 0, 0])
      = .ok ([(true, OK, "HTTP/1.1 200 OK\r\nContent-Length: 3 \r\n\r\nOK\n".toList),
              (true, OK, full_response "old".toList)], .reg "Hello".toList)) ∧
    (Sys.view ".//foo".toList
        (Sys.run (race_put_get "Hello") [0, 0, 0, 0, 0, 0, 1, 1, 1, 1, 1, 1])
      = .ok ([(true, OK, "HTTP/1.1 200 OK\r\nContent-Length: 3 \r\n\r\nOK\n".toList),
              (true, OK, full_response "Hello".toList)], .reg "Hello".toList)) :=
  ⟨rfl, rfl⟩


/-! ### An append beside a read -/

theorem handle_response_header (n code : Int) (h : 0 < n) :
    handle_response n code = .ok (get_header (n - 1)) := by
  rw [handle_response_pos n code h]
  rfl

theorem pwrite_at_end (old x : List Char) : pwrite old old.length x = old ++ x := by
  unfold pwrite
  rw [List.take_length, List.drop_of_length_le (by omega), List.append_nil]

/-- The call `sendfile` into a regular file whose offset is at its end. -/
theorem sendfile_at_end (fs : FS) (path old tmp : List Char) (count : Int)
    (h : fs.lookup path = .reg old) :
    (sendfile_to_file fs (some ⟨path, old.length⟩) tmp count).lookup path
      = .reg (old ++ tmp.take (sizeT count)) := by
  obtain ⟨loc, hloc, hnode⟩ := lookup_reg h
  unfold sendfile_to_file
  simp only [hloc, hnode]
  rw [pwrite_at_end]
  exact lookup_set _ hloc (by rw [hnode]; exact Node.noConfusion)

/-- One step of the appending thread of `race_append_get`. -/
theorem appender_step (fs : FS) (locks : List Flock) (path old after : List Char)
    (conn : Source) (tmpw : List WrEv) (length : Int) (m : Msg) (resp : List Char) (k : Nat)
    (hmsg : handle_message conn { content := [], script := tmpw } length OK = .ok m)
    (hresp : handle_response 0 m.status_code = .ok resp)
    (hafter : after = if m.status_code ≠ BAD_REQ
      then old ++ m.dest.content.take (sizeT length) else old)
    (hk : k ≤ 6) (hk34 : k = 3 ∨ k = 4 → m.status_code ≠ BAD_REQ)
    (hfs : fs.lookup path = .reg (if 4 ≤ k then after else old)) :
    ∃ k1 fs1 locks1,
      Worker.step 0 fs locks (appender_at path conn tmpw length m resp old.length k)
        = .ok (appender_at path conn tmpw length m resp old.length k1, fs1, locks1) ∧
      k ≤ k1 ∧ k1 ≤ 6 ∧ (k1 = 3 ∨ k1 = 4 → m.status_code ≠ BAD_REQ) ∧
      fs1.lookup path = .reg (if 4 ≤ k1 then after else old) := by
  have hstep : ∀ w : Worker, w.method = APPEND →
      Worker.step 0 fs locks w = append_step 0 fs locks w := by
    intro w hw
    unfold Worker.step
    rw [hw]
    simp
  rw [hstep _ rfl]
  obtain rfl | rfl | rfl | rfl | rfl | rfl | rfl :
      k = 0 ∨ k = 1 ∨ k = 2 ∨ k = 3 ∨ k = 4 ∨ k = 5 ∨ k = 6 := by omega
  · refine ⟨1, fs, locks, ?_, by omega, by omega, by omega, by simpa using hfs⟩
    simp [append_step, appender_at, hmsg]
  · refine ⟨2, fs, locks, ?_, by omega, by omega, by omega, by simpa using hfs⟩
    have hold : fs.lookup path = .reg old := by simpa using hfs
    simp [append_step, appender_at, lseek_end, hold]
  · have hold : fs.lookup path = .reg old := by simpa using hfs
    by_cases hbad : m.status_code = BAD_REQ
    · refine ⟨5, fs, locks, ?_, by omega, by omega, by omega, ?_⟩
      · simp [append_step, appender_at, hbad]
      · rw [hold, hafter]
        simp [hbad]
    · cases hl : sys_flock locks 0 path true with
      | none =>
        refine ⟨2, fs, locks, ?_, by omega, by omega, by omega, hfs⟩
        simp [append_step, appender_at, hbad, hl]
      | some locks1 =>
        refine ⟨3, fs, locks1, ?_, by omega, by omega, fun _ => hbad, by simpa using hfs⟩
        simp [append_step, appender_at, hbad, hl]
  · have hold : fs.lookup path = .reg old := by simpa using hfs
    have hbad := hk34 (Or.inl rfl)
    refine ⟨4, sendfile_to_file fs (some ⟨path, old.length⟩) m.dest.content length, locks, ?_,
      by omega, by omega, fun _ => hbad, ?_⟩
    · simp [append_step, appender_at]
    · rw [sendfile_at_end fs path old _ _ hold]
      simp [hafter, hbad]
  · refine ⟨5, fs, sys_funlock locks 0 path, ?_, by omega, by omega, by omega,
      by simpa using hfs⟩
    simp [append_step, appender_at]
  · refine ⟨6, fs, locks, ?_, by omega, by omega, by omega, by simpa using hfs⟩
    simp [append_step, appender_at, hresp]
  · refine ⟨6, fs, locks, ?_, by omega, by omega, by omega, hfs⟩
    simp [append_step, appender_at]


/-- One step of the reading thread of `race_append_get`. -/
theorem reader_step (fs : FS) (locks : List Flock) (path old after : List Char)
    (conn2 : Source) (tmpw2 : List WrEv) (k j : Nat) (len : Int) (tmp : List Char)
    (hsize : (after.length : Int) < 2147483647) (hext : ∃ x, after = old ++ x)
    (htmp2 : ∀ e ∈ tmpw2, e = WrEv.full)
    (hfs : fs.lookup path = .reg (if 4 ≤ k then after else old))
    (hinv : ReaderInv old after k j len tmp) :
    ∃ j1 len1 tmp1 locks1,
      Worker.step 1 fs locks (reader_at path conn2 tmpw2 j len tmp)
        = .ok (reader_at path conn2 tmpw2 j1 len1 tmp1, fs, locks1) ∧
      ReaderInv old after k j1 len1 tmp1 := by
  have hstep : ∀ w : Worker, w.method = GET →
      Worker.step 1 fs locks w = get_step 1 fs locks w := by
    intro w hw
    unfold Worker.step
    rw [hw]
    simp
  rw [hstep _ rfl]
  obtain ⟨x, hx⟩ := hext
  have holdlen : (old.length : Int) ≤ after.length := by
    rw [hx, List.length_append]
    omega
  obtain ⟨hj, h0, h1, h3, h4⟩ := hinv
  obtain rfl | rfl | rfl | rfl | rfl | rfl | rfl :
      j = 0 ∨ j = 1 ∨ j = 2 ∨ j = 3 ∨ j = 4 ∨ j = 5 ∨ j = 6 := by omega
  · -- fstat
    have htmp := h3 (by omega)
    subst htmp
    by_cases hk : 4 ≤ k
    · have hc : fs.lookup path = .reg after := by simpa [hk] using hfs
      refine ⟨1, after.length, [], locks, ?_, by omega, by omega, fun _ => Or.inr ⟨rfl, hk⟩,
        fun _ => rfl, by omega⟩
      have h32 : toInt32 (after.length : Int) = after.length :=
        toInt32_of_small (by omega) (by omega)
      simp [get_step, reader_at, fstat_size, hc, h32]
    · have hc : fs.lookup path = .reg old := by simpa [hk] using hfs
      refine ⟨1, old.length, [], locks, ?_, by omega, by omega, fun _ => Or.inl rfl,
        fun _ => rfl, by omega⟩
      have h32 : toInt32 (old.length : Int) = old.length :=
        toInt32_of_small (by omega) (by omega)
      simp [get_step, reader_at, fstat_size, hc, h32]
  · -- handle_response
    have htmp := h3 (by omega)
    subst htmp
    have hlen : 0 ≤ len ∧ len < 2147483647 := by
      rcases h1 (by omega) with h | ⟨h, _⟩ <;> rw [h] <;> omega
    refine ⟨2, len, [], locks, ?_, by omega, by omega, fun _ => h1 (by omega), fun _ => rfl,
      by omega⟩
    have h32 : toInt32 (len + 1) = len + 1 := toInt32_of_small (by omega) (by omega)
    have hresp := handle_response_header (len + 1) OK (by omega)
    rw [Int.add_sub_cancel] at hresp
    simp [get_step, reader_at, h32, hresp]
  · -- flock(urifd, LOCK_SH)
    have htmp := h3 (by omega)
    subst htmp
    cases hl : sys_flock locks 1 path false with
    | none =>
      refine ⟨2, len, [], locks, ?_, by omega, by omega, fun _ => h1 (by omega), fun _ => rfl,
        by omega⟩
      simp [get_step, reader_at, hl]
    | some locks1 =>
      refine ⟨3, len, [], locks1, ?_, by omega, by omega, fun _ => h1 (by omega),
        fun _ => rfl, by omega⟩
      simp [get_step, reader_at, hl]
  · -- handle_message(urifd, tmp_fd, &length, code)
    have htmp := h3 (by omega)
    subst htmp
    have key : ∀ want extra : List Char, (want = old ∨ want = after) →
        (want.length : Int) = len → (fileSource fs ⟨path, 0⟩).bytes = want ++ extra →
        ∃ j1 len1 tmp1 locks1,
          get_step 1 fs locks (reader_at path conn2 tmpw2 3 len [])
            = .ok (reader_at path conn2 tmpw2 j1 len1 tmp1, fs, locks1) ∧
          ReaderInv old after k j1 len1 tmp1 := by
      intro want extra hw hwl hsrc
      obtain ⟨m1, hm1, hst, hcontent, -⟩ := handle_message_copy (fileSource fs ⟨path, 0⟩)
        { content := [], script := tmpw2 } len OK want extra (by decide) hwl hsrc htmp2
      simp only [List.nil_append] at hcontent
      refine ⟨4, len, want, locks, ?_, by omega, by omega, fun _ => h1 (by omega),
        by omega, fun _ => ⟨hw, hwl⟩⟩
      simp [get_step, reader_at, hm1, hst, hcontent]
    rcases h1 (by omega) with hl | ⟨hl, hk⟩
    · by_cases hk : 4 ≤ k
      · have hc : fs.lookup path = .reg after := by simpa [hk] using hfs
        exact key old x (Or.inl rfl) hl.symm (by rw [fileSource_bytes fs path after hc, hx])
      · have hc : fs.lookup path = .reg old := by simpa [hk] using hfs
        exact key old [] (Or.inl rfl) hl.symm (by rw [fileSource_bytes fs path old hc]; simp)
    · have hc : fs.lookup path = .reg after := by simpa [hk] using hfs
      exact key after [] (Or.inr rfl) hl.symm (by rw [fileSource_bytes fs path after hc]; simp)
  · -- flock(urifd, LOCK_UN)
    refine ⟨5, len, tmp, sys_funlock locks 1 path, ?_, by omega, by omega,
      fun _ => h1 (by omega), by omega, fun _ => h4 (by omega)⟩
    simp [get_step, reader_at]
  · -- sendfile(connfd, tmp_fd, &offset, length)
    obtain ⟨htmp, hlen⟩ := h4 (by omega)
    have hsmall : (tmp.length : Int) < 2147483647 := by
      rcases htmp with h | h <;> rw [h] <;> omega
    refine ⟨6, len, tmp, locks, ?_, by omega, by omega, fun _ => h1 (by omega), by omega,
      fun _ => h4 (by omega)⟩
    have htake : List.take (sizeT len) tmp = tmp := by
      rw [← hlen, sizeT_length tmp hsmall, List.take_length]
    simp [get_step, reader_at, sendfile_to_sock, htake]
  · refine ⟨6, len, tmp, locks, ?_, by omega, by omega, fun _ => h1 (by omega), by omega,
      fun _ => h4 (by omega)⟩
    simp [get_step, reader_at]


theorem readerInv_mono {old after : List Char} {k k1 j : Nat} {len : Int} {tmp : List Char}
    (h : ReaderInv old after k j len tmp) (hk : k ≤ k1) : ReaderInv old after k1 j len tmp := by
  obtain ⟨hj, h0, h1, h3, h4⟩ := h
  refine ⟨hj, h0, ?_, h3, h4⟩
  intro hj1
  rcases h1 hj1 with h | ⟨h, hk4⟩
  · exact Or.inl h
  · exact Or.inr ⟨h, by omega⟩

/-- Every schedule of the two threads of `race_append_get` runs without a fault and
keeps the description of the two threads and of the file. -/
theorem append_get_run (path old after : List Char) (conn : Source) (tmpw : List WrEv)
    (length : Int) (m : Msg) (resp : List Char) (conn2 : Source) (tmpw2 : List WrEv)
    (hmsg : handle_message conn { content := [], script := tmpw } length OK = .ok m)
    (hresp : handle_response 0 m.status_code = .ok resp)
    (hafter : after = if m.status_code ≠ BAD_REQ
      then old ++ m.dest.content.take (sizeT length) else old)
    (hsize : (after.length : Int) < 2147483647)
    (htmp2 : ∀ e ∈ tmpw2, e = WrEv.full) :
    ∀ (sched : List Nat) (fs : FS) (locks : List Flock) (k j : Nat) (len : Int)
      (tmp : List Char),
      k ≤ 6 → (k = 3 ∨ k = 4 → m.status_code ≠ BAD_REQ) →
      fs.lookup path = .reg (if 4 ≤ k then after else old) → ReaderInv old after k j len tmp →
      ∃ fs1 locks1 k1 j1 len1 tmp1,
        Sys.run ⟨fs, locks, [appender_at path conn tmpw length m resp old.length k,
            reader_at path conn2 tmpw2 j len tmp]⟩ sched
          = .ok ⟨fs1, locks1, [appender_at path conn tmpw length m resp old.length k1,
              reader_at path conn2 tmpw2 j1 len1 tmp1]⟩ ∧
        k1 ≤ 6 ∧ fs1.lookup path = .reg (if 4 ≤ k1 then after else old) ∧
        ReaderInv old after k1 j1 len1 tmp1 := by
  have hext : ∃ x, after = old ++ x := by
    by_cases hbad : m.status_code = BAD_REQ
    · exact ⟨[], by rw [hafter]; simp [hbad]⟩
    · exact ⟨m.dest.content.take (sizeT length), by rw [hafter]; simp [hbad]⟩
  intro sched
  induction sched with
  | nil =>
    intro fs locks k j len tmp hk _ hfs hinv
    exact ⟨fs, locks, k, j, len, tmp, rfl, hk, hfs, hinv⟩
  | cons i rest ih =>
    intro fs locks k j len tmp hk hk34 hfs hinv
    match i with
    | 0 =>
      obtain ⟨k1, fs1, locks1, hs, hkk, hk1, hk34b, hfs1⟩ := appender_step fs locks path old
        after conn tmpw length m resp k hmsg hresp hafter hk hk34 hfs
      obtain ⟨fs2, locks2, k2, j2, len2, tmp2, hrun, h1, h2, h3⟩ :=
        ih fs1 locks1 k1 j len tmp hk1 hk34b hfs1 (readerInv_mono hinv hkk)
      refine ⟨fs2, locks2, k2, j2, len2, tmp2, ?_, h1, h2, h3⟩
      rw [← hrun]
      simp [Sys.run, Sys.step, hs]
    | 1 =>
      obtain ⟨j1, len1, tmp1, locks1, hs, hinv1⟩ := reader_step fs locks path old after conn2
        tmpw2 k j len tmp hsize hext htmp2 hfs hinv
      obtain ⟨fs2, locks2, k2, j2, len2, tmp2, hrun, h1, h2, h3⟩ :=
        ih fs locks1 k j1 len1 tmp1 hk hk34 hfs hinv1
      refine ⟨fs2, locks2, k2, j2, len2, tmp2, ?_, h1, h2, h3⟩
      rw [← hrun]
      simp [Sys.run, Sys.step, hs]
    | n + 2 =>
      obtain ⟨fs2, locks2, k2, j2, len2, tmp2, hrun, h1, h2, h3⟩ :=
        ih fs locks k j len tmp hk hk34 hfs hinv
      refine ⟨fs2, locks2, k2, j2, len2, tmp2, ?_, h1, h2, h3⟩
      rw [← hrun]
      simp [Sys.run, Sys.step]

/-- An `APPEND` beside a `GET` of the same file, in every schedule of their steps: no
thread faults; the file holds its contents from before the append or those after it
(what `append_request` run alone leaves), the latter once the appending thread has
returned, which then has the status and the answer of `append_request`; and a reader
that has returned has sent the full contents from before or after the append, announced
with their length.  The file is below `INT_MAX` bytes and the reader's writes to its
temporary file succeed. -/
theorem append_read_atomic (fs : FS) (path old after : List Char) (conn : Source)
    (tmpw : List WrEv) (length : Int) (conn2 : Source) (tmpw2 : List WrEv) (h : Handled)
    (sched : List Nat)
    (hfile : fs.lookup path = .reg old)
    (happ : append_request fs (some ⟨path, 0⟩) conn tmpw length OK = .ok h)
    (hafter : h.fs.lookup path = .reg after)
    (hsize : (after.length : Int) < 2147483647)
    (htmp2 : ∀ e ∈ tmpw2, e = WrEv.full) :
    ∃ s a g, Sys.run (race_append_get fs path conn tmpw length conn2 tmpw2) sched = .ok s ∧
      s.workers = [a, g] ∧
      (s.fs.lookup path = .reg old ∨ s.fs.lookup path = .reg after) ∧
      (a.returned = true →
        s.fs.lookup path = .reg after ∧ a.code = h.status_code ∧ a.sent = h.sent) ∧
      (g.returned = true → AtomicRead old after g.sent) := by
  unfold append_request at happ
  cases hmsg : handle_message conn { content := [], script := tmpw } length OK with
  | error f => rw [hmsg] at happ; cases happ
  | ok m =>
    rw [hmsg] at happ
    simp only [] at happ
    cases hresp : handle_response 0 m.status_code with
    | error f => rw [hresp] at happ; cases happ
    | ok resp =>
      rw [hresp] at happ
      simp only [Except.ok.injEq] at happ
      subst happ
      have hafter2 : after = if m.status_code ≠ BAD_REQ
          then old ++ m.dest.content.take (sizeT length) else old := by
        by_cases hbad : m.status_code = BAD_REQ
        · simp only [hbad, ne_eq, not_true_eq_false, if_false, hfile, Node.reg.injEq] at hafter
          simp [hbad, hafter]
        · simp only [hbad, ne_eq, not_false_eq_true, if_true, lseek_end, hfile] at hafter
          rw [sendfile_at_end fs path old _ _ hfile] at hafter
          simp only [Node.reg.injEq] at hafter
          simp [hbad, hafter]
      obtain ⟨fs1, locks1, k1, j1, len1, tmp1, hrun, hk1, hfs1, hinv⟩ :=
        append_get_run path old after conn tmpw length m resp conn2 tmpw2 hmsg hresp hafter2
          hsize htmp2 sched fs [] 0 0 0 [] (by omega) (by omega) (by simpa using hfile)
          ⟨by omega, fun _ => rfl, by omega, fun _ => rfl, by omega⟩
      refine ⟨_, _, _, hrun, rfl, ?_, ?_, ?_⟩
      · by_cases hk : 4 ≤ k1
        · exact Or.inr (by simpa [hk] using hfs1)
        · exact Or.inl (by simpa [hk] using hfs1)
      · intro hret
        have hk6 : k1 = 6 := by simpa [Worker.returned, appender_at] using hret
        subst hk6
        exact ⟨by simpa using hfs1, by simp [appender_at], by simp [appender_at]⟩
      · intro hret
        have hj6 : j1 = 6 := by simpa [Worker.returned, reader_at] using hret
        subst hj6
        obtain ⟨_, _, _, _, h4⟩ := hinv
        obtain ⟨htmp, hlen⟩ := h4 (by omega)
        have hsent : (reader_at path conn2 tmpw2 6 len1 tmp1).sent = full_response tmp1 := by
          simp [reader_at, full_response, hlen]
        rw [hsent]
        rcases htmp with ht | ht
        · exact Or.inl (by rw [ht])
        · exact Or.inr (by rw [ht])


/-- An instance of `append_read_atomic`: `Hello` appended to `.//foo`, which holds
`old`, beside a `GET` of it, in any schedule. -/
theorem append_read_atomic_example (sched : List Nat) :
    ∃ s a g, Sys.run (race_append_get fs_example ".//foo".toList [.data 'H' "ello".toList] []
        5 [] []) sched = .ok s ∧
      s.workers = [a, g] ∧
      (g.returned = true → AtomicRead "old".toList "oldHello".toList g.sent) := by
  obtain ⟨s, a, g, h1, h2, -, -, h5⟩ := append_read_atomic fs_example ".//foo".toList
    "old".toList "oldHello".toList [.data 'H' "ello".toList] [] 5 [] [] _ sched rfl rfl rfl
    (by decide) (by simp)
  exact ⟨s, a, g, h1, h2, h5⟩


/-! ## C12: the path `handle_request` resolves -/

open Regex in
/-- A match of `URI_REGEX` begins with `/` and holds nothing else than `/` and
characters of the class. -/
theorem uri_regex_shape {u : List Char} (h : Matches URI_REGEX.re u) :
    (∃ t, u = '/' :: t) ∧ ∀ x ∈ u, x = '/' ∨ isUriChar x = true := by
  obtain ⟨sl, items, rfl, hsl, hitems⟩ := (matches_seq_iff _ _ u).mp h
  obtain ⟨hne, hslash⟩ := matches_plus_lit hsl
  obtain ⟨_, hall⟩ := uri_items_shape hitems
  refine ⟨?_, ?_⟩
  · cases sl with
    | nil => exact absurd rfl hne
    | cons d t =>
      rw [hslash d (List.mem_cons_self _ _)]
      exact ⟨_, rfl⟩
  · intro x hx
    rcases List.mem_append.mp hx with h1 | h1
    · exact Or.inl (hslash x h1)
    · exact hall x h1

open Regex in
theorem uri_regex_slash : Matches URI_REGEX.re ['/'] :=
  (accepts_iff _ _).mp (by decide)

theorem mem_take_drop {x : Char} : ∀ (s : List Char) (n : Nat), x ∈ s.take n →
    ∃ m t, m < n ∧ s.drop m = x :: t := by
  intro s
  induction s with
  | nil => intro n h; simp at h
  | cons c cs ih =>
    intro n h
    cases n with
    | zero => simp at h
    | succ n1 =>
      rw [List.take_succ_cons] at h
      rcases List.mem_cons.mp h with rfl | h1
      · exact ⟨0, cs, Nat.succ_pos _, rfl⟩
      · obtain ⟨m, t, hm, ht⟩ := ih n1 h1
        exact ⟨m + 1, t, by omega, by simpa using ht⟩

/-- What `regexec` reports for `URI_REGEX` is the leftmost-longest match. -/
theorem regexec_uri_first {s : List Char} {a b : Nat}
    (h : regexec URI_REGEX s = some (a, b)) :
    FirstUriMatch s ((s.drop a).take (b - a)) := by
  have h0 : URI_REGEX.re.search s 0 = some (a, b) := by
    unfold regexec at h
    simpa [URI_REGEX] using h
  obtain ⟨n, k, h1, h2, h3, h4, h5⟩ := Regex.search_some s _ 0 a b h0
  obtain ⟨h6, h7, h8⟩ := Regex.longest_some h4
  have ha : a = n := by omega
  have hk : b - a = k := by omega
  subst ha
  rw [hk]
  refine ⟨s.take a, s.drop (a + k), ?_, ?_, h7, ?_⟩
  · rw [List.append_assoc]
    have : List.drop (a + k) s = List.drop k (List.drop a s) := by
      rw [List.drop_drop]
    rw [this, List.take_append_drop, List.take_append_drop]
  · intro x hx hsl
    subst hsl
    obtain ⟨m, t, hm, ht⟩ := mem_take_drop s a hx
    have hnone := Regex.longest_none (h5 m hm) 1
    rw [ht] at hnone
    exact hnone uri_regex_slash
  · intro j hj hm
    have hd : List.drop (a + k) s = List.drop k (List.drop a s) := by
      rw [List.drop_drop]
    rw [hd, ← List.take_add] at hm
    have hlen : k + j ≤ (List.drop a s).length := by
      rw [hd] at hj
      simp only [List.length_drop] at hj h6 ⊢
      omega
    have := h8 (k + j) hlen hm
    omega

theorem no_slash_split : ∀ (l1 l2 r1 r2 : List Char),
    (∀ x ∈ l1, x ≠ '/') → (∀ x ∈ l2, x ≠ '/') →
    l1 ++ '/' :: r1 = l2 ++ '/' :: r2 → l1 = l2 ∧ r1 = r2 := by
  intro l1
  induction l1 with
  | nil =>
    intro l2 r1 r2 _ h2 h
    cases l2 with
    | nil => simpa using h
    | cons c t =>
      simp only [List.nil_append, List.cons_append, List.cons.injEq] at h
      exact absurd h.1.symm (h2 c (List.mem_cons_self _ _))
  | cons c t ih =>
    intro l2 r1 r2 h1 h2 h
    cases l2 with
    | nil =>
      simp only [List.nil_append, List.cons_append, List.cons.injEq] at h
      exact absurd h.1 (h1 c (List.mem_cons_self _ _))
    | cons d t2 =>
      simp only [List.cons_append, List.cons.injEq] at h
      obtain ⟨hr1, hr2⟩ := ih t2 r1 r2 (fun x hx => h1 x (List.mem_cons_of_mem _ hx))
        (fun x hx => h2 x (List.mem_cons_of_mem _ hx)) h.2
      exact ⟨by rw [h.1, hr1], hr2⟩

/-- The leftmost-longest match is unique. -/
theorem firstUriMatch_unique {s u1 u2 : List Char} (h1 : FirstUriMatch s u1)
    (h2 : FirstUriMatch s u2) : u1 = u2 := by
  obtain ⟨pre1, post1, hs1, hp1, hm1, hx1⟩ := h1
  obtain ⟨pre2, post2, hs2, hp2, hm2, hx2⟩ := h2
  obtain ⟨⟨t1, rfl⟩, _⟩ := uri_regex_shape hm1
  obtain ⟨⟨t2, rfl⟩, _⟩ := uri_regex_shape hm2
  have heq : pre1 ++ '/' :: (t1 ++ post1) = pre2 ++ '/' :: (t2 ++ post2) := by
    rw [hs1] at hs2
    simpa [List.append_assoc] using hs2
  obtain ⟨_, htail⟩ := no_slash_split _ _ _ _ hp1 hp2 heq
  -- both are maximal matching prefixes of the same text
  rcases Nat.le_total t1.length t2.length with hle | hle
  · have hsplit : t2 = t1 ++ post1.take (t2.length - t1.length) := by
      have := congrArg (List.take t2.length) htail
      rw [List.take_left, List.take_append_eq_append_take, List.take_of_length_le hle] at this
      exact this.symm
    have hk := hx1 (t2.length - t1.length) (by
      have := congrArg List.length htail
      simp only [List.length_append] at this
      omega) (by
      rw [List.cons_append, ← hsplit]
      exact hm2)
    have : t1.length = t2.length := by omega
    rw [hsplit, hk, List.take_zero, List.append_nil]
  · have hsplit : t1 = t2 ++ post2.take (t1.length - t2.length) := by
      have := congrArg (List.take t1.length) htail
      rw [List.take_left, List.take_append_eq_append_take, List.take_of_length_le hle] at this
      exact this
    have hk := hx2 (t1.length - t2.length) (by
      have := congrArg List.length htail
      simp only [List.length_append] at this
      omega) (by
      rw [List.cons_append, ← hsplit]
      exact hm1)
    rw [hsplit, hk, List.take_zero, List.append_nil]


namespace Regex

theorem matches_star_append {a : Regex} {u v : List Char} (hu : Matches (star a) u)
    (hv : Matches (star a) v) : Matches (star a) (u ++ v) := by
  refine star_induction (P := fun w => Matches (star a) (w ++ v)) ?_ ?_ hu rfl
  · simpa using hv
  · intro x y hx _ hy
    rw [List.append_assoc]
    exact Matches.starCons hx hy

end Regex

open Regex in
/-- The segments of a URI of the specification, each with its `/` in front, are items
`/?[a-zA-Z0-9_.]` of `URI_REGEX`. -/
theorem uri_items_of_segments : ∀ segs : List (List Char),
    (∀ sg ∈ segs, sg ≠ [] ∧ ∀ x ∈ sg, isUriChar x = true) →
    Matches (star (seq (opt (lit '/')) (cls isUriChar)))
      (segs.map (fun sg => '/' :: sg)).flatten := by
  intro segs
  induction segs with
  | nil => intro _; exact Matches.starNil
  | cons sg rest ih =>
    intro h
    obtain ⟨hne, hall⟩ := h sg (List.mem_cons_self _ _)
    simp only [List.map_cons, List.flatten_cons]
    cases sg with
    | nil => exact absurd rfl hne
    | cons c t =>
      have hitem : Matches (seq (opt (lit '/')) (cls isUriChar)) (['/'] ++ [c]) :=
        Matches.seq (Matches.altL (Matches.cls (by decide)))
          (Matches.cls (hall c (List.mem_cons_self _ _)))
      have htail := matches_star_append
        (uri_items_of t (fun x hx => hall x (List.mem_cons_of_mem _ hx)))
        (ih (fun s hs => h s (List.mem_cons_of_mem _ hs)))
      have hsplit : ('/' :: c :: t) ++ (rest.map (fun sg => '/' :: sg)).flatten
          = (['/'] ++ [c]) ++ (t ++ (rest.map (fun sg => '/' :: sg)).flatten) := by
        simp
      rw [hsplit]
      exact Matches.starCons hitem htail

open Regex in
/-- A URI of the specification matches `URI_REGEX` as a whole. -/
theorem uri_regex_of_strict {uri : List Char} (h : StrictUri uri) :
    Matches URI_REGEX.re uri := by
  obtain ⟨segs, hne, hsegs, rfl⟩ := h
  cases segs with
  | nil => exact absurd rfl hne
  | cons sg rest =>
    obtain ⟨_, hall⟩ := hsegs sg (List.mem_cons_self _ _)
    simp only [List.map_cons, List.flatten_cons]
    have hslash : Matches (plus (lit '/')) ['/'] :=
      Matches.seq (u := ['/']) (v := []) (Matches.cls (by decide)) Matches.starNil
    have htail := matches_star_append (uri_items_of sg hall)
      (uri_items_of_segments rest (fun s hs => hsegs s (List.mem_cons_of_mem _ hs)))
    exact Matches.seq (u := ['/']) hslash htail

/-- In a text that begins with a request line of the specification, the leftmost-longest
match of `URI_REGEX` is the URI token. -/
theorem firstUriMatch_of_strict {m uri rest : List Char}
    (hm : ∀ x ∈ m, isLetter x = true) (hu : StrictUri uri) :
    FirstUriMatch (m ++ ' ' :: (uri ++ " HTTP/1.1\r\n".toList ++ rest)) uri := by
  refine ⟨m ++ [' '], " HTTP/1.1\r\n".toList ++ rest, by simp [List.append_assoc], ?_,
    uri_regex_of_strict hu, ?_⟩
  · intro x hx hsl
    subst hsl
    rcases List.mem_append.mp hx with h1 | h1
    · have := hm _ h1
      revert this
      decide
    · revert h1
      decide
  · intro k _ hmatch
    cases k with
    | zero => rfl
    | succ k1 =>
      exfalso
      have hall := (uri_regex_shape hmatch).2 ' ' (by
        apply List.mem_append_right
        simp [List.take_succ_cons])
      revert hall
      decide

/-- The descriptor `open` returns stands at the start of the file it was given. -/
theorem sys_open_fd {fs : FS} {path : List Char} {fd : Fd} (h : sys_open fs path = .ok fd) :
    fd = ⟨path, 0⟩ := by
  unfold sys_open at h
  cases hn : namei fs path with
  | error e => rw [hn] at h; cases h
  | ok loc =>
    rw [hn] at h
    simp only at h
    cases hnode : fs.node loc with
    | reg c => rw [hnode] at h; exact (Except.ok.inj h).symm
    | dir => rw [hnode] at h; exact (Except.ok.inj h).symm
    | missing => rw [hnode] at h; cases h
    | noopen e => rw [hnode] at h; cases h

theorem sys_open_wronly_fd {fs : FS} {path : List Char} {fd : Fd}
    (h : sys_open_wronly fs path = .ok fd) : fd = ⟨path, 0⟩ := by
  unfold sys_open_wronly at h
  cases hn : namei fs path with
  | error e => rw [hn] at h; cases h
  | ok loc =>
    rw [hn] at h
    simp only at h
    cases hnode : fs.node loc with
    | reg c => rw [hnode] at h; exact (Except.ok.inj h).symm
    | dir => rw [hnode] at h; cases h
    | missing => rw [hnode] at h; cases h
    | noopen e => rw [hnode] at h; cases h

/-- What `handle_urifd` does to the variables `uri` and `uri_fd` for a known method and
a path that fits the array with its prefix. -/
theorem handle_urifd_path (fs : FS) (r : Req) (hmeth : r.method = PUT ∨ r.method = GET ∨
    r.method = APPEND) (hlen : r.uri.length + 2 < BLOCK_2048) :
    (handle_urifd fs r).uri = "./".toList ++ r.uri ∧
      ((handle_urifd fs r).uri_fd = r.uri_fd ∨ (handle_urifd fs r).uri_fd = none ∨
        (handle_urifd fs r).uri_fd = some ⟨"./".toList ++ r.uri, 0⟩) := by
  have hne : r.method ≠ -1 := by
    rcases hmeth with h | h | h <;> rw [h] <;> decide
  have htmp : memcpy_text r.uri (("./".toList ++ r.uri).take (BLOCK_2048 - 1))
      = "./".toList ++ r.uri := by
    unfold memcpy_text
    have h1 : ("./".toList ++ r.uri).take (BLOCK_2048 - 1) = "./".toList ++ r.uri := by
      apply List.take_of_length_le
      simp only [List.length_append]
      have : "./".toList.length = 2 := rfl
      omega
    rw [h1, List.drop_of_length_le, List.append_nil]
    simp only [List.length_append]
    omega
  unfold handle_urifd
  rw [if_neg hne]
  simp only [htmp]
  by_cases h1 : r.method = PUT
  · rw [if_pos h1]
    exact ⟨rfl, Or.inl rfl⟩
  · rw [if_neg h1]
    by_cases h2 : r.method = GET
    · rw [if_pos h2]
      cases hop : sys_open fs ("./".toList ++ r.uri) with
      | ok fd =>
        rw [sys_open_fd hop]
        exact ⟨rfl, Or.inr (Or.inr rfl)⟩
      | error e => exact ⟨rfl, Or.inr (Or.inl rfl)⟩
    · rw [if_neg h2]
      by_cases h3 : r.method = APPEND
      · rw [if_pos h3]
        cases hop : sys_open_wronly fs ("./".toList ++ r.uri) with
        | ok fd =>
          rw [sys_open_wronly_fd hop]
          exact ⟨rfl, Or.inr (Or.inr rfl)⟩
        | error e => exact ⟨rfl, Or.inr (Or.inl rfl)⟩
      · rcases hmeth with h | h | h
        · exact absurd h h1
        · exact absurd h h2
        · exact absurd h h3


/-- Unless `handle_request` ends with 400 or 501, it has classified the method, found
a match of `URI_REGEX` and handed it to `handle_urifd`, whose result is its own. -/
theorem handle_request_accepted (fs : FS) (buffer : List Char) (r : Req)
    (h1 : (handle_request fs buffer r).status_code ≠ BAD_REQ)
    (h2 : (handle_request fs buffer r).status_code ≠ NOT_IMPL) :
    BeginsWithLetter (cstr buffer) ∧ LooseRequestLine (cstr buffer) ∧
    ∃ m uso ueo, (m = PUT ∨ m = GET ∨ m = APPEND) ∧
      regexec URI_REGEX (cstr buffer) = some (uso, ueo) ∧
      handle_request fs buffer r = handle_urifd fs
        { r with method := m,
                 uri := memcpy_text r.uri (((cstr buffer).drop uso).take (ueo - uso)) } := by
  cases hreq : regexec REQ_REGEX (cstr buffer) with
  | none =>
    exfalso
    apply h1
    simp only [handle_request, hreq]
  | some ab =>
    cases hmeth : regexec METH_REGEX (cstr buffer) with
    | none =>
      exfalso
      apply h1
      simp only [handle_request, hreq, hmeth]
    | some cd =>
      obtain ⟨so, eo⟩ := cd
      refine ⟨beginsWithLetter_of_regexec hmeth,
        looseRequestLine_of_regexec (a := ab.1) (b := ab.2) hreq, ?_⟩
      have key : ∀ m : Int, (m = PUT ∨ m = GET ∨ m = APPEND) →
          (if strncasecmp_eq (((cstr buffer).drop so).take (eo - so)) "PUT".toList 3 then some PUT
            else if strncasecmp_eq (((cstr buffer).drop so).take (eo - so)) "GET".toList 3
              then some GET
            else if strncasecmp_eq (((cstr buffer).drop so).take (eo - so)) "APPEND".toList 6
              then some APPEND
            else none) = some m →
          ∃ m uso ueo, (m = PUT ∨ m = GET ∨ m = APPEND) ∧
            regexec URI_REGEX (cstr buffer) = some (uso, ueo) ∧
            handle_request fs buffer r = handle_urifd fs
              { r with method := m,
                       uri := memcpy_text r.uri
                         (((cstr buffer).drop uso).take (ueo - uso)) } := by
        intro m hm hcl
        cases huri : regexec URI_REGEX (cstr buffer) with
        | none =>
          exfalso
          apply h1
          simp only [handle_request, hreq, hmeth, hcl, huri]
        | some ef =>
          obtain ⟨uso, ueo⟩ := ef
          cases hhttp : regexec HTTP_REGEX (cstr buffer) with
          | none =>
            exfalso
            apply h1
            simp only [handle_request, hreq, hmeth, hcl, huri, hhttp]
          | some gh =>
            refine ⟨m, uso, ueo, hm, rfl, ?_⟩
            simp only [handle_request, hreq, hmeth, hcl, huri, hhttp]
      by_cases c1 : strncasecmp_eq (((cstr buffer).drop so).take (eo - so)) "PUT".toList 3 = true
      · exact key PUT (Or.inl rfl) (by rw [if_pos c1])
      · by_cases c2 : strncasecmp_eq (((cstr buffer).drop so).take (eo - so)) "GET".toList 3
            = true
        · exact key GET (Or.inr (Or.inl rfl)) (by rw [if_neg c1, if_pos c2])
        · by_cases c3 : strncasecmp_eq (((cstr buffer).drop so).take (eo - so))
              "APPEND".toList 6 = true
          · exact key APPEND (Or.inr (Or.inr rfl)) (by rw [if_neg c1, if_neg c2, if_pos c3])
          · exfalso
            apply h2
            simp only [handle_request, hreq, hmeth, c1, c2, c3, Bool.false_eq_true, if_false]

/-- In a text that begins with a letter and holds a request line in the loose form, at
least three characters lie outside the first match of `URI_REGEX`: the first letter and
two spaces. -/
theorem uri_match_short {s u : List Char} (hb : BeginsWithLetter s)
    (hl : LooseRequestLine s) (hf : FirstUriMatch s u) : u.length + 3 ≤ s.length := by
  obtain ⟨c, t, hs, hc⟩ := hb
  obtain ⟨pre, m, sp1, v, sp2, x, e, post, hline, _, _, hsp1, hsp1all, _, hsp2, hsp2all, _⟩ := hl
  obtain ⟨pre2, post2, hsplit, _, hmatch, _⟩ := hf
  obtain ⟨⟨t2, hu⟩, hall⟩ := uri_regex_shape hmatch
  have hcount1 : sp1.count ' ' = sp1.length :=
    List.count_eq_length.mpr (fun y hy => (hsp1all y hy).symm)
  have hcount2 : sp2.count ' ' = sp2.length :=
    List.count_eq_length.mpr (fun y hy => (hsp2all y hy).symm)
  have hl1 : 0 < sp1.length := List.length_pos.mpr hsp1
  have hl2 : 0 < sp2.length := List.length_pos.mpr hsp2
  have htwo : 2 ≤ s.count ' ' := by
    rw [hline]
    simp only [List.count_append]
    omega
  have hu0 : u.count ' ' = 0 := by
    apply List.count_eq_zero.mpr
    intro hmem
    have := hall ' ' hmem
    revert this
    decide
  have hpre : pre2.count ' ' + 1 ≤ pre2.length := by
    cases pre2 with
    | nil =>
      exfalso
      rw [hs, hu] at hsplit
      simp only [List.nil_append, List.cons_append, List.cons.injEq] at hsplit
      rw [hsplit.1] at hc
      revert hc
      decide
    | cons d t3 =>
      rw [hs] at hsplit
      simp only [List.cons_append, List.cons.injEq] at hsplit
      have hd : d ≠ ' ' := by
        intro h0
        rw [hsplit.1, h0] at hc
        revert hc
        decide
      rw [List.count_cons_of_ne (Ne.symm hd), List.length_cons]
      have := List.count_le_length ' ' t3
      omega
  have hpost := List.count_le_length ' ' post2
  rw [hsplit] at htwo ⊢
  simp only [List.count_append, List.length_append] at htwo ⊢
  omega

theorem cstr_length_le (mem : List Char) : (cstr mem).length ≤ mem.length := by
  unfold cstr
  exact (List.takeWhile_sublist _).length_le


theorem cstr_request_line (m uri rest : List Char) (hm : ∀ x ∈ m, isLetter x = true)
    (hu : StrictUri uri) :
    cstr (m ++ ' ' :: (uri ++ " HTTP/1.1\r\n".toList ++ rest))
      = m ++ ' ' :: (uri ++ " HTTP/1.1\r\n".toList ++ cstr rest) := by
  have hnonul : ∀ x ∈ m ++ ' ' :: (uri ++ " HTTP/1.1\r\n".toList), x ≠ NUL := by
    intro x hx
    rcases List.mem_append.mp hx with h1 | h1
    · exact isLetter_ne_nul (hm x h1)
    · rcases List.mem_cons.mp h1 with rfl | h2
      · decide
      · rcases List.mem_append.mp h2 with h3 | h3
        · exact strictUri_no_nul hu x h3
        · have hlit : ∀ y ∈ " HTTP/1.1\r\n".toList, y ≠ NUL := by decide
          exact hlit x h3
  have := cstr_append_of_no_nul (m ++ ' ' :: (uri ++ " HTTP/1.1\r\n".toList)) rest hnonul
  simpa [List.append_assoc] using this

/-- C12 (amended). For every buffer whose text (the string that starts at it) has at most
2048 bytes and that `handle_request` accepts
(status left at 200), the variable `uri`, which is the path given to `open`, holds `./`
followed by the leftmost-longest match `u` of `URI_REGEX` in the text: the first `/` of
the text and what follows it as far as the pattern goes, made of `/`, letters, digits,
`_` and `.` only.  The descriptor `uri_fd`, when one was opened, is on that path.  When
the buffer begins with a request line `METHOD SP URI SP HTTP/1.1 CRLF` in the grammar
of the specification, `u` is the whole URI token. -/
theorem handle_request_path (fs : FS) (buffer : List Char)
    (hlen : (cstr buffer).length ≤ BLOCK_2048)
    (hok : (handle_request fs buffer Req.init).status_code = OK) :
    ∃ u, FirstUriMatch (cstr buffer) u ∧
      (∀ x ∈ u, x = '/' ∨ isUriChar x = true) ∧
      (handle_request fs buffer Req.init).uri = "./".toList ++ u ∧
      ((handle_request fs buffer Req.init).uri_fd = none ∨
        (handle_request fs buffer Req.init).uri_fd = some ⟨"./".toList ++ u, 0⟩) ∧
      ∀ m uri rest, (∀ x ∈ m, isLetter x = true) → StrictUri uri →
        buffer = m ++ ' ' :: (uri ++ " HTTP/1.1\r\n".toList ++ rest) → u = uri := by
  obtain ⟨hb, hl, m, uso, ueo, hm, huri, heq⟩ := handle_request_accepted fs buffer Req.init
    (by rw [hok]; decide) (by rw [hok]; decide)
  have hfirst := regexec_uri_first huri
  have hshort := uri_match_short hb hl hfirst
  have hcl := cstr_length_le buffer
  have hcopy : memcpy_text Req.init.uri (((cstr buffer).drop uso).take (ueo - uso))
      = ((cstr buffer).drop uso).take (ueo - uso) := by
    simp [memcpy_text, Req.init]
  rw [hcopy] at heq
  obtain ⟨hp1, hp2⟩ := handle_urifd_path fs
    { Req.init with method := m, uri := ((cstr buffer).drop uso).take (ueo - uso) } hm
    (by
      have h2048 : (BLOCK_2048 : Nat) = 2048 := rfl
      simp only [h2048] at hlen ⊢
      omega)
  refine ⟨((cstr buffer).drop uso).take (ueo - uso), hfirst, ?_, ?_, ?_, ?_⟩
  · obtain ⟨_, _, _, _, hmatch, _⟩ := hfirst
    exact (uri_regex_shape hmatch).2
  · rw [heq]
    exact hp1
  · rw [heq]
    rcases hp2 with h | h | h
    · exact Or.inl h
    · exact Or.inl h
    · exact Or.inr h
  · intro m2 uri rest hm2 hu hbuf
    have hfirst2 : FirstUriMatch (cstr buffer) uri := by
      rw [hbuf, cstr_request_line m2 uri rest hm2 hu]
      exact firstUriMatch_of_strict hm2 hu
    exact firstUriMatch_unique hfirst hfirst2

/-- Witness of C12 (amended): a `GET` of the existing file `.//foo`, as the text of the
request and as the memory of the connection that `handle_connection` hands over. -/
theorem handle_request_path_witness :
    ((cstr "GET /foo HTTP/1.1\r\n\r\n".toList).length ≤ BLOCK_2048 ∧
    (handle_request fs_example "GET /foo HTTP/1.1\r\n\r\n".toList Req.init).status_code = OK ∧
    ∃ u, FirstUriMatch (cstr "GET /foo HTTP/1.1\r\n\r\n".toList) u ∧
      (∀ x ∈ u, x = '/' ∨ isUriChar x = true) ∧
      (handle_request fs_example "GET /foo HTTP/1.1\r\n\r\n".toList Req.init).uri
        = "./".toList ++ u ∧
      ((handle_request fs_example "GET /foo HTTP/1.1\r\n\r\n".toList Req.init).uri_fd = none ∨
        (handle_request fs_example "GET /foo HTTP/1.1\r\n\r\n".toList Req.init).uri_fd
          = some ⟨"./".toList ++ u, 0⟩) ∧
      ∀ m uri rest, (∀ x ∈ m, isLetter x = true) → StrictUri uri →
        "GET /foo HTTP/1.1\r\n\r\n".toList
          = m ++ ' ' :: (uri ++ " HTTP/1.1\r\n".toList ++ rest) → u = uri) ∧
    ∃ u, FirstUriMatch (cstr (conn_struct.memory
          { buffer := "GET /foo HTTP/1.1\r\n\r\n".toList, fdnum := 4, fd := [] })) u ∧
      (∀ x ∈ u, x = '/' ∨ isUriChar x = true) ∧
      (handle_request fs_example (conn_struct.memory
          { buffer := "GET /foo HTTP/1.1\r\n\r\n".toList, fdnum := 4, fd := [] })
        Req.init).uri = "./".toList ++ u ∧
      ((handle_request fs_example (conn_struct.memory
          { buffer := "GET /foo HTTP/1.1\r\n\r\n".toList, fdnum := 4, fd := [] })
        Req.init).uri_fd = none ∨
        (handle_request fs_example (conn_struct.memory
          { buffer := "GET /foo HTTP/1.1\r\n\r\n".toList, fdnum := 4, fd := [] })
        Req.init).uri_fd = some ⟨"./".toList ++ u, 0⟩) ∧
      ∀ m uri rest, (∀ x ∈ m, isLetter x = true) → StrictUri uri →
        conn_struct.memory { buffer := "GET /foo HTTP/1.1\r\n\r\n".toList, fdnum := 4, fd := [] }
          = m ++ ' ' :: (uri ++ " HTTP/1.1\r\n".toList ++ rest) → u = uri :=
  ⟨⟨by decide, by decide,
    handle_request_path fs_example "GET /foo HTTP/1.1\r\n\r\n".toList (by decide) (by decide)⟩,
   handle_request_path fs_example
    (conn_struct.memory { buffer := "GET /foo HTTP/1.1\r\n\r\n".toList, fdnum := 4, fd := [] })
    (by decide!) (by decide!)⟩

/-- C12 (counterexample). A well-formed `GET /../etc/passwd` is accepted with status
200 and the file is opened on the path `.//../etc/passwd`, which has the segment `..`
and names a file outside the working directory; a `PUT /../x` creates the file
`.//../x` there.  And in the text `PUT/a GET /b HTTP/1.1`, whose only request line (the
match of `REQ_REGEX`) is `GET /b HTTP/1.1`, the method is taken as `PUT` and the path is
`.//a`, not `./` followed by the URI token `/b`. -/
theorem handle_request_leaves_directory :
    (spec_request_line "GET /../etc/passwd HTTP/1.1\r\n\r\n".toList = true ∧
      handle_request fs_outside "GET /../etc/passwd HTTP/1.1\r\n\r\n".toList Req.init
        = { method := GET, uri_fd := some ⟨".//../etc/passwd".toList, 0⟩,
            uri := ".//../etc/passwd".toList, status_code := OK } ∧
      HasDotDot ".//../etc/passwd".toList) ∧
    (view_conn ".//../x".toList (handle_connection fs_example []
        (conn_of "PUT /../x HTTP/1.1\r\nContent-Length: 2\r\n\r\nhi"))
      = .ok (some (CREATED, "HTTP/1.1 201 Created\r\nContent-Length: 8 \r\n\r\nCreated\n".toList,
          some PUT, none, .reg "hi".toList)) ∧
      HasDotDot ".//../x".toList) ∧
    (regexec REQ_REGEX "PUT/a GET /b HTTP/1.1\r\n\r\n".toList = some (6, 22) ∧
      ("PUT/a GET /b HTTP/1.1\r\n\r\n".toList.drop 6).take (22 - 6)
        = "GET /b HTTP/1.1\r".toList ∧
      handle_request fs_example "PUT/a GET /b HTTP/1.1\r\n\r\n".toList Req.init
        = { method := PUT, uri_fd := none, uri := ".//a".toList, status_code := OK }) := by
  refine ⟨⟨by decide, by decide, ?_⟩, ⟨eq_ok_of_decide (by decide!), ?_⟩,
    ⟨by decide, by decide, by decide⟩⟩
  · unfold HasDotDot
    decide
  · unfold HasDotDot
    decide

end HTTPServer
